import Mathlib

/-!
Verification of the systematic entity/relationship merge engine of the
KnowledgeGraph repository (`workspace_kg`), against its natural-language
specification.  The Python sources are shallowly embedded: dictionaries
become association lists, Python truthiness is made explicit, match-rule
and merge-field configuration (loaded at runtime from a YAML file that is
not part of the repository) is a parameter, and the external store is an
explicit oracle.
-/

namespace WorkspaceKG

/-- Attribute values as they occur in extracted records: strings, numbers
(Python floats are modelled as rationals), string arrays, and numeric
vectors (embeddings).  Python lists are modelled as homogeneous. -/
inductive Value where
  | vStr (s : String)
  | vNum (q : ℚ)
  | vList (l : List String)
  | vVec (v : List ℚ)
deriving DecidableEq, Repr

/-- Attribute dictionaries (`Dict[str, Any]`) as insertion-ordered
association lists. -/
abbrev Attrs := List (String × Value)

/-- First-match lookup, the embedding of `d.get(k)`. -/
def getAttr (attrs : Attrs) (k : String) : Option Value :=
  (attrs.find? (fun p => p.1 == k)).map (·.2)

/-- Python truthiness of a value. -/
def Value.truthy : Value → Bool
  | .vStr s => s != ""
  | .vNum q => q != 0
  | .vList l => !l.isEmpty
  | .vVec v => !v.isEmpty

/-- Embedding of Python `str()` applied to an attribute value. -/
def Value.pyStr : Value → String
  | .vStr s => s
  | .vNum q => toString q
  | .vList l => "[" ++ String.intercalate ", " (l.map (fun s => "\x27" ++ s ++ "\x27")) ++ "]"
  | .vVec v => "[" ++ String.intercalate ", " (v.map toString) ++ "]"

/-- ASCII lower-casing of one character, the character-level model of
`str.lower`. -/
def charLower (c : Char) : Char :=
  if 65 ≤ c.toNat ∧ c.toNat ≤ 90 then Char.ofNat (c.toNat + 32) else c

/-- The whitespace set of `str.strip()`. -/
def isSpaceChar (c : Char) : Bool :=
  c == ' ' || c == '\t' || c == '\n' || c == '\r' || c == '\x0b' || c == '\x0c'

/-- Strip leading and trailing whitespace from a character list. -/
def trimChars (l : List Char) : List Char :=
  ((l.dropWhile isSpaceChar).reverse.dropWhile isSpaceChar).reverse

/-- Embedding of `SystematicMergeProvider._normalize_string`:
`s.lower().strip() if s else ""` (ASCII model of `lower`). -/
def normalizeString (s : String) : String :=
  if s == "" then "" else String.mk (trimChars (s.data.map charLower))

/-- Embedding of Python `s.endswith(t)` as a kernel-computable test on the
character lists. -/
def strEndsWith (s t : String) : Bool := t.data.isSuffixOf s.data

/-- Embedding of `str(attrs.get(field, ''))`. -/
def attrStr (attrs : Attrs) (k : String) : String :=
  (((getAttr attrs k).getD (Value.vStr "")).pyStr)

/-- Embedding of `attrs.get(db_field, []) if isinstance(attrs.get(db_field), list) else []`. -/
def attrList (attrs : Attrs) (k : String) : List String :=
  match getAttr attrs k with
  | some (.vList l) => l
  | _ => []

/-- One systematic matching rule as read from the configuration
(`entity_config.get_systematic_merge_rules`).  Fields carry the values of
`rule.get("rule", "")`, `rule.get("match", "")`, `rule.get("db", match_field)`
(the default is applied by `dbField` below), `rule.get("type", "string")`,
`rule.get("confidence", 0.5)` and `rule.get("priority", 999)`. -/
structure MatchRule where
  rule : String
  matchField : String
  db : Option String
  fieldType : String
  confidence : ℚ
  priority : Nat
deriving DecidableEq, Repr

/-- Embedding of `db_field = rule.get("db", match_field)`. -/
def MatchRule.dbField (r : MatchRule) : String := r.db.getD r.matchField

/-- One raw extracted record of `entities_batch` (`Dict[str, Any]`), with the
keys read by `process_entities_systematic`: `entity_type`, `type`,
`entity_name`, `name`, `attributes`. -/
structure RawEntity where
  entityTypeKey : Option String
  typeKey : Option String
  entityNameKey : Option String
  nameKey : Option String
  attributes : Attrs
deriving DecidableEq, Repr

/-- Embedding of the dataclass `EntityItem`. -/
structure EntityItem where
  batchId : Nat
  entityType : String
  entityName : String
  attributes : Attrs
  originalData : RawEntity
deriving DecidableEq, Repr

/-- Fires when the `exact` rule matches: both normalized values non-empty and
equal (`systematic_merge_provider.py` lines 95-100). -/
def exactHit (r : MatchRule) (a1 a2 : Attrs) : Bool :=
  normalizeString (attrStr a1 r.matchField) != "" &&
  normalizeString (attrStr a2 r.matchField) != "" &&
  (normalizeString (attrStr a1 r.matchField) == normalizeString (attrStr a2 r.matchField))

/-- Fires when the special email-in-emails check matches in one direction
(lines 113-118): the normalized scalar of one record is a member of the
other record's normalized array. -/
def emailArrayHit (r : MatchRule) (a1 a2 : Attrs) : Bool :=
  r.matchField == "email" && r.dbField == "emails" &&
  normalizeString (attrStr a1 r.matchField) != "" &&
  ((attrList a2 r.dbField).map (fun v => normalizeString v)).contains
    (normalizeString (attrStr a1 r.matchField))

/-- Fires when the general search-in-array check matches in one direction
(lines 124-127). -/
def searchHit (r : MatchRule) (a1 a2 : Attrs) : Bool :=
  normalizeString (attrStr a1 r.matchField) != "" &&
  ((attrList a2 r.dbField).map (fun v => normalizeString v)).contains
    (normalizeString (attrStr a1 r.matchField))

/-- Fires when the two normalized arrays are non-empty and overlap
(lines 129-133, `set(normalized_list1) & set(normalized_list2)` non-empty). -/
def overlapHit (r : MatchRule) (a1 a2 : Attrs) : Bool :=
  !((attrList a1 r.dbField).map (fun v => normalizeString v)).isEmpty &&
  !((attrList a2 r.dbField).map (fun v => normalizeString v)).isEmpty &&
  ((attrList a1 r.dbField).map (fun v => normalizeString v)).any
    (fun v => ((attrList a2 r.dbField).map (fun v => normalizeString v)).contains v)

/-- Result of applying one rule inside `_entities_match`'s rule loop
(lines 88-133): `some (confidence, reason)` when the rule fires and the loop
returns, `none` when evaluation falls through to the next rule. -/
def ruleResult (r : MatchRule) (a1 a2 : Attrs) : Option (ℚ × String) :=
  if r.rule == "exact" then
    if exactHit r a1 a2 then some (r.confidence, "exact_" ++ r.matchField) else none
  else if r.rule == "search" && r.fieldType == "list" then
    if emailArrayHit r a1 a2 then
      some (r.confidence, "search_" ++ r.matchField ++ "_in_" ++ r.dbField)
    else if emailArrayHit r a2 a1 then
      some (r.confidence, "search_" ++ r.matchField ++ "_in_" ++ r.dbField)
    else if searchHit r a1 a2 || searchHit r a2 a1 then
      some (r.confidence, "search_" ++ r.matchField ++ "_in_" ++ r.dbField)
    else if overlapHit r a1 a2 then
      some (r.confidence, "overlap_" ++ r.dbField)
    else none
  else none

/-- Embedding of the `for rule in sorted(matching_rules, ...)` loop body: the
first rule that fires determines the result; otherwise
`(False, 0.0, "no_match")` (line 135). -/
def applyRulesSorted : List MatchRule → Attrs → Attrs → Bool × ℚ × String
  | [], _, _ => (false, 0, "no_match")
  | r :: rest, a1, a2 =>
    match ruleResult r a1 a2 with
    | some (c, reason) => (true, c, reason)
    | none => applyRulesSorted rest a1 a2

/-- Embedding of `attrs.get('name', '')` read as a string, as
`_basic_name_match` does.  A non-string `name` value would raise in Python
and is outside the embedded domain; it is read as the empty string here. -/
def getStrAttr (attrs : Attrs) (k : String) : String :=
  match getAttr attrs k with
  | some (.vStr s) => s
  | _ => ""

/-- Embedding of `SystematicMergeProvider._basic_name_match` (lines 137-148). -/
def basicNameMatch (i1 i2 : EntityItem) : Bool × ℚ × String :=
  if normalizeString (getStrAttr i1.attributes "name") != "" &&
     normalizeString (getStrAttr i2.attributes "name") != "" &&
     (normalizeString (getStrAttr i1.attributes "name") ==
      normalizeString (getStrAttr i2.attributes "name")) then
    (true, 7/10, "basic_name_match")
  else
    (false, 0, "no_match")

/-- Embedding of `SystematicMergeProvider._entities_match` (lines 70-135).
The rule configuration (read from the YAML file, which is not part of the
repository) is the parameter `rulesFor`. -/
def entitiesMatch (rulesFor : String → List MatchRule) (i1 i2 : EntityItem) :
    Bool × ℚ × String :=
  if i1.entityType != i2.entityType then (false, 0, "different_types")
  else if (rulesFor i1.entityType).isEmpty then basicNameMatch i1 i2
  else
    applyRulesSorted
      ((rulesFor i1.entityType).mergeSort (fun a b => Nat.ble a.priority b.priority))
      i1.attributes i2.attributes

lemma string_beq_comm (a b : String) : (a == b) = (b == a) := by
  by_cases h : a = b
  · subst h; rfl
  · have h1 : (a == b) = false := beq_eq_false_iff_ne.mpr h
    have h2 : (b == a) = false := beq_eq_false_iff_ne.mpr (Ne.symm h)
    rw [h1, h2]

lemma bool_guard_eq_comm (a b : String) (e : String) :
    (a != e && b != e && (a == b)) = (b != e && a != e && (b == a)) := by
  by_cases h : a = b
  · subst h; rfl
  · have h1 : (a == b) = false := beq_eq_false_iff_ne.mpr h
    have h2 : (b == a) = false := beq_eq_false_iff_ne.mpr (Ne.symm h)
    simp [h1, h2]

lemma any_contains_comm (l1 l2 : List String) :
    (l1.any fun v => l2.contains v) = (l2.any fun v => l1.contains v) := by
  rw [Bool.eq_iff_iff]
  simp only [List.any_eq_true, List.contains, List.elem_eq_mem, decide_eq_true_eq]
  exact ⟨fun ⟨x, h1, h2⟩ => ⟨x, h2, h1⟩, fun ⟨x, h1, h2⟩ => ⟨x, h2, h1⟩⟩

lemma exactHit_comm (r : MatchRule) (a1 a2 : Attrs) :
    exactHit r a1 a2 = exactHit r a2 a1 := by
  unfold exactHit
  exact bool_guard_eq_comm _ _ _

lemma overlapHit_comm (r : MatchRule) (a1 a2 : Attrs) :
    overlapHit r a1 a2 = overlapHit r a2 a1 := by
  unfold overlapHit
  rw [any_contains_comm,
    Bool.and_comm (!((attrList a1 r.dbField).map fun v => normalizeString v).isEmpty)
      (!((attrList a2 r.dbField).map fun v => normalizeString v).isEmpty)]

lemma ite_same_swap {α : Sort u} (a b : Bool) (x y : α) :
    (if a then x else if b then x else y) = (if b then x else if a then x else y) := by
  cases a <;> cases b <;> rfl

lemma ruleResult_comm (r : MatchRule) (a1 a2 : Attrs) :
    ruleResult r a1 a2 = ruleResult r a2 a1 := by
  unfold ruleResult
  rw [exactHit_comm r a1 a2, Bool.or_comm (searchHit r a1 a2), overlapHit_comm r a1 a2,
    ite_same_swap (emailArrayHit r a1 a2) (emailArrayHit r a2 a1)]

lemma applyRulesSorted_comm (rs : List MatchRule) (a1 a2 : Attrs) :
    applyRulesSorted rs a1 a2 = applyRulesSorted rs a2 a1 := by
  induction rs with
  | nil => rfl
  | cons r rest ih =>
    unfold applyRulesSorted
    rw [ruleResult_comm r a1 a2, ih]

lemma basicNameMatch_comm (i1 i2 : EntityItem) :
    basicNameMatch i1 i2 = basicNameMatch i2 i1 := by
  unfold basicNameMatch
  rw [bool_guard_eq_comm]

lemma entitiesMatch_comm (rulesFor : String → List MatchRule) (i1 i2 : EntityItem) :
    entitiesMatch rulesFor i1 i2 = entitiesMatch rulesFor i2 i1 := by
  unfold entitiesMatch
  by_cases h : i1.entityType = i2.entityType
  · rw [h, basicNameMatch_comm, applyRulesSorted_comm]
  · have h1 : (i1.entityType != i2.entityType) = true := by
      simp [bne_iff_ne, h]
    have h2 : (i2.entityType != i1.entityType) = true := by
      simp [bne_iff_ne, Ne.symm h]
    rw [h1, h2]
    rfl

/-- C2: for every rule configuration and every pair of entity records of the
same entity type, `_entities_match` is symmetric: the boolean match component
is equal in both directions. -/
theorem c2_entities_match_symmetric (rulesFor : String → List MatchRule)
    (a b : EntityItem) (hty : a.entityType = b.entityType) :
    (entitiesMatch rulesFor a b).1 = (entitiesMatch rulesFor b a).1 := by
  rw [entitiesMatch_comm]

/-- Witness for C2 at a concrete pair of same-type Person records. -/
theorem c2_entities_match_symmetric_witness :
    (⟨0, "Person", "J. Smith", [("name", Value.vStr "J. Smith")],
      ⟨none, none, none, none, []⟩⟩ : EntityItem).entityType =
      (⟨1, "Person", "John Smith", [("name", Value.vStr "John Smith")],
        ⟨none, none, none, none, []⟩⟩ : EntityItem).entityType ∧
    (entitiesMatch (fun _ => [])
      ⟨0, "Person", "J. Smith", [("name", Value.vStr "J. Smith")],
        ⟨none, none, none, none, []⟩⟩
      ⟨1, "Person", "John Smith", [("name", Value.vStr "John Smith")],
        ⟨none, none, none, none, []⟩⟩).1 =
    (entitiesMatch (fun _ => [])
      ⟨1, "Person", "John Smith", [("name", Value.vStr "John Smith")],
        ⟨none, none, none, none, []⟩⟩
      ⟨0, "Person", "J. Smith", [("name", Value.vStr "J. Smith")],
        ⟨none, none, none, none, []⟩⟩).1 :=
  ⟨rfl, c2_entities_match_symmetric (fun _ => []) _ _ rfl⟩

/-! ## SHA-256 and relation identifiers

`_generate_relation_id` hashes `f"{source_id}::{rel_type}::{target_id}"` with
`hashlib.sha256(...).hexdigest()`.  SHA-256 is embedded below as a pure
function over natural numbers reduced modulo `2^32`, following FIPS 180-4;
it agrees with `hashlib` on the standard test vectors. -/

def w32 (n : Nat) : Nat := n % 4294967296

def rotr (n x : Nat) : Nat := w32 ((x >>> n) ||| (x <<< (32 - n)))

def bigSigma0 (x : Nat) : Nat := rotr 2 x ^^^ rotr 13 x ^^^ rotr 22 x

def bigSigma1 (x : Nat) : Nat := rotr 6 x ^^^ rotr 11 x ^^^ rotr 25 x

def smallSigma0 (x : Nat) : Nat := rotr 7 x ^^^ rotr 18 x ^^^ (x >>> 3)

def smallSigma1 (x : Nat) : Nat := rotr 17 x ^^^ rotr 19 x ^^^ (x >>> 10)

def chFn (x y z : Nat) : Nat := (x &&& y) ^^^ ((x ^^^ 4294967295) &&& z)

def majFn (x y z : Nat) : Nat := (x &&& y) ^^^ (x &&& z) ^^^ (y &&& z)

/-- The SHA-256 round constants. -/
def shaK : List Nat :=
  [1116352408, 1899447441, 3049323471, 3921009573, 961987163, 1508970993,
   2453635748, 2870763221, 3624381080, 310598401, 607225278, 1426881987,
   1925078388, 2162078206, 2614888103, 3248222580, 3835390401, 4022224774,
   264347078, 604807628, 770255983, 1249150122, 1555081692, 1996064986,
   2554220882, 2821834349, 2952996808, 3210313671, 3336571891, 3584528711,
   113926993, 338241895, 666307205, 773529912, 1294757372, 1396182291,
   1695183700, 1986661051, 2177026350, 2456956037, 2730485921, 2820302411,
   3259730800, 3345764771, 3516065817, 3600352804, 4094571909, 275423344,
   430227734, 506948616, 659060556, 883997877, 958139571, 1322822218,
   1537002063, 1747873779, 1955562222, 2024104815, 2227730452, 2361852424,
   2428436474, 2756734187, 3204031479, 3329325298]

/-- The eight 32-bit working variables of SHA-256. -/
structure Hash8 where
  a : Nat
  b : Nat
  c : Nat
  d : Nat
  e : Nat
  f : Nat
  g : Nat
  h : Nat
deriving DecidableEq, Repr

/-- The SHA-256 initial hash value. -/
def shaH0 : Hash8 :=
  ⟨1779033703, 3144134277, 1013904242, 2773480762,
    1359893119, 2600822924, 528734635, 1541459225⟩

def shaRound (s : Hash8) (k : Nat) (w : Nat) : Hash8 :=
  let t1 := w32 (s.h + bigSigma1 s.e + chFn s.e s.f s.g + k + w)
  let t2 := w32 (bigSigma0 s.a + majFn s.a s.b s.c)
  ⟨w32 (t1 + t2), s.a, s.b, s.c, w32 (s.d + t1), s.e, s.f, s.g⟩

/-- Extends the 16 message words of one block to the 64-entry schedule. -/
def extendSchedule (ws : List Nat) : List Nat :=
  (List.range 48).foldl
    (fun w _ =>
      w ++ [w32 (smallSigma1 (w.getD (w.length - 2) 0) + w.getD (w.length - 7) 0 +
        smallSigma0 (w.getD (w.length - 15) 0) + w.getD (w.length - 16) 0)])
    ws

def processBlock (s : Hash8) (block : List Nat) : Hash8 :=
  let ws := extendSchedule block
  let t := (shaK.zip ws).foldl (fun st kw => shaRound st kw.1 kw.2) s
  ⟨w32 (s.a + t.a), w32 (s.b + t.b), w32 (s.c + t.c), w32 (s.d + t.d),
   w32 (s.e + t.e), w32 (s.f + t.f), w32 (s.g + t.g), w32 (s.h + t.h)⟩

/-- Packs big-endian bytes into 32-bit words. -/
def bytesToWords : List Nat → List Nat
  | b0 :: b1 :: b2 :: b3 :: rest => (((b0 * 256 + b1) * 256 + b2) * 256 + b3) :: bytesToWords rest
  | _ => []

def toBlocksFuel : Nat → List Nat → List (List Nat)
  | 0, _ => []
  | fuel + 1, ws => if ws.isEmpty then [] else ws.take 16 :: toBlocksFuel fuel (ws.drop 16)

/-- Splits the word stream into 16-word blocks. -/
def toBlocks (ws : List Nat) : List (List Nat) := toBlocksFuel ws.length ws

def natToBytesBE : Nat → Nat → List Nat
  | 0, _ => []
  | k + 1, n => natToBytesBE k (n / 256) ++ [n % 256]

/-- SHA-256 padding: append `0x80`, zero bytes to 56 mod 64, and the 8-byte
big-endian bit length. -/
def padMessage (msg : List Nat) : List Nat :=
  msg ++ [0x80] ++ List.replicate ((119 - msg.length % 64) % 64) 0 ++
    natToBytesBE 8 (msg.length * 8)

def hexDigitChar (n : Nat) : Char :=
  ("0123456789abcdef".data).getD n (Char.ofNat 48)

def toHexFixed : Nat → Nat → List Char
  | 0, _ => []
  | k + 1, n => toHexFixed k (n / 16) ++ [hexDigitChar (n % 16)]

/-- SHA-256 hex digest of a byte list. -/
def sha256hexBytes (msg : List Nat) : String :=
  let final := (toBlocks (bytesToWords (padMessage msg))).foldl processBlock shaH0
  String.mk (toHexFixed 8 final.a ++ toHexFixed 8 final.b ++ toHexFixed 8 final.c ++
    toHexFixed 8 final.d ++ toHexFixed 8 final.e ++ toHexFixed 8 final.f ++
    toHexFixed 8 final.g ++ toHexFixed 8 final.h)

def utf8EncodeChar (n : Nat) : List Nat :=
  if n < 0x80 then [n]
  else if n < 0x800 then [0xC0 ||| (n >>> 6), 0x80 ||| (n &&& 0x3F)]
  else if n < 0x10000 then
    [0xE0 ||| (n >>> 12), 0x80 ||| ((n >>> 6) &&& 0x3F), 0x80 ||| (n &&& 0x3F)]
  else
    [0xF0 ||| (n >>> 18), 0x80 ||| ((n >>> 12) &&& 0x3F), 0x80 ||| ((n >>> 6) &&& 0x3F),
     0x80 ||| (n &&& 0x3F)]

/-- UTF-8 encoding of a string, the embedding of `s.encode('utf-8')`. -/
def utf8Bytes (s : String) : List Nat :=
  s.data.foldr (fun c acc => utf8EncodeChar c.toNat ++ acc) []

/-- Embedding of `hashlib.sha256(s.encode('utf-8')).hexdigest()`. -/
def sha256hex (s : String) : String := sha256hexBytes (utf8Bytes s)

set_option maxRecDepth 10000 in
/-- Validation of the SHA-256 embedding on the FIPS test vector. -/
theorem sha256hex_abc :
    sha256hex "abc" = "ba7816bf8f01cfea414140de5dae2223b00361a396177a9cb410ff61f20015ad" := by
  decide

/-- Embedding of `unique_str = f"{source_id}::{rel_type}::{target_id}"` in
`SystematicMergeProvider._generate_relation_id` (lines 1181-1184). -/
def uniqueStr (sourceId targetId relType : String) : String :=
  sourceId ++ "::" ++ relType ++ "::" ++ targetId

/-- Embedding of `SystematicMergeProvider._generate_relation_id`. -/
def generateRelationId (sourceId targetId relType : String) : String :=
  sha256hex (uniqueStr sourceId targetId relType)

/-- C3 counterexample: the claim asserts that for every source S, target T and
relation type R the stored ID for direction (S,T) differs from the ID for
(T,S).  With source "a::a", target "a" and relation type "a" the two pre-hash
strings both read "a::a::a::a", so the two IDs coincide although the source
names differ: the claim is false as stated. -/
theorem c3_relation_id_direction_counterexample :
    generateRelationId "a::a" "a" "a" = generateRelationId "a" "a::a" "a" ∧
    ("a::a" : String) ≠ "a" :=
  ⟨rfl, by decide⟩

lemma takeWhile_append_stop {p : Char → Bool} (A rest : List Char) (x : Char)
    (hA : ∀ c ∈ A, p c = true) (hx : p x = false) :
    (A ++ x :: rest).takeWhile p = A := by
  induction A with
  | nil => simp [List.takeWhile_cons, hx]
  | cons a as ih =>
    have ha : p a = true := hA a (by simp)
    simp only [List.cons_append, List.takeWhile_cons, ha, if_true]
    rw [ih (fun c hc => hA c (by simp [hc]))]

lemma colonfree_prefix_eq (A B R1 R2 : List Char)
    (hA : ∀ c ∈ A, (c != ':') = true) (hB : ∀ c ∈ B, (c != ':') = true)
    (heq : A ++ ':' :: R1 = B ++ ':' :: R2) : A = B := by
  have h1 : ((A ++ ':' :: R1).takeWhile (fun c => c != ':')) = A :=
    takeWhile_append_stop A R1 ':' hA (by decide)
  have h2 : ((B ++ ':' :: R2).takeWhile (fun c => c != ':')) = B :=
    takeWhile_append_stop B R2 ':' hB (by decide)
  rw [heq, h2] at h1
  exact h1.symm

set_option maxRecDepth 10000 in
/-- C3 (amended): the stored relation ID is the deterministic pure function
`sha256(f"{source}::{type}::{target}")` of the ordered triple, so reruns and
either processing order give the same ID per direction; and direction is
preserved as extracted for all source/target names that are free of the
separator character ":": for such names the two pre-hash strings of the two
directions differ, and at the scenario values (A, B, WORKS_ON) the two hex
IDs differ.  (Without the separator-free restriction the direction clause is
false, see the counterexample; equal pre-hash strings are ruled out, while
hash-collision freedom for distinct pre-hash strings is checked concretely at
the scenario values.) -/
theorem c3_relation_id_deterministic_directional (S T R : String)
    (hS : ':' ∉ S.data) (hT : ':' ∉ T.data) (hne : S ≠ T) :
    (∀ S2 T2 R2 : String,
        generateRelationId S2 T2 R2 = sha256hex (S2 ++ "::" ++ R2 ++ "::" ++ T2)) ∧
    uniqueStr S T R ≠ uniqueStr T S R ∧
    generateRelationId "A" "B" "WORKS_ON" ≠ generateRelationId "B" "A" "WORKS_ON" := by
  refine ⟨fun _ _ _ => rfl, ?_, by decide⟩
  intro heq
  have hdata : S.data ++ ':' :: ':' :: (R.data ++ ':' :: ':' :: T.data) =
      T.data ++ ':' :: ':' :: (R.data ++ ':' :: ':' :: S.data) := by
    have h := congrArg String.data heq
    simp only [uniqueStr, String.data_append] at h
    simpa using h
  have : S.data = T.data :=
    colonfree_prefix_eq S.data T.data _ _
      (fun c hc => bne_iff_ne.mpr (fun he => hS (he ▸ hc)))
      (fun c hc => bne_iff_ne.mpr (fun he => hT (he ▸ hc)))
      hdata
  exact hne (by
    cases S
    cases T
    exact congrArg String.mk this)

set_option maxRecDepth 10000 in
/-- Witness for the amended C3 at the scenario values A, B, WORKS_ON. -/
theorem c3_relation_id_deterministic_directional_witness :
    ':' ∉ ("A" : String).data ∧ ':' ∉ ("B" : String).data ∧ ("A" : String) ≠ "B" ∧
    (uniqueStr "A" "B" "WORKS_ON" ≠ uniqueStr "B" "A" "WORKS_ON" ∧
      generateRelationId "A" "B" "WORKS_ON" ≠ generateRelationId "B" "A" "WORKS_ON") :=
  ⟨by decide, by decide, by decide,
    (c3_relation_id_deterministic_directional "A" "B" "WORKS_ON"
      (by decide) (by decide) (by decide)).2⟩

/-! ## Relation consolidation (`process_relations_systematic`)

The raw relation dictionaries, the canonical entity mapping produced by
`merge_groups_to_database`, and the pure merging of a relation group
(lines 916-1013) are embedded below. -/

/-- Embedding of Python `a or b` on two optional strings (`None` and the
empty string are falsy). -/
def pyOrStr (a b : Option String) : Option String :=
  match a with
  | some s => if s ≠ "" then some s else b
  | none => b

/-- Embedding of Python `a or default` where the fallback is a plain string. -/
def pyOrStrD (a : Option String) (b : String) : String :=
  match a with
  | some s => if s ≠ "" then s else b
  | none => b

/-- Truthiness of an optional string. -/
def optTruthy : Option String → Bool
  | some s => s ≠ ""
  | none => false

/-- One raw relation dictionary of `relations_list`, with the keys read by
`process_relations_systematic`: `source_entity`, `source`, `target_entity`,
`target`, `relationship_type`, `type`, `description`, `permissions`,
`strength`. -/
structure RelData where
  sourceEntity : Option String
  source : Option String
  targetEntity : Option String
  target : Option String
  relationshipType : Option String
  typeKey : Option String
  description : Option String
  permissions : Value
  strength : Option ℚ
deriving DecidableEq, Repr

/-- Embedding of `rel_data.get('source_entity') or rel_data.get('source')`. -/
def relSourceName (r : RelData) : Option String := pyOrStr r.sourceEntity r.source

/-- Embedding of `rel_data.get('target_entity') or rel_data.get('target')`. -/
def relTargetName (r : RelData) : Option String := pyOrStr r.targetEntity r.target

/-- Embedding of `rel_data.get('relationship_type') or rel_data.get('type')`. -/
def relTypeName (r : RelData) : Option String := pyOrStr r.relationshipType r.typeKey

/-- Embedding of `rel.get('description', '')`. -/
def descOf (r : RelData) : String := r.description.getD ""

/-- Embedding of `rel.get('relationship_type') or rel.get('type', '')`. -/
def tagOf (r : RelData) : String := pyOrStrD r.relationshipType (r.typeKey.getD "")

/-- Embedding of `float(rel.get('strength', 1.0))`. -/
def strengthOf (r : RelData) : ℚ := r.strength.getD 1

/-- One entry of the `entity_name -> entity_info` mapping built by
`merge_groups_to_database`; optional fields model keys that are present only
on some code paths. -/
structure EntityInfo where
  entityId : String
  entityType : String
  isMerged : Bool := false
  isAlias : Bool := false
  primaryName : Option String := none
  primaryEntityName : Option String := none
deriving DecidableEq, Repr

/-- Lookup in an insertion-ordered association list, the embedding of
`d.get(k)` / `d[k]`. -/
def alGet {κ α : Type} [DecidableEq κ] (m : List (κ × α)) (k : κ) : Option α :=
  (m.find? (fun p => decide (p.1 = k))).map (·.2)

/-- Key-preserving update, the embedding of `d[k] = v` (an existing key keeps
its position, a new key is appended). -/
def alSet {κ α : Type} [DecidableEq κ] (m : List (κ × α)) (k : κ) (v : α) : List (κ × α) :=
  if m.any (fun p => decide (p.1 = k)) then
    m.map (fun p => if p.1 = k then (k, v) else p)
  else
    m ++ [(k, v)]

/-- Embedding of `canonical_source = source_info.get('primary_name',
source_info['entity_id'])` (line 958). -/
def canonicalName (info : EntityInfo) : String := info.primaryName.getD info.entityId

/-- Embedding of `rel_data_with_canonical` (lines 971-975): the relation
record together with its canonical and original endpoint names. -/
structure RelWithCanonical where
  rel : RelData
  canonicalSource : String
  canonicalTarget : String
  originalSource : String
  originalTarget : String
deriving DecidableEq, Repr

/-- One iteration of the grouping loop of `process_relations_systematic`
(lines 931-977): a relation with missing or unmapped endpoints is skipped,
the rest are grouped by `(canonical_source, canonical_target, rel_type)`. -/
def groupRelStep (entityMapping : List (String × EntityInfo))
    (groups : List ((String × String × String) × List RelWithCanonical))
    (relData : RelData) :
    List ((String × String × String) × List RelWithCanonical) :=
  match relSourceName relData, relTargetName relData, relTypeName relData with
  | some sourceName, some targetName, some relType =>
    if sourceName = "" ∨ targetName = "" ∨ relType = "" then groups
    else
      match alGet entityMapping sourceName, alGet entityMapping targetName with
      | some sourceInfo, some targetInfo =>
        let canonicalSource := canonicalName sourceInfo
        let canonicalTarget := canonicalName targetInfo
        let key := (canonicalSource, canonicalTarget, relType)
        let entry : RelWithCanonical :=
          ⟨relData, canonicalSource, canonicalTarget, sourceName, targetName⟩
        match alGet groups key with
        | some existing => alSet groups key (existing ++ [entry])
        | none => groups ++ [(key, [entry])]
      | _, _ => groups
  | _, _, _ => groups

/-- Embedding of the grouping loop of `process_relations_systematic`
(lines 931-977), grouping the kept relations in key-insertion order. -/
def groupRelations (relations : List RelData)
    (entityMapping : List (String × EntityInfo)) :
    List ((String × String × String) × List RelWithCanonical) :=
  relations.foldl (groupRelStep entityMapping) []

/-- The accumulator of the per-group merging loop (lines 984-1013). -/
structure MergedRel where
  descriptions : List String
  relationTags : List String
  permissions : List Value
  sources : List String
  maxStrength : ℚ
deriving DecidableEq, Repr

/-- Embedding of the `for perm in perms` permission merging (lines 1003-1009). -/
def mergePerms (acc : List Value) (perms : Value) : List Value :=
  match perms with
  | .vList l =>
    l.foldl (fun a s => if s ≠ "" ∧ Value.vStr s ∉ a then a ++ [Value.vStr s] else a) acc
  | v => if v.truthy ∧ v ∉ acc then acc ++ [v] else acc

/-- One iteration of the member loop of the per-group merge (lines 991-1013). -/
def mergeRelStep (st : MergedRel) (r : RelWithCanonical) : MergedRel :=
  let desc := descOf r.rel
  let descriptions :=
    if desc ≠ "" ∧ desc ∉ st.descriptions then st.descriptions ++ [desc] else st.descriptions
  let tag := tagOf r.rel
  let relationTags :=
    if tag ≠ "" ∧ tag ∉ st.relationTags then st.relationTags ++ [tag] else st.relationTags
  let permissions := mergePerms st.permissions r.rel.permissions
  let maxStrength := max st.maxStrength (strengthOf r.rel)
  ⟨descriptions, relationTags, permissions, st.sources, maxStrength⟩

/-- Embedding of the per-group merge (lines 984-1013): descriptions, tags and
permissions accumulate with first-seen deduplication, `merged_sources` starts
as `[source_item_id]`, and `max_strength` starts at `0.0`. -/
def mergeRelationGroup (relations : List RelWithCanonical) (sourceItemId : String) : MergedRel :=
  relations.foldl mergeRelStep ⟨[], [], [], [sourceItemId], 0⟩

/-- The fields of a stored relation read back by the existing-relation merge
(lines 1050-1079). -/
structure StoredRelation where
  description : List String
  relationTag : List String
  permissions : List Value
  sources : List String
  strength : Option ℚ
deriving DecidableEq, Repr

/-- Order-preserving deduplicating append, the common shape of all the
`if x not in xs: xs.append(x)` loops. -/
def dedupAppend {α : Type} [DecidableEq α] (acc : List α) (xs : List α) : List α :=
  xs.foldl (fun a x => if x ∈ a then a else a ++ [x]) acc

/-- Embedding of the `if existing_relation:` update computation
(lines 1050-1079): array union into the existing lists, source appended if
new, and `strength = max(existing_relation.get('strength', 0), max_strength)`. -/
def mergeIntoExistingRelation (ex : StoredRelation) (m : MergedRel)
    (sourceItemId : String) : StoredRelation :=
  { description := dedupAppend ex.description m.descriptions
    relationTag := dedupAppend ex.relationTag m.relationTags
    permissions := dedupAppend ex.permissions m.permissions
    sources := if sourceItemId ∈ ex.sources then ex.sources else ex.sources ++ [sourceItemId]
    strength := some (max (ex.strength.getD 0) m.maxStrength) }

lemma mergeRelFold_descriptions (rels : List RelWithCanonical) (st : MergedRel) :
    (rels.foldl mergeRelStep st).descriptions =
      dedupAppend st.descriptions ((rels.map (fun r => descOf r.rel)).filter (fun d => d ≠ "")) := by
  induction rels generalizing st with
  | nil => rfl
  | cons r rest ih =>
    have hfilter : (((r :: rest).map (fun r => descOf r.rel)).filter (fun d => d ≠ "")) =
        if descOf r.rel = "" then ((rest.map (fun r => descOf r.rel)).filter (fun d => d ≠ ""))
        else descOf r.rel :: ((rest.map (fun r => descOf r.rel)).filter (fun d => d ≠ "")) := by
      simp only [List.map_cons, List.filter_cons]
      by_cases hd : descOf r.rel = "" <;> simp [hd]
    by_cases hd : descOf r.rel = ""
    · have hstep : (mergeRelStep st r).descriptions = st.descriptions := by
        simp [mergeRelStep, hd]
      rw [List.foldl_cons, ih, hstep, hfilter, if_pos hd]
    · have hstep : (mergeRelStep st r).descriptions =
          if descOf r.rel ∈ st.descriptions then st.descriptions
          else st.descriptions ++ [descOf r.rel] := by
        by_cases hmem : descOf r.rel ∈ st.descriptions <;> simp [mergeRelStep, hd, hmem]
      rw [List.foldl_cons, ih, hstep, hfilter, if_neg hd]
      simp only [dedupAppend, List.foldl_cons]

lemma mergeRelFold_tags (rels : List RelWithCanonical) (st : MergedRel) :
    (rels.foldl mergeRelStep st).relationTags =
      dedupAppend st.relationTags ((rels.map (fun r => tagOf r.rel)).filter (fun t => t ≠ "")) := by
  induction rels generalizing st with
  | nil => rfl
  | cons r rest ih =>
    have hfilter : (((r :: rest).map (fun r => tagOf r.rel)).filter (fun t => t ≠ "")) =
        if tagOf r.rel = "" then ((rest.map (fun r => tagOf r.rel)).filter (fun t => t ≠ ""))
        else tagOf r.rel :: ((rest.map (fun r => tagOf r.rel)).filter (fun t => t ≠ "")) := by
      simp only [List.map_cons, List.filter_cons]
      by_cases ht : tagOf r.rel = "" <;> simp [ht]
    by_cases ht : tagOf r.rel = ""
    · have hstep : (mergeRelStep st r).relationTags = st.relationTags := by
        simp [mergeRelStep, ht]
      rw [List.foldl_cons, ih, hstep, hfilter, if_pos ht]
    · have hstep : (mergeRelStep st r).relationTags =
          if tagOf r.rel ∈ st.relationTags then st.relationTags
          else st.relationTags ++ [tagOf r.rel] := by
        by_cases hmem : tagOf r.rel ∈ st.relationTags <;> simp [mergeRelStep, ht, hmem]
      rw [List.foldl_cons, ih, hstep, hfilter, if_neg ht]
      simp only [dedupAppend, List.foldl_cons]

lemma mergeRelFold_strength (rels : List RelWithCanonical) (st : MergedRel) :
    (rels.foldl mergeRelStep st).maxStrength =
      (rels.map (fun r => strengthOf r.rel)).foldl max st.maxStrength := by
  induction rels generalizing st with
  | nil => rfl
  | cons r rest ih =>
    simp only [List.foldl_cons, List.map_cons]
    rw [ih]
    rfl

lemma mergeRelFold_sources (rels : List RelWithCanonical) (st : MergedRel) :
    (rels.foldl mergeRelStep st).sources = st.sources := by
  induction rels generalizing st with
  | nil => rfl
  | cons r rest ih =>
    simp only [List.foldl_cons]
    rw [ih]
    rfl

/-- C4 counterexample: the claim states the merged strength equals the maximum
strength observed across the members.  For a group whose only member has
strength -1, the code computes `max(0.0, -1.0) = 0.0` (the accumulator starts
at `0.0`, line 989), not the observed maximum -1: the claim is false as
stated. -/
theorem c4_merge_strength_counterexample :
    (mergeRelationGroup
      [⟨⟨some "A", none, some "B", none, some "WORKS_ON", none, some "helps with X",
          Value.vList [], some (-1)⟩, "A", "B", "A", "B"⟩] "batch1").maxStrength = 0 ∧
    strengthOf (⟨some "A", none, some "B", none, some "WORKS_ON", none, some "helps with X",
        Value.vList [], some (-1)⟩ : RelData) = -1 ∧
    (0 : ℚ) ≠ -1 := by
  refine ⟨?_, by decide, by decide⟩
  decide

/-- C4 (amended): for every relation group, the merged descriptions and tags
are the order-preserving first-seen deduplicated union of the members'
non-empty values (falsy values are dropped by the `if desc and ...` guards),
the merged strength is the maximum of the members' strengths (absent strength
defaulting to 1.0) clamped below at the accumulator start 0.0, the sources
start from the provenance identifier, and merging into an existing stored
relation takes the maximum of the existing and new strengths; the scenario
with descriptions "helps with X" (strength 5) and "also reviews Y"
(strength 7) yields exactly those two descriptions in order and strength 7. -/
theorem c4_relation_group_merge (rels : List RelWithCanonical) (src : String)
    (ex : StoredRelation) :
    (mergeRelationGroup rels src).descriptions =
      dedupAppend [] ((rels.map (fun r => descOf r.rel)).filter (fun d => d ≠ "")) ∧
    (mergeRelationGroup rels src).relationTags =
      dedupAppend [] ((rels.map (fun r => tagOf r.rel)).filter (fun t => t ≠ "")) ∧
    (mergeRelationGroup rels src).maxStrength =
      (rels.map (fun r => strengthOf r.rel)).foldl max 0 ∧
    (mergeRelationGroup rels src).sources = [src] ∧
    (mergeIntoExistingRelation ex (mergeRelationGroup rels src) src).strength =
      some (max (ex.strength.getD 0) ((rels.map (fun r => strengthOf r.rel)).foldl max 0)) ∧
    ((mergeRelationGroup
        [⟨⟨some "A", none, some "B", none, some "WORKS_ON", none, some "helps with X",
            Value.vList [], some 5⟩, "A", "B", "A", "B"⟩,
         ⟨⟨some "A", none, some "B", none, some "WORKS_ON", none, some "also reviews Y",
            Value.vList [], some 7⟩, "A", "B", "A", "B"⟩] "batch1").descriptions =
        ["helps with X", "also reviews Y"] ∧
      (mergeRelationGroup
        [⟨⟨some "A", none, some "B", none, some "WORKS_ON", none, some "helps with X",
            Value.vList [], some 5⟩, "A", "B", "A", "B"⟩,
         ⟨⟨some "A", none, some "B", none, some "WORKS_ON", none, some "also reviews Y",
            Value.vList [], some 7⟩, "A", "B", "A", "B"⟩] "batch1").maxStrength = 7) := by
  refine ⟨mergeRelFold_descriptions rels _, mergeRelFold_tags rels _,
    mergeRelFold_strength rels _, mergeRelFold_sources rels _, ?_, by decide, ?_⟩
  · simp only [mergeIntoExistingRelation, mergeRelationGroup]
    rw [mergeRelFold_strength]
  · decide

/-! ## Store interaction of relation processing

`process_relations_systematic` consults the store through
`get_relation`, `get_entity`, `create_relation` and `update_relation`
(`kuzu_db_handler.py`).  The store is modelled as an oracle; the outcome of
one `execute_cypher` call distinguishes returned rows from a raised
exception. -/

/-- Outcome of one `execute_cypher` call as seen by the error handling of
`kuzu_db_handler`: either the query succeeded with a (possibly empty) row
list, or the call raised. -/
inductive QueryOutcome (α : Type) where
  | rows (data : List α)
  | failure
deriving DecidableEq, Repr

/-- Embedding of `KuzuDBHandler.get_entity` (lines 276-292): the first row if
any, `None` when the query succeeds with no rows (definitive absence), and
`None` again when the call raises (the `except` clause returns `None`). -/
def getEntityResult (q : QueryOutcome Attrs) : Option Attrs :=
  match q with
  | .rows (e :: _) => some e
  | .rows [] => none
  | .failure => none

/-- The Python values the `source_exists` / `target_exists` variables of
`process_relations_systematic` could hold: `None`, the literal `False` the
code compares against (lines 1151, 1155), or an entity dictionary. -/
inductive PyLookup where
  | pyNone
  | pyFalse
  | pyEntity (e : Attrs)
deriving DecidableEq, Repr

/-- The value of `source_exists` after the lookup block (lines 1136-1147):
the variable starts as `None` and receives `get_entity`'s result; a raise
inside the block leaves it `None`. -/
def entityLookupPy (q : QueryOutcome Attrs) : PyLookup :=
  match getEntityResult q with
  | some e => .pyEntity e
  | none => .pyNone

/-- The store oracle used by `process_relations_systematic`.  `getRelation`
is the result of `db_handler.get_relation(relation_id)` (a stored relation or
`None`, both for absence and for errors, lines 479-493); `entityLookup` is
the raw query outcome behind `db_handler.get_entity(type, id)`;
`createRelation` tells whether `db_handler.create_relation(...)` returns a
truthy result. -/
structure RelOracle where
  getRelation : String → Option StoredRelation
  entityLookup : String → String → QueryOutcome Attrs
  createRelation : String → String → String → String → MergedRel → Bool

/-- Embedding of the per-group body of step 2 of
`process_relations_systematic` (lines 980-1176), projected to the
`relations_processed` contribution.  On the update path the merged update
payload is `mergeIntoExistingRelation` (embedded above) and the counter is
incremented unconditionally after `update_relation` (lines 1101-1102); on the
create path the endpoint lookups are compared against the literal `False`
(lines 1151-1157) before `create_relation` is attempted.  The
`entity_mapping[...]` accesses at lines 1110-1111 cannot fail for groups
built by the grouping step; the impossible branch contributes zero. -/
def processRelationGroup (oracle : RelOracle) (entityMapping : List (String × EntityInfo))
    (sourceItemId : String) (key : String × String × String)
    (rels : List RelWithCanonical) : Nat :=
  let canonicalSource := key.1
  let canonicalTarget := key.2.1
  let relType := key.2.2
  let relationId := generateRelationId canonicalSource canonicalTarget relType
  let merged := mergeRelationGroup rels sourceItemId
  match oracle.getRelation relationId with
  | some _ => 1
  | none =>
    match rels with
    | [] => 0
    | firstRelation :: _ =>
      match alGet entityMapping firstRelation.originalSource,
            alGet entityMapping firstRelation.originalTarget with
      | some sourceInfo, some targetInfo =>
        let sourceExists := entityLookupPy (oracle.entityLookup sourceInfo.entityType canonicalSource)
        let targetExists := entityLookupPy (oracle.entityLookup targetInfo.entityType canonicalTarget)
        if sourceExists = PyLookup.pyFalse then 0
        else if targetExists = PyLookup.pyFalse then 0
        else if oracle.createRelation sourceInfo.entityType canonicalSource
            targetInfo.entityType canonicalTarget merged then 1
        else 0
      | _, _ => 0

/-- Embedding of `process_relations_systematic` (lines 916-1179), projected
to the returned `relations_processed` count. -/
def processRelationsCount (oracle : RelOracle) (relations : List RelData)
    (entityMapping : List (String × EntityInfo)) (sourceItemId : String) : Nat :=
  (groupRelations relations entityMapping).foldl
    (fun acc kv => acc + processRelationGroup oracle entityMapping sourceItemId kv.1 kv.2) 0

/-- Whether one raw relation survives the grouping-loop guards (lines
936-951): all three of source name, target name and relation type truthy, and
both endpoint names present in the entity mapping. -/
def relKept (entityMapping : List (String × EntityInfo)) (r : RelData) : Bool :=
  match relSourceName r, relTargetName r, relTypeName r with
  | some s, some t, some ty =>
    if s = "" ∨ t = "" ∨ ty = "" then false
    else ((alGet entityMapping s).isSome && (alGet entityMapping t).isSome)
  | _, _, _ => false

lemma processRelationGroup_le_one (oracle : RelOracle)
    (entityMapping : List (String × EntityInfo)) (sourceItemId : String)
    (key : String × String × String) (rels : List RelWithCanonical) :
    processRelationGroup oracle entityMapping sourceItemId key rels ≤ 1 := by
  unfold processRelationGroup
  dsimp only
  repeat' split
  all_goals omega

lemma alSet_length_le {κ α : Type} [DecidableEq κ] (m : List (κ × α)) (k : κ) (v : α) :
    (alSet m k v).length ≤ m.length + 1 := by
  unfold alSet
  split
  · rw [List.length_map]
    omega
  · simp

lemma groupRelStep_length (entityMapping : List (String × EntityInfo))
    (groups : List ((String × String × String) × List RelWithCanonical)) (r : RelData) :
    (groupRelStep entityMapping groups r).length ≤
      groups.length + (if relKept entityMapping r then 1 else 0) := by
  unfold groupRelStep relKept
  rcases hS : relSourceName r with _ | s <;> rcases hT : relTargetName r with _ | t <;>
    rcases hTy : relTypeName r with _ | ty <;> simp only []
  all_goals try omega
  by_cases hempty : s = "" ∨ t = "" ∨ ty = ""
  · simp [hempty]
  · simp only [hempty, if_neg, if_false]
    rcases hgs : alGet entityMapping s with _ | si <;>
      rcases hgt : alGet entityMapping t with _ | ti <;>
      simp only [Option.isSome_none, Option.isSome_some, Bool.and_false, Bool.false_and,
        Bool.and_true, Bool.true_and, if_false, if_true]
    all_goals try omega
    split
    · exact le_trans (alSet_length_le _ _ _) (by omega)
    · rw [List.length_append]
      simp

lemma foldl_groupRelStep_length (entityMapping : List (String × EntityInfo))
    (rels : List RelData) :
    ∀ st : List ((String × String × String) × List RelWithCanonical),
      (rels.foldl (groupRelStep entityMapping) st).length ≤
        st.length + (rels.filter (relKept entityMapping)).length := by
  induction rels with
  | nil => intro st; simp
  | cons r rest ih =>
    intro st
    rw [List.foldl_cons]
    refine le_trans (ih _) ?_
    have hstep := groupRelStep_length entityMapping st r
    rw [List.filter_cons]
    by_cases hk : relKept entityMapping r = true
    · simp only [hk, if_true, List.length_cons]
      simp only [hk, if_true] at hstep
      omega
    · have hk2 : relKept entityMapping r = false := by
        cases h : relKept entityMapping r
        · rfl
        · exact absurd h hk
      simp only [hk2, Bool.false_eq_true, if_false]
      simp only [hk2, Bool.false_eq_true, if_false] at hstep
      omega

lemma foldl_count_le_length {κ : Type} (l : List κ) (f : κ → Nat)
    (hf : ∀ x ∈ l, f x ≤ 1) :
    ∀ init : Nat, l.foldl (fun acc kv => acc + f kv) init ≤ init + l.length := by
  induction l with
  | nil => intro init; simp
  | cons x rest ih =>
    intro init
    rw [List.foldl_cons]
    refine le_trans (ih (fun y hy => hf y (by simp [hy])) _) ?_
    have := hf x (by simp)
    simp only [List.length_cons]
    omega

lemma filter_length_lt_of_counterexample {α : Type} (l : List α) (p : α → Bool)
    (x : α) (hx : x ∈ l) (hpx : p x = false) :
    (l.filter p).length < l.length := by
  induction l with
  | nil => cases hx
  | cons y rest ih =>
    rw [List.filter_cons, List.length_cons]
    rcases List.mem_cons.mp hx with hxy | hxr
    · subst hxy
      rw [hpx]
      simp only [Bool.false_eq_true, if_false]
      have := List.length_filter_le p rest
      omega
    · by_cases hpy : p y = true
      · simp only [hpy, if_true, List.length_cons]
        have := ih hxr
        omega
      · have hpy2 : p y = false := by
          cases h : p y
          · rfl
          · exact absurd h hpy
        rw [hpy2]
        simp only [Bool.false_eq_true, if_false]
        have := ih hxr
        omega

/-- C8: every relation whose source or target name is absent from the
canonical entity mapping is skipped by the grouping loop without raising (the
embedded call is total and returns a count), and the returned processed count
stays strictly below the number of input relations. -/
theorem c8_unmapped_relation_processed_count_lt (oracle : RelOracle)
    (relations : List RelData) (entityMapping : List (String × EntityInfo))
    (sourceItemId : String) (r : RelData) (hr : r ∈ relations)
    (hfields : optTruthy (relSourceName r) = true ∧ optTruthy (relTargetName r) = true ∧
      optTruthy (relTypeName r) = true)
    (hmiss : (∃ s, relSourceName r = some s ∧ alGet entityMapping s = none) ∨
      (∃ t, relTargetName r = some t ∧ alGet entityMapping t = none)) :
    processRelationsCount oracle relations entityMapping sourceItemId < relations.length := by
  have hkept : relKept entityMapping r = false := by
    obtain ⟨hs, ht, hty⟩ := hfields
    unfold relKept
    rcases hS : relSourceName r with _ | s
    · rfl
    · rcases hT : relTargetName r with _ | t
      · rfl
      · rcases hTy : relTypeName r with _ | ty
        · rfl
        · simp only []
          rw [hS] at hs
          rw [hT] at ht
          rw [hTy] at hty
          simp only [optTruthy, decide_eq_true_eq] at hs ht hty
          have hne : ¬(s = "" ∨ t = "" ∨ ty = "") := by
            push_neg
            exact ⟨hs, ht, hty⟩
          rw [if_neg hne]
          rcases hmiss with ⟨s2, hs2, hget⟩ | ⟨t2, ht2, hget⟩
          · rw [hS] at hs2
            cases hs2
            rw [hget]
            rfl
          · rw [hT] at ht2
            cases ht2
            rw [hget]
            simp
  have h1 : processRelationsCount oracle relations entityMapping sourceItemId ≤
      (groupRelations relations entityMapping).length := by
    unfold processRelationsCount
    have := foldl_count_le_length (groupRelations relations entityMapping)
      (fun kv => processRelationGroup oracle entityMapping sourceItemId kv.1 kv.2)
      (fun kv _ => processRelationGroup_le_one oracle entityMapping sourceItemId kv.1 kv.2) 0
    simpa using this
  have h2 : (groupRelations relations entityMapping).length ≤
      (relations.filter (relKept entityMapping)).length := by
    unfold groupRelations
    simpa using foldl_groupRelStep_length entityMapping relations []
  have h3 : (relations.filter (relKept entityMapping)).length < relations.length :=
    filter_length_lt_of_counterexample relations (relKept entityMapping) r hr hkept
  omega

/-- The concrete relation used by the C8 witness. -/
def c8rel : RelData :=
  ⟨some "A", none, some "B", none, some "WORKS_ON", none, some "d", Value.vList [], some 5⟩

/-- The concrete store oracle used by the C8 witness. -/
def c8oracle : RelOracle :=
  ⟨fun _ => none, fun _ _ => QueryOutcome.rows [], fun _ _ _ _ _ => true⟩

/-- Witness for C8: one relation whose endpoints are absent from an empty
canonical mapping yields a processed count strictly below one. -/
theorem c8_unmapped_relation_processed_count_lt_witness :
    c8rel ∈ [c8rel] ∧
    (optTruthy (relSourceName c8rel) = true ∧ optTruthy (relTargetName c8rel) = true ∧
      optTruthy (relTypeName c8rel) = true) ∧
    processRelationsCount c8oracle [c8rel] [] "src" < [c8rel].length :=
  ⟨List.mem_singleton.mpr rfl, ⟨by decide, by decide, by decide⟩,
    c8_unmapped_relation_processed_count_lt c8oracle [c8rel] [] "src" c8rel
      (List.mem_singleton.mpr rfl) ⟨by decide, by decide, by decide⟩
      (Or.inl ⟨"A", by decide, rfl⟩)⟩

/-- The concrete relation used to exhibit the C7 divergence. -/
def c7rel : RelData :=
  ⟨some "A", none, some "B", none, some "WORKS_ON", none, some "d", Value.vList [], some 5⟩

/-- Canonical mapping holding both endpoints of `c7rel`. -/
def c7mapping : List (String × EntityInfo) :=
  [("A", ⟨"A", "Person", false, false, none, none⟩),
   ("B", ⟨"B", "Person", false, false, none, none⟩)]

/-- Store oracle for C7: no stored relation, every entity lookup succeeds
with zero rows (definitive absence), creation succeeds. -/
def c7oracle : RelOracle :=
  ⟨fun _ => none, fun _ _ => QueryOutcome.rows [], fun _ _ _ _ _ => true⟩

/-- C7: the endpoint-existence check of `process_relations_systematic` is
dead code.  `get_entity` returns an entity or `None` — `None` both for
definitive absence (a successful query with zero rows) and for lookup errors
— and never the literal `False` that lines 1151 and 1155 compare against.
Consequently (third conjunct) a relation whose endpoints are definitively
absent from the store is not skipped: it proceeds to `create_relation` and is
counted as processed, contradicting the code's own log message "Skipping
relation: ... does not exist in database" and its comment claiming `None`
indicates a lookup error. -/
theorem c7_endpoint_absence_check_dead :
    (∀ q : QueryOutcome Attrs, entityLookupPy q ≠ PyLookup.pyFalse) ∧
    entityLookupPy QueryOutcome.failure = entityLookupPy (QueryOutcome.rows []) ∧
    processRelationsCount c7oracle [c7rel] c7mapping "src" = 1 := by
  refine ⟨?_, rfl, by decide⟩
  intro q
  rcases q with ⟨_ | ⟨e, rest⟩⟩ | _ <;> simp [entityLookupPy, getEntityResult]

/-! ## Entity configuration, attribute transformation and entity creation

`entity_config` (`utils/entity_config.py`) is loaded from a YAML file that is
not part of the repository; its accessors are modelled as parameters bundled
in `MergeConfig`, each mirroring one accessor's defaulting logic. -/

/-- One value of the per-entity-type `mappings` dictionary
(`entity_config.get_db_fields`): `field_config.get('type', 'STRING')` and
`config.get("mapping")`. -/
structure FieldCfg where
  ty : Option String
  mapping : Option String
deriving DecidableEq, Repr

/-- One value of `db_handler.entity_schemas[entity_type]`: either a dict with
a `type` entry or some other object read through `str(...)`. -/
inductive SchemaField where
  | fdict (ty : Option String)
  | fstr (s : String)
deriving DecidableEq, Repr

/-- Embedding of `field_schema.get('type', '') if isinstance(field_schema,
dict) else str(field_schema)`. -/
def SchemaField.typeDef : SchemaField → String
  | .fdict ty => ty.getD ""
  | .fstr s => s

/-- The configuration surface consumed by the merge provider.  `rulesFor`
models `get_systematic_merge_rules`; `dbFields` models `get_db_fields`
(values are `none` where the Python dict holds a falsy entry);
`arrayFieldsFor` models `get_entity_array_fields`; `mergeStringFieldsOpt` and
`mergeArrayFieldsOpt` model the two optional keys of
`get_systematic_merge_fields`; `entitySchemas` models
`db_handler.entity_schemas`; `embedEntity` models the optional
`InferenceProvider.embed_entity` (`none` when provider initialisation
failed). -/
structure MergeConfig where
  rulesFor : String → List MatchRule
  dbFields : String → List (String × Option FieldCfg)
  arrayFieldsFor : String → List String
  mergeStringFieldsOpt : Option (List String)
  mergeArrayFieldsOpt : Option (List String)
  entitySchemas : String → List (String × SchemaField)
  embedEntity : Option (String → Attrs → List ℚ)

/-- Embedding of `merge_fields.get('string_fields', [...])` (lines 611, 757). -/
def MergeConfig.stringFields (cfg : MergeConfig) : List String :=
  cfg.mergeStringFieldsOpt.getD ["name", "email", "worksAt", "industry", "domain", "url"]

/-- Embedding of `merge_fields.get('array_fields', array_fields)`
(lines 612, 758): the default is the entity-specific array-field list. -/
def MergeConfig.configArrayFields (cfg : MergeConfig) (entityType : String) : List String :=
  cfg.mergeArrayFieldsOpt.getD (cfg.arrayFieldsFor entityType)

/-- Embedding of `entity_config.get_target_field` (lines 63-75): the first
mapping entry whose truthy config maps to the LLM field, else the field
itself. -/
def getTargetField (cfg : MergeConfig) (entityType llmField : String) : String :=
  match (cfg.dbFields entityType).find?
      (fun p => match p.2 with
        | some c => c.mapping == some llmField
        | none => false) with
  | some p => p.1
  | none => llmField

/-- Embedding of `entity_config.transform_value` (lines 141-150): the
`description` field is wrapped into an array.  Description values are strings
or string arrays in the embedded domain. -/
def transformValue (llmField : String) (v : Value) : Value :=
  if llmField == "description" then
    match v with
    | .vList l => .vList l
    | .vStr s => if s ≠ "" then .vList [s] else .vList []
    | other => other
  else v

/-- Embedding of `[transformed_value] if transformed_value else []` and of
reading an already-array value.  Non-string scalars are stringified in the
embedding. -/
def valueAsList (v : Value) : List String :=
  match v with
  | .vList l => l
  | .vStr s => if s ≠ "" then [s] else []
  | v => if v.truthy then [v.pyStr] else []

/-- Embedding of `SystematicMergeProvider._transform_attributes_for_database`
(lines 855-914).  With no mappings the attributes pass through; otherwise
each field is renamed to its target field, description values are wrapped,
array-typed targets are accumulated by `extend`, targets with a falsy field
config are dropped, and unmapped fields keep their name. -/
def transformAttributes (cfg : MergeConfig) (entityType : String)
    (llmAttributes : Attrs) : Attrs :=
  let dbFields := cfg.dbFields entityType
  if dbFields.isEmpty then llmAttributes
  else
    llmAttributes.foldl
      (fun transformed p =>
        let llmField := p.1
        let v := p.2
        let targetField := getTargetField cfg entityType llmField
        let transformedValue := transformValue llmField v
        match alGet dbFields targetField with
        | some (some fieldCfg) =>
          if strEndsWith (fieldCfg.ty.getD "STRING") "[]" then
            match alGet transformed targetField with
            | some (Value.vList existing) =>
              alSet transformed targetField (Value.vList (existing ++ valueAsList transformedValue))
            | some _ => transformed
            | none => alSet transformed targetField (Value.vList (valueAsList transformedValue))
          else
            alSet transformed targetField transformedValue
        | some none => transformed
        | none => alSet transformed llmField v)
      []

/-- Embedding of the dataclass `EntityGroup`. -/
structure EntityGroup where
  groupId : String
  entityType : String
  items : List EntityItem
  primaryEntityId : Option String := none
  primaryEntityData : Option Attrs := none
deriving DecidableEq, Repr

/-- The list behind an attribute key, empty when absent or not a list. -/
def listAt (m : Attrs) (k : String) : List String :=
  match alGet m k with
  | some (.vList l) => l
  | _ => []

/-- Embedding of lines 717-720: ensure `merged_attributes['aliases']` is a
list. -/
def ensureAliasesList (m : Attrs) : Attrs :=
  match alGet m "aliases" with
  | none => alSet m "aliases" (Value.vList [])
  | some (.vList _) => m
  | some _ => alSet m "aliases" (Value.vList [])

/-- Embedding of lines 723-725: append one non-primary item name to the
aliases array if new. -/
def appendAliasName (m : Attrs) (primaryName itemName : String) : Attrs :=
  if itemName ≠ primaryName ∧ itemName ∉ listAt m "aliases" then
    alSet m "aliases" (Value.vList (listAt m "aliases" ++ [itemName]))
  else m

/-- Embedding of lines 739-747: initialise one configured array field (wrap a
non-list truthy value, drop a falsy one). -/
def ensureArrayField (m : Attrs) (f : String) : Attrs :=
  match alGet m f with
  | none => alSet m f (Value.vList [])
  | some (.vList _) => m
  | some v => alSet m f (Value.vList (if v.truthy then [v.pyStr] else []))

/-- Embedding of lines 749-753 (and 604-607): append the provenance id to
`sources` when `sources` is a configured array field and the id is new. -/
def addSourceTracking (m : Attrs) (arrayFields : List String) (sourceItemId : String) : Attrs :=
  if "sources" ∈ arrayFields ∧ sourceItemId ∉ listAt m "sources" then
    alSet m "sources" (Value.vList (listAt m "sources" ++ [sourceItemId]))
  else m

/-- Embedding of the string-field merge body (lines 627-641 and 773-787):
keep the first truthy value, divert different later values into `aliases`
when the schema has an `aliases` field. -/
def mergeStringField (cfg : MergeConfig) (entityType : String) (m : Attrs)
    (attrs : Attrs) (f : String) : Attrs :=
  match alGet attrs f with
  | some v =>
    if v.truthy then
      if !(((alGet m f).getD (Value.vStr "")).truthy) then alSet m f v
      else if (alGet m f) ≠ some v then
        if (alGet (cfg.entitySchemas entityType) "aliases").isSome then
          let m := if (alGet m "aliases").isNone then alSet m "aliases" (Value.vList []) else m
          match v with
          | .vStr s => if s ∉ listAt m "aliases" then
              alSet m "aliases" (Value.vList (listAt m "aliases" ++ [s])) else m
          | _ => m
        else m
      else m
    else m
  | none => m

/-- Embedding of `for value in attrs[field]: if value and value not in
merged_attributes[field]: merged_attributes[field].append(value)`
(lines 648-651 and 794-797).  A non-list target (on which Python would
substring-test or raise) is left unchanged. -/
def appendUniqueList (m : Attrs) (f : String) (vals : List String) : Attrs :=
  match alGet m f with
  | some (.vList existing) =>
    alSet m f (Value.vList
      (vals.foldl (fun acc x => if x ≠ "" ∧ x ∉ acc then acc ++ [x] else acc) existing))
  | _ => m

/-- Embedding of `elif attrs[field] not in merged_attributes[field]:
merged_attributes[field].append(attrs[field])` (lines 652-653 and 798-799). -/
def appendUniqueScalar (m : Attrs) (f : String) (s : String) : Attrs :=
  match alGet m f with
  | some (.vList existing) =>
    if s ∉ existing then alSet m f (Value.vList (existing ++ [s])) else m
  | _ => m

/-- Embedding of the array-field merge body (lines 644-653 and 790-799):
append unique truthy values of a list, or the scalar value itself. -/
def mergeArrayField (m : Attrs) (attrs : Attrs) (f : String) : Attrs :=
  match alGet attrs f with
  | some v =>
    if v.truthy then
      let m2 := if (alGet m f).isNone then alSet m f (Value.vList []) else m
      match v with
      | .vList vals => appendUniqueList m2 f vals
      | .vStr s => appendUniqueScalar m2 f s
      | _ => m2
    else m
  | none => m

/-- Embedding of the description merge body (lines 656-667 and 802-813):
append unique description values into the mapped target field. -/
def mergeDescriptionField (cfg : MergeConfig) (entityType : String) (m : Attrs)
    (attrs : Attrs) : Attrs :=
  match alGet attrs "description" with
  | some v =>
    if v.truthy then
      let targetField := getTargetField cfg entityType "description"
      let m2 := if (alGet m targetField).isNone then alSet m targetField (Value.vList []) else m
      match v with
      | .vList vals => appendUniqueList m2 targetField vals
      | .vStr s => appendUniqueScalar m2 targetField s
      | _ => m2
    else m
  | none => m

/-- Embedding of the per-item merge loop of `_create_entity_from_group`
(lines 768-813): per item, the string-field pass (lines 773-787) runs over
`valid_string_fields`, then the array pass (lines 790-799) runs once over
`config_array_fields` (the unfiltered list), then the description pass
(lines 802-813). -/
def createMergeItem (cfg : MergeConfig) (entityType : String)
    (validStringFields configArrayFields : List String) (m : Attrs)
    (item : EntityItem) : Attrs :=
  let attrs := transformAttributes cfg entityType item.attributes
  let m := validStringFields.foldl (fun m f => mergeStringField cfg entityType m attrs f) m
  let m := configArrayFields.foldl (fun m f => mergeArrayField m attrs f) m
  mergeDescriptionField cfg entityType m attrs

/-- Embedding of the optional embedding generation (lines 816-822). -/
def addEmbedding (cfg : MergeConfig) (entityType : String) (m : Attrs) : Attrs :=
  match cfg.embedEntity with
  | some f =>
    let e := f entityType m
    if e ≠ [] then alSet m "embedding" (Value.vVec e) else m
  | none => m

/-- Embedding of `SystematicMergeProvider._create_entity_from_group`
(lines 701-838) up to the `create_entity` call: the attribute payload of the
single entity created for the group.  Empty groups (on which the Python
`group.items[0]` would raise) yield the empty payload. -/
def createEntityPayload (cfg : MergeConfig) (group : EntityGroup)
    (sourceItemId : String) : Attrs :=
  match group.items with
  | [] => []
  | baseItem :: restItems =>
    let merged := transformAttributes cfg group.entityType baseItem.attributes
    let primaryEntityName := baseItem.entityName
    let merged := alSet merged "name" (Value.vStr primaryEntityName)
    let merged := ensureAliasesList merged
    let merged := restItems.foldl
      (fun m item => appendAliasName m primaryEntityName item.entityName) merged
    let arrayFields := cfg.arrayFieldsFor group.entityType
    let merged := arrayFields.foldl ensureArrayField merged
    let merged := addSourceTracking merged arrayFields sourceItemId
    let validStringFields :=
      cfg.stringFields.filter (fun f => (alGet (cfg.entitySchemas group.entityType) f).isSome)
    let configArrayFields := cfg.configArrayFields group.entityType
    let merged := restItems.foldl
      (createMergeItem cfg group.entityType validStringFields configArrayFields) merged
    addEmbedding cfg group.entityType merged

lemma any_key_iff {κ α : Type} [DecidableEq κ] (m : List (κ × α)) (k : κ) :
    (m.any fun p => decide (p.1 = k)) = true ↔ ∃ p ∈ m, p.1 = k := by
  simp [List.any_eq_true]

lemma alGet_map_set {κ α : Type} [DecidableEq κ] (m : List (κ × α)) (k : κ) (v : α)
    (h : ∃ p ∈ m, p.1 = k) :
    alGet (m.map fun p => if p.1 = k then (k, v) else p) k = some v := by
  induction m with
  | nil => simp at h
  | cons p rest ih =>
    by_cases hp : p.1 = k
    · simp [alGet, hp]
    · rcases h with ⟨q, hq, hqk⟩
      rcases List.mem_cons.mp hq with rfl | hq2
      · exact absurd hqk hp
      · simp only [List.map_cons, if_neg hp]
        unfold alGet
        rw [List.find?_cons_of_neg _ (by simpa using hp)]
        exact ih ⟨q, hq2, hqk⟩

lemma alGet_append_single {κ α : Type} [DecidableEq κ] (m : List (κ × α)) (k : κ) (v : α)
    (h : ∀ p ∈ m, p.1 ≠ k) :
    alGet (m ++ [(k, v)]) k = some v := by
  induction m with
  | nil => simp [alGet]
  | cons p rest ih =>
    have hp : p.1 ≠ k := h p (by simp)
    unfold alGet
    rw [List.cons_append, List.find?_cons_of_neg _ (by simpa using hp)]
    exact ih (fun q hq => h q (by simp [hq]))

lemma alGet_alSet_self {κ α : Type} [DecidableEq κ] (m : List (κ × α)) (k : κ) (v : α) :
    alGet (alSet m k v) k = some v := by
  unfold alSet
  split
  · next h => exact alGet_map_set m k v ((any_key_iff m k).mp h)
  · next h =>
    refine alGet_append_single m k v ?_
    intro p hp hpk
    exact h ((any_key_iff m k).mpr ⟨p, hp, hpk⟩)

lemma alGet_map_set_ne {κ α : Type} [DecidableEq κ] (m : List (κ × α)) (k k2 : κ) (v : α)
    (hne : k2 ≠ k) :
    alGet (m.map fun p => if p.1 = k then (k, v) else p) k2 = alGet m k2 := by
  induction m with
  | nil => rfl
  | cons p rest ih =>
    by_cases hp : p.1 = k
    · simp only [List.map_cons, if_pos hp]
      unfold alGet
      rw [List.find?_cons_of_neg _ (by simpa using Ne.symm hne),
        List.find?_cons_of_neg _ (by simp [hp, Ne.symm hne])]
      exact ih
    · simp only [List.map_cons, if_neg hp]
      by_cases hpk2 : p.1 = k2
      · unfold alGet
        rw [List.find?_cons_of_pos _ (by simpa using hpk2),
          List.find?_cons_of_pos _ (by simpa using hpk2)]
      · unfold alGet
        rw [List.find?_cons_of_neg _ (by simpa using hpk2),
          List.find?_cons_of_neg _ (by simpa using hpk2)]
        exact ih

lemma alGet_alSet_ne {κ α : Type} [DecidableEq κ] (m : List (κ × α)) (k k2 : κ) (v : α)
    (hne : k2 ≠ k) :
    alGet (alSet m k v) k2 = alGet m k2 := by
  unfold alSet
  split
  · exact alGet_map_set_ne m k k2 v hne
  · unfold alGet
    rw [List.find?_append]
    have h2 : ([(k, v)].find? fun p => decide (p.1 = k2)) = none := by
      simp [Ne.symm hne]
    rw [h2]
    cases (m.find? fun p => decide (p.1 = k2)) <;> rfl

lemma listAt_alSet_list (m : Attrs) (k : String) (l : List String) :
    listAt (alSet m k (Value.vList l)) k = l := by
  unfold listAt
  rw [alGet_alSet_self]

lemma listAt_alSet_ne (m : Attrs) (k k2 : String) (v : Value) (hne : k2 ≠ k) :
    listAt (alSet m k v) k2 = listAt m k2 := by
  unfold listAt
  rw [alGet_alSet_ne m k k2 v hne]

/-- Monotonicity of the aliases array across one merge step: membership is
preserved and freedom from duplicates is preserved. -/
def aliasesMono (m m2 : Attrs) : Prop :=
  (∀ x, x ∈ listAt m "aliases" → x ∈ listAt m2 "aliases") ∧
  ((listAt m "aliases").Nodup → (listAt m2 "aliases").Nodup)

lemma aliasesMono_refl (m : Attrs) : aliasesMono m m :=
  ⟨fun _ h => h, fun h => h⟩

lemma aliasesMono_trans {m1 m2 m3 : Attrs} (h12 : aliasesMono m1 m2)
    (h23 : aliasesMono m2 m3) : aliasesMono m1 m3 :=
  ⟨fun x hx => h23.1 x (h12.1 x hx), fun h => h23.2 (h12.2 h)⟩

lemma aliasesMono_of_eqList {m m2 : Attrs}
    (h : listAt m2 "aliases" = listAt m "aliases") : aliasesMono m m2 :=
  ⟨fun x hx => h ▸ hx, fun hn => h ▸ hn⟩

lemma aliasesMono_of_setOther (m : Attrs) (k : String) (v : Value)
    (hk : k ≠ "aliases") : aliasesMono m (alSet m k v) :=
  aliasesMono_of_eqList (listAt_alSet_ne m k "aliases" v (Ne.symm hk))

lemma nodup_append_singleton {x : String} {l : List String} (hl : l.Nodup)
    (hx : x ∉ l) : (l ++ [x]).Nodup := by
  simp [List.nodup_append, hl, hx]

lemma aliasesMono_of_guardedAppend (m : Attrs) (x : String)
    (hx : x ∉ listAt m "aliases") :
    aliasesMono m (alSet m "aliases" (Value.vList (listAt m "aliases" ++ [x]))) := by
  constructor
  · intro y hy
    rw [listAt_alSet_list]
    exact List.mem_append_left _ hy
  · intro hn
    rw [listAt_alSet_list]
    exact nodup_append_singleton hn hx

lemma aliasesMono_of_fresh {m m2 : Attrs} (h : listAt m "aliases" = [])
    (hn : (listAt m2 "aliases").Nodup) : aliasesMono m m2 :=
  ⟨fun x hx => absurd (h ▸ hx) (List.not_mem_nil x), fun _ => hn⟩

lemma appendAliasName_mono (m : Attrs) (p n : String) :
    aliasesMono m (appendAliasName m p n) := by
  unfold appendAliasName
  split
  · next h => exact aliasesMono_of_guardedAppend m n h.2
  · exact aliasesMono_refl m

lemma listAt_of_none {m : Attrs} {f : String} (h : alGet m f = none) : listAt m f = [] := by
  unfold listAt
  rw [h]

lemma listAt_of_nonlist {m : Attrs} {f : String} {v : Value} (h : alGet m f = some v)
    (hv : ∀ l, v ≠ Value.vList l) : listAt m f = [] := by
  unfold listAt
  rw [h]
  cases v with
  | vList l => exact absurd rfl (hv l)
  | vStr s => rfl
  | vNum q => rfl
  | vVec w => rfl

lemma ensureArrayField_mono (m : Attrs) (f : String) :
    aliasesMono m (ensureArrayField m f) := by
  unfold ensureArrayField
  by_cases hf : f = "aliases"
  · subst hf
    rcases halg : alGet m "aliases" with _ | v
    · exact aliasesMono_of_fresh (listAt_of_none halg)
        (by rw [listAt_alSet_list]; exact List.nodup_nil)
    · cases v with
      | vList l => exact aliasesMono_refl m
      | vStr s =>
        exact aliasesMono_of_fresh (listAt_of_nonlist halg (by intro l h; cases h))
          (by rw [listAt_alSet_list]; split <;> simp)
      | vNum q =>
        exact aliasesMono_of_fresh (listAt_of_nonlist halg (by intro l h; cases h))
          (by rw [listAt_alSet_list]; split <;> simp)
      | vVec w =>
        exact aliasesMono_of_fresh (listAt_of_nonlist halg (by intro l h; cases h))
          (by rw [listAt_alSet_list]; split <;> simp)
  · rcases halg : alGet m f with _ | v
    · exact aliasesMono_of_setOther m f _ hf
    · cases v with
      | vList l => exact aliasesMono_refl m
      | vStr s => exact aliasesMono_of_setOther m f _ hf
      | vNum q => exact aliasesMono_of_setOther m f _ hf
      | vVec w => exact aliasesMono_of_setOther m f _ hf

lemma addSourceTracking_mono (m : Attrs) (arr : List String) (src : String) :
    aliasesMono m (addSourceTracking m arr src) := by
  unfold addSourceTracking
  split
  · exact aliasesMono_of_setOther m "sources" _ (by decide)
  · exact aliasesMono_refl m

lemma dedupFold_mem (vals : List String) :
    ∀ (start : List String) (x : String), x ∈ start →
      x ∈ vals.foldl (fun acc y => if y ≠ "" ∧ y ∉ acc then acc ++ [y] else acc) start := by
  induction vals with
  | nil => intro start x hx; exact hx
  | cons v rest ih =>
    intro start x hx
    rw [List.foldl_cons]
    refine ih _ x ?_
    split
    · exact List.mem_append_left _ hx
    · exact hx

lemma dedupFold_nodup (vals : List String) :
    ∀ (start : List String), start.Nodup →
      (vals.foldl (fun acc y => if y ≠ "" ∧ y ∉ acc then acc ++ [y] else acc) start).Nodup := by
  induction vals with
  | nil => intro start h; exact h
  | cons v rest ih =>
    intro start h
    rw [List.foldl_cons]
    refine ih _ ?_
    split
    · next hc => exact nodup_append_singleton h hc.2
    · exact h

lemma mergeArrayField_init_mono (m : Attrs) (f : String) :
    aliasesMono m (if (alGet m f).isNone then alSet m f (Value.vList []) else m) := by
  split
  · next hno =>
    by_cases hf : f = "aliases"
    · subst hf
      exact aliasesMono_of_fresh (listAt_of_none (Option.isNone_iff_eq_none.mp hno))
        (by rw [listAt_alSet_list]; exact List.nodup_nil)
    · exact aliasesMono_of_setOther m f _ hf
  · exact aliasesMono_refl m

lemma aliasesMono_dedupSet {m2 : Attrs} {f : String} {existing : List String}
    (vals : List String) (hm2f : alGet m2 f = some (Value.vList existing)) :
    aliasesMono m2 (alSet m2 f (Value.vList
      (vals.foldl (fun acc x => if x ≠ "" ∧ x ∉ acc then acc ++ [x] else acc) existing))) := by
  by_cases hf : f = "aliases"
  · subst hf
    have hex : listAt m2 "aliases" = existing := by
      unfold listAt
      rw [hm2f]
    constructor
    · intro x hx
      rw [listAt_alSet_list]
      exact dedupFold_mem vals existing x (hex ▸ hx)
    · intro hn
      rw [listAt_alSet_list]
      exact dedupFold_nodup vals existing (hex ▸ hn)
  · exact aliasesMono_of_setOther m2 f _ hf

lemma aliasesMono_guardedSet {m2 : Attrs} {f : String} {existing : List String}
    (s : String) (hm2f : alGet m2 f = some (Value.vList existing)) (hs : s ∉ existing) :
    aliasesMono m2 (alSet m2 f (Value.vList (existing ++ [s]))) := by
  by_cases hf : f = "aliases"
  · subst hf
    have hex : listAt m2 "aliases" = existing := by
      unfold listAt
      rw [hm2f]
    constructor
    · intro x hx
      rw [listAt_alSet_list]
      exact List.mem_append_left _ (hex ▸ hx)
    · intro hn
      rw [listAt_alSet_list]
      exact nodup_append_singleton (hex ▸ hn) (hex ▸ hs)
  · exact aliasesMono_of_setOther m2 f _ hf

lemma appendUniqueList_mono (m : Attrs) (f : String) (vals : List String) :
    aliasesMono m (appendUniqueList m f vals) := by
  unfold appendUniqueList
  rcases hm : alGet m f with _ | w
  · exact aliasesMono_refl m
  · cases w with
    | vList existing => exact aliasesMono_dedupSet vals hm
    | vStr s => exact aliasesMono_refl m
    | vNum q => exact aliasesMono_refl m
    | vVec u => exact aliasesMono_refl m

lemma appendUniqueScalar_mono (m : Attrs) (f : String) (s : String) :
    aliasesMono m (appendUniqueScalar m f s) := by
  unfold appendUniqueScalar
  rcases hm : alGet m f with _ | w
  · exact aliasesMono_refl m
  · cases w with
    | vList existing =>
      show aliasesMono m (if s ∉ existing then alSet m f (Value.vList (existing ++ [s])) else m)
      split
      · next hs => exact aliasesMono_guardedSet s hm hs
      · exact aliasesMono_refl m
    | vStr t => exact aliasesMono_refl m
    | vNum q => exact aliasesMono_refl m
    | vVec u => exact aliasesMono_refl m

lemma mergeArrayField_mono (m attrs : Attrs) (f : String) :
    aliasesMono m (mergeArrayField m attrs f) := by
  unfold mergeArrayField
  split
  · next v _ =>
    split
    · refine aliasesMono_trans (mergeArrayField_init_mono m f) ?_
      cases v with
      | vList vals => exact appendUniqueList_mono _ f vals
      | vStr s => exact appendUniqueScalar_mono _ f s
      | vNum q => exact aliasesMono_refl _
      | vVec u => exact aliasesMono_refl _
    · exact aliasesMono_refl m
  · exact aliasesMono_refl m

lemma aliasesInit_mono (m : Attrs) :
    aliasesMono m (if (alGet m "aliases").isNone then alSet m "aliases" (Value.vList []) else m) := by
  split
  · next hno =>
    exact aliasesMono_of_fresh (listAt_of_none (Option.isNone_iff_eq_none.mp hno))
      (by rw [listAt_alSet_list]; exact List.nodup_nil)
  · exact aliasesMono_refl m

lemma mergeDescriptionField_mono (cfg : MergeConfig) (entityType : String)
    (m attrs : Attrs) :
    aliasesMono m (mergeDescriptionField cfg entityType m attrs) := by
  unfold mergeDescriptionField
  split
  · next v _ =>
    split
    · refine aliasesMono_trans
        (mergeArrayField_init_mono m (getTargetField cfg entityType "description")) ?_
      cases v with
      | vList vals => exact appendUniqueList_mono _ _ vals
      | vStr s => exact appendUniqueScalar_mono _ _ s
      | vNum q => exact aliasesMono_refl _
      | vVec u => exact aliasesMono_refl _
    · exact aliasesMono_refl m
  · exact aliasesMono_refl m

lemma mergeStringField_mono (cfg : MergeConfig) (entityType : String)
    (m attrs : Attrs) (f : String) (hf : f ≠ "aliases") :
    aliasesMono m (mergeStringField cfg entityType m attrs f) := by
  unfold mergeStringField
  split
  · next v _ =>
    split
    · split
      · exact aliasesMono_of_setOther m f v hf
      · split
        · split
          · refine aliasesMono_trans (aliasesInit_mono m) ?_
            generalize (if (alGet m "aliases").isNone then
              alSet m "aliases" (Value.vList []) else m) = m2
            dsimp only
            cases v with
            | vStr s =>
              show aliasesMono m2 (if s ∉ listAt m2 "aliases" then
                alSet m2 "aliases" (Value.vList (listAt m2 "aliases" ++ [s])) else m2)
              split
              · next hs => exact aliasesMono_of_guardedAppend m2 s hs
              · exact aliasesMono_refl m2
            | vList l => exact aliasesMono_refl m2
            | vNum q => exact aliasesMono_refl m2
            | vVec u => exact aliasesMono_refl m2
          · exact aliasesMono_refl m
        · exact aliasesMono_refl m
    · exact aliasesMono_refl m
  · exact aliasesMono_refl m

lemma addEmbedding_mono (cfg : MergeConfig) (entityType : String) (m : Attrs) :
    aliasesMono m (addEmbedding cfg entityType m) := by
  unfold addEmbedding
  split
  · dsimp only
    split
    · exact aliasesMono_of_setOther m "embedding" _ (by decide)
    · exact aliasesMono_refl m
  · exact aliasesMono_refl m

lemma ensureAliasesList_mono (m : Attrs) : aliasesMono m (ensureAliasesList m) := by
  unfold ensureAliasesList
  split
  · next hno =>
    exact aliasesMono_of_fresh (listAt_of_none hno)
      (by rw [listAt_alSet_list]; exact List.nodup_nil)
  · exact aliasesMono_refl m
  · next v hnl heq =>
    refine aliasesMono_of_fresh ?_ (by rw [listAt_alSet_list]; exact List.nodup_nil)
    unfold listAt
    rw [heq]
    cases v with
    | vList l => exact absurd rfl (fun h => hnl l h)
    | vStr s => rfl
    | vNum q => rfl
    | vVec u => rfl

lemma foldl_aliasesMono {β : Type} (l : List β) (f : Attrs → β → Attrs)
    (hf : ∀ m b, b ∈ l → aliasesMono m (f m b)) :
    ∀ m : Attrs, aliasesMono m (l.foldl f m) := by
  induction l with
  | nil => intro m; exact aliasesMono_refl m
  | cons b rest ih =>
    intro m
    rw [List.foldl_cons]
    exact aliasesMono_trans (hf m b (by simp))
      (ih (fun m2 c hc => hf m2 c (by simp [hc])) (f m b))

lemma foldl_invariant {β : Type} (P : Attrs → Prop) (l : List β) (f : Attrs → β → Attrs)
    (hf : ∀ m b, b ∈ l → P m → P (f m b)) :
    ∀ m : Attrs, P m → P (l.foldl f m) := by
  induction l with
  | nil => intro m hm; exact hm
  | cons b rest ih =>
    intro m hm
    rw [List.foldl_cons]
    exact ih (fun m2 c hc => hf m2 c (by simp [hc])) (f m b) (hf m b (by simp) hm)

lemma appendAliasName_mem (m : Attrs) (p n : String) (hn : n ≠ p) :
    n ∈ listAt (appendAliasName m p n) "aliases" := by
  unfold appendAliasName
  split
  · rw [listAt_alSet_list]
    exact List.mem_append_right _ (by simp)
  · next hcond =>
    by_cases hmem : n ∈ listAt m "aliases"
    · exact hmem
    · exact absurd ⟨hn, hmem⟩ hcond

lemma appendAliasFold_mem (p : String) (rest : List EntityItem) :
    ∀ (m : Attrs) (it : EntityItem), it ∈ rest → it.entityName ≠ p →
      it.entityName ∈
        listAt (rest.foldl (fun m item => appendAliasName m p item.entityName) m) "aliases" := by
  induction rest with
  | nil => intro m it hit; cases hit
  | cons jt rest2 ih =>
    intro m it hit hne
    rw [List.foldl_cons]
    rcases List.mem_cons.mp hit with rfl | hit2
    · exact (foldl_aliasesMono rest2 _
        (fun m2 item _ => appendAliasName_mono m2 p item.entityName) _).1 _
        (appendAliasName_mem m p it.entityName hne)
    · exact ih _ it hit2 hne

lemma appendAliasName_name (m : Attrs) (p n : String) :
    alGet (appendAliasName m p n) "name" = alGet m "name" := by
  unfold appendAliasName
  split
  · exact alGet_alSet_ne m "aliases" "name" _ (by decide)
  · rfl

lemma ensureAliasesList_name (m : Attrs) :
    alGet (ensureAliasesList m) "name" = alGet m "name" := by
  unfold ensureAliasesList
  split
  · exact alGet_alSet_ne m "aliases" "name" _ (by decide)
  · rfl
  · exact alGet_alSet_ne m "aliases" "name" _ (by decide)

lemma ensureAliasesList_nodup (m : Attrs) (h : (listAt m "aliases").Nodup) :
    (listAt (ensureAliasesList m) "aliases").Nodup := by
  unfold ensureAliasesList
  split
  · rw [listAt_alSet_list]
    exact List.nodup_nil
  · exact h
  · rw [listAt_alSet_list]
    exact List.nodup_nil

lemma ensureArrayField_name (m : Attrs) (f : String) (hf : f ≠ "name") :
    alGet (ensureArrayField m f) "name" = alGet m "name" := by
  unfold ensureArrayField
  split
  · exact alGet_alSet_ne m f "name" _ (Ne.symm hf)
  · rfl
  · exact alGet_alSet_ne m f "name" _ (Ne.symm hf)

lemma addSourceTracking_name (m : Attrs) (arr : List String) (src : String) :
    alGet (addSourceTracking m arr src) "name" = alGet m "name" := by
  unfold addSourceTracking
  split
  · exact alGet_alSet_ne m "sources" "name" _ (by decide)
  · rfl

lemma addEmbedding_name (cfg : MergeConfig) (entityType : String) (m : Attrs) :
    alGet (addEmbedding cfg entityType m) "name" = alGet m "name" := by
  unfold addEmbedding
  split
  · dsimp only
    split
    · exact alGet_alSet_ne m "embedding" "name" _ (by decide)
    · rfl
  · rfl

lemma appendUniqueList_name (m : Attrs) (f : String) (vals : List String) (hf : f ≠ "name") :
    alGet (appendUniqueList m f vals) "name" = alGet m "name" := by
  unfold appendUniqueList
  split
  · exact alGet_alSet_ne m f "name" _ (Ne.symm hf)
  · rfl

lemma appendUniqueScalar_name (m : Attrs) (f : String) (s : String) (hf : f ≠ "name") :
    alGet (appendUniqueScalar m f s) "name" = alGet m "name" := by
  unfold appendUniqueScalar
  split
  · split
    · exact alGet_alSet_ne m f "name" _ (Ne.symm hf)
    · rfl
  · rfl

lemma mergeArrayField_name (m attrs : Attrs) (f : String) (hf : f ≠ "name") :
    alGet (mergeArrayField m attrs f) "name" = alGet m "name" := by
  unfold mergeArrayField
  split
  · next v _ =>
    split
    · dsimp only
      have hinit : alGet (if (alGet m f).isNone then alSet m f (Value.vList []) else m) "name"
          = alGet m "name" := by
        split
        · exact alGet_alSet_ne m f "name" _ (Ne.symm hf)
        · rfl
      generalize hg : (if (alGet m f).isNone then alSet m f (Value.vList []) else m) = m2
      rw [hg] at hinit
      cases v with
      | vList vals => rw [appendUniqueList_name m2 f vals hf, hinit]
      | vStr s => rw [appendUniqueScalar_name m2 f s hf, hinit]
      | vNum q => exact hinit
      | vVec u => exact hinit
    · rfl
  · rfl

lemma mergeDescriptionField_name (cfg : MergeConfig) (entityType : String)
    (m attrs : Attrs) (htf : getTargetField cfg entityType "description" ≠ "name") :
    alGet (mergeDescriptionField cfg entityType m attrs) "name" = alGet m "name" := by
  unfold mergeDescriptionField
  split
  · next v _ =>
    split
    · dsimp only
      have hinit : alGet (if (alGet m (getTargetField cfg entityType "description")).isNone then
          alSet m (getTargetField cfg entityType "description") (Value.vList []) else m) "name"
          = alGet m "name" := by
        split
        · exact alGet_alSet_ne m _ "name" _ (Ne.symm htf)
        · rfl
      generalize hg : (if (alGet m (getTargetField cfg entityType "description")).isNone then
        alSet m (getTargetField cfg entityType "description") (Value.vList []) else m) = m2
      rw [hg] at hinit
      cases v with
      | vList vals => rw [appendUniqueList_name m2 _ vals htf, hinit]
      | vStr s => rw [appendUniqueScalar_name m2 _ s htf, hinit]
      | vNum q => exact hinit
      | vVec u => exact hinit
    · rfl
  · rfl

lemma mergeStringField_name (cfg : MergeConfig) (entityType : String)
    (m attrs : Attrs) (f : String) {p : String} (hp : p ≠ "")
    (h : alGet m "name" = some (Value.vStr p)) :
    alGet (mergeStringField cfg entityType m attrs f) "name" = some (Value.vStr p) := by
  unfold mergeStringField
  split
  · next v _ =>
    split
    · split
      · next hcur =>
        by_cases hf : f = "name"
        · subst hf
          rw [h] at hcur
          simp [Value.truthy, hp] at hcur
        · rw [alGet_alSet_ne m f "name" _ (Ne.symm hf)]
          exact h
      · split
        · split
          · have hinit : alGet (if (alGet m "aliases").isNone then
                alSet m "aliases" (Value.vList []) else m) "name" = some (Value.vStr p) := by
              split
              · rw [alGet_alSet_ne m "aliases" "name" _ (by decide)]
                exact h
              · exact h
            generalize hg : (if (alGet m "aliases").isNone then
              alSet m "aliases" (Value.vList []) else m) = m2
            rw [hg] at hinit
            dsimp only
            cases v with
            | vStr s =>
              show alGet (if s ∉ listAt m2 "aliases" then
                alSet m2 "aliases" (Value.vList (listAt m2 "aliases" ++ [s])) else m2) "name" =
                some (Value.vStr p)
              split
              · rw [alGet_alSet_ne m2 "aliases" "name" _ (by decide)]
                exact hinit
              · exact hinit
            | vList l => exact hinit
            | vNum q => exact hinit
            | vVec u => exact hinit
          · exact h
        · exact h
    · exact h
  · exact h

lemma createMergeItem_mono (cfg : MergeConfig) (entityType : String)
    (vsf caf : List String) (hvsf : ∀ f ∈ vsf, f ≠ "aliases") (m : Attrs)
    (item : EntityItem) :
    aliasesMono m (createMergeItem cfg entityType vsf caf m item) := by
  unfold createMergeItem
  dsimp only
  refine aliasesMono_trans (foldl_aliasesMono vsf
    (fun m2 f => mergeStringField cfg entityType m2
      (transformAttributes cfg entityType item.attributes) f)
    (fun m2 f hf => mergeStringField_mono cfg entityType m2
      (transformAttributes cfg entityType item.attributes) f (hvsf f hf)) m) ?_
  refine aliasesMono_trans (foldl_aliasesMono caf
    (fun m2 f => mergeArrayField m2 (transformAttributes cfg entityType item.attributes) f)
    (fun m2 f _ => mergeArrayField_mono m2
      (transformAttributes cfg entityType item.attributes) f) _) ?_
  exact mergeDescriptionField_mono cfg entityType _ _

lemma createMergeItem_name (cfg : MergeConfig) (entityType : String)
    (vsf caf : List String) {p : String} (hp : p ≠ "") (hcaf : "name" ∉ caf)
    (htf : getTargetField cfg entityType "description" ≠ "name") (m : Attrs)
    (item : EntityItem) (h : alGet m "name" = some (Value.vStr p)) :
    alGet (createMergeItem cfg entityType vsf caf m item) "name" = some (Value.vStr p) := by
  unfold createMergeItem
  dsimp only
  rw [mergeDescriptionField_name cfg entityType _ _ htf]
  refine foldl_invariant (fun m2 => alGet m2 "name" = some (Value.vStr p)) caf
    (fun m2 f => mergeArrayField m2 (transformAttributes cfg entityType item.attributes) f)
    (fun m2 f hf hP => ?_) _
    (foldl_invariant (fun m2 => alGet m2 "name" = some (Value.vStr p)) vsf
      (fun m2 f => mergeStringField cfg entityType m2
        (transformAttributes cfg entityType item.attributes) f)
      (fun m2 f _ hP => mergeStringField_name cfg entityType m2
        (transformAttributes cfg entityType item.attributes) f hp hP) m h)
  show alGet (mergeArrayField m2 (transformAttributes cfg entityType item.attributes) f)
    "name" = some (Value.vStr p)
  rw [mergeArrayField_name m2 (transformAttributes cfg entityType item.attributes) f
    (fun he => hcaf (he ▸ hf))]
  exact hP

/-- C5: for every group reconciled to no existing entity, the single created
payload uses the first item's name as the primary key `name` (the only
`create_entity` call of `_create_entity_from_group` carries this payload, so
no other item's name becomes a separate stored entity), every other item's
name that differs from the primary name appears in the `aliases` array, and
the alias appends are deduplicating: when the base item contributes a
duplicate-free aliases array the created aliases array is duplicate-free.
The hypotheses pin the sane configuration the code assumes: non-empty
primary name, `name` not an array field, `aliases` not a merge string field,
and `description` not mapped onto `name`. -/
theorem c5_create_entity_name_and_aliases
    (cfg : MergeConfig) (group : EntityGroup) (src : String)
    (base : EntityItem) (rest : List EntityItem)
    (hitems : group.items = base :: rest)
    (hbase : base.entityName ≠ "")
    (hnameArr : "name" ∉ cfg.arrayFieldsFor group.entityType)
    (hnameCfgArr : "name" ∉ cfg.configArrayFields group.entityType)
    (hnameDesc : getTargetField cfg group.entityType "description" ≠ "name")
    (hAliasStr : "aliases" ∉ cfg.stringFields) :
    alGet (createEntityPayload cfg group src) "name" = some (Value.vStr base.entityName) ∧
    (∀ item ∈ rest, item.entityName ≠ base.entityName →
      item.entityName ∈ listAt (createEntityPayload cfg group src) "aliases") ∧
    ((listAt (transformAttributes cfg group.entityType base.attributes) "aliases").Nodup →
      (listAt (createEntityPayload cfg group src) "aliases").Nodup) := by
  have hred : createEntityPayload cfg group src =
      addEmbedding cfg group.entityType
        ((List.foldl (createMergeItem cfg group.entityType
            (cfg.stringFields.filter
              (fun f => (alGet (cfg.entitySchemas group.entityType) f).isSome))
            (cfg.configArrayFields group.entityType))
          (addSourceTracking
            (List.foldl ensureArrayField
              (List.foldl (fun m item => appendAliasName m base.entityName item.entityName)
                (ensureAliasesList
                  (alSet (transformAttributes cfg group.entityType base.attributes) "name"
                    (Value.vStr base.entityName)))
                rest)
              (cfg.arrayFieldsFor group.entityType))
            (cfg.arrayFieldsFor group.entityType) src)
          rest)) := by
    unfold createEntityPayload
    rw [hitems]
  rw [hred]
  set ty := group.entityType with hty2
  set m1 := alSet (transformAttributes cfg ty base.attributes) "name"
    (Value.vStr base.entityName) with hm1
  set m2 := ensureAliasesList m1 with hm2
  set m3 := List.foldl (fun m item => appendAliasName m base.entityName item.entityName) m2 rest
    with hm3
  set arr := cfg.arrayFieldsFor ty with harr
  set m4 := List.foldl ensureArrayField m3 arr with hm4
  set m5 := addSourceTracking m4 arr src with hm5
  set vsf := cfg.stringFields.filter (fun f => (alGet (cfg.entitySchemas ty) f).isSome) with hvsf2
  set caf := cfg.configArrayFields ty with hcaf2
  set m6 := List.foldl (createMergeItem cfg ty vsf caf) m5 rest with hm6
  have hvsfAliases : ∀ f ∈ vsf, f ≠ "aliases" := by
    intro f hf he
    exact hAliasStr (he ▸ (List.mem_filter.mp hf).1)
  have mono34 : aliasesMono m3 m4 :=
    foldl_aliasesMono arr ensureArrayField (fun m f _ => ensureArrayField_mono m f) m3
  have mono45 : aliasesMono m4 m5 := addSourceTracking_mono m4 arr src
  have mono56 : aliasesMono m5 m6 :=
    foldl_aliasesMono rest (createMergeItem cfg ty vsf caf)
      (fun m it _ => createMergeItem_mono cfg ty vsf caf hvsfAliases m it) m5
  have mono67 : aliasesMono m6 (addEmbedding cfg ty m6) := addEmbedding_mono cfg ty m6
  have mono3f : aliasesMono m3 (addEmbedding cfg ty m6) :=
    aliasesMono_trans mono34 (aliasesMono_trans mono45 (aliasesMono_trans mono56 mono67))
  refine ⟨?_, ?_, ?_⟩
  · have h1 : alGet m1 "name" = some (Value.vStr base.entityName) := alGet_alSet_self _ _ _
    have h2 : alGet m2 "name" = some (Value.vStr base.entityName) := by
      rw [hm2, ensureAliasesList_name]
      exact h1
    have h3 : alGet m3 "name" = some (Value.vStr base.entityName) :=
      foldl_invariant (fun m => alGet m "name" = some (Value.vStr base.entityName)) rest
        (fun m item => appendAliasName m base.entityName item.entityName)
        (fun m it _ hP => by
          show alGet (appendAliasName m base.entityName it.entityName) "name" =
            some (Value.vStr base.entityName)
          rw [appendAliasName_name]
          exact hP) m2 h2
    have h4 : alGet m4 "name" = some (Value.vStr base.entityName) :=
      foldl_invariant (fun m => alGet m "name" = some (Value.vStr base.entityName)) arr
        ensureArrayField
        (fun m f hf hP => by
          show alGet (ensureArrayField m f) "name" = some (Value.vStr base.entityName)
          rw [ensureArrayField_name m f (fun he => hnameArr (he ▸ hf))]
          exact hP) m3 h3
    have h5 : alGet m5 "name" = some (Value.vStr base.entityName) := by
      rw [hm5, addSourceTracking_name]
      exact h4
    have h6 : alGet m6 "name" = some (Value.vStr base.entityName) :=
      foldl_invariant (fun m => alGet m "name" = some (Value.vStr base.entityName)) rest
        (createMergeItem cfg ty vsf caf)
        (fun m it _ hP =>
          createMergeItem_name cfg ty vsf caf hbase hnameCfgArr hnameDesc m it hP) m5 h5
    rw [addEmbedding_name]
    exact h6
  · intro item hit hne
    exact mono3f.1 item.entityName (appendAliasFold_mem base.entityName rest m2 item hit hne)
  · intro hnodup
    have h1 : listAt m1 "aliases" =
        listAt (transformAttributes cfg ty base.attributes) "aliases" := by
      rw [hm1]
      exact listAt_alSet_ne _ "name" "aliases" _ (by decide)
    have h2 : (listAt m2 "aliases").Nodup :=
      ensureAliasesList_nodup m1 (h1 ▸ hnodup)
    have h3 : (listAt m3 "aliases").Nodup :=
      (foldl_aliasesMono rest (fun m item => appendAliasName m base.entityName item.entityName)
        (fun m it _ => appendAliasName_mono m base.entityName it.entityName) m2).2 h2
    exact mono3f.2 h3

/-- The empty configuration used by the C5 witness. -/
def c5cfg : MergeConfig :=
  ⟨fun _ => [], fun _ => [], fun _ => [], none, none, fun _ => [], none⟩

/-- The base item of the C5 witness group. -/
def c5base : EntityItem :=
  ⟨0, "Person", "J. Smith", [("name", Value.vStr "J. Smith")], ⟨none, none, none, none, []⟩⟩

/-- The second item of the C5 witness group. -/
def c5other : EntityItem :=
  ⟨1, "Person", "John Smith", [("name", Value.vStr "John Smith")], ⟨none, none, none, none, []⟩⟩

/-- The two-item Person group of the C5 witness. -/
def c5group : EntityGroup := ⟨"g", "Person", [c5base, c5other], none, none⟩

/-- Witness for C5: a two-item Person group with distinct names under the
empty configuration yields name "J. Smith" with "John Smith" among the
aliases, duplicate-free. -/
theorem c5_create_entity_name_and_aliases_witness :
    c5group.items = c5base :: [c5other] ∧
    alGet (createEntityPayload c5cfg c5group "batch1") "name" =
      some (Value.vStr "J. Smith") ∧
    "John Smith" ∈ listAt (createEntityPayload c5cfg c5group "batch1") "aliases" ∧
    (listAt (createEntityPayload c5cfg c5group "batch1") "aliases").Nodup := by
  have h := c5_create_entity_name_and_aliases c5cfg c5group "batch1" c5base [c5other] rfl
    (by decide) (by decide) (by decide) (by decide) (by decide)
  exact ⟨rfl, h.1, h.2.1 c5other (by decide) (by decide), h.2.2 (by decide)⟩

/-! ## Merging a group into an existing entity, and `update_entity` -/

/-- Embedding of the per-item merge loop of `_merge_group_into_existing`
(lines 622-667).  In the source the array pass (line 644) and the description
pass (line 656) are indented inside the string-field loop (line 627), so both
run once per string field; the embedding mirrors that nesting. -/
def mergeExistingItem (cfg : MergeConfig) (entityType : String)
    (vsf vaf : List String) (m : Attrs) (item : EntityItem) : Attrs :=
  let attrs := transformAttributes cfg entityType item.attributes
  vsf.foldl
    (fun m f =>
      mergeDescriptionField cfg entityType
        (vaf.foldl (fun m2 f2 => mergeArrayField m2 attrs f2)
          (mergeStringField cfg entityType m attrs f))
        attrs)
    m

/-- Embedding of `{**primary_entity, **update_attributes}`. -/
def dictUnion (base upd : Attrs) : Attrs :=
  upd.foldl (fun acc p => alSet acc p.1 p.2) base

/-- Embedding of the conditional embedding generation of
`_merge_group_into_existing` (lines 674-684). -/
def mergeExistingEmbedding (cfg : MergeConfig) (entityType : String)
    (primary : Option Attrs) (upd : Attrs) : Attrs :=
  if !upd.isEmpty &&
      (["name", "rawDescriptions", "title", "description"].any
        (fun f => (alGet upd f).isSome)) then
    match cfg.embedEntity with
    | some emb =>
      let combined :=
        match primary with
        | some pe => dictUnion pe upd
        | none => upd
      let e := emb entityType combined
      if e ≠ [] then alSet upd "embedding" (Value.vVec e) else upd
    | none => upd
  else upd

/-- Embedding of `SystematicMergeProvider._merge_group_into_existing`
(lines 557-692) up to the `update_entity` call: the update payload.  Reading
a stored array value that is not a string array (`list(existing_value)` on a
non-list would raise or iterate characters in Python) yields the empty
list. -/
def mergeGroupPayload (cfg : MergeConfig) (group : EntityGroup)
    (sourceItemId : String) : Attrs :=
  let entityType := group.entityType
  let primaryEntity := group.primaryEntityData
  let arrayFields := cfg.arrayFieldsFor entityType
  let schema := cfg.entitySchemas entityType
  let validArrayFields := arrayFields.filter
    (fun f =>
      match alGet schema f with
      | some sf => strEndsWith sf.typeDef "[]"
      | none => false)
  let merged : Attrs := validArrayFields.foldl
    (fun m f =>
      alSet m f (Value.vList
        (match primaryEntity with
         | some pe =>
           match alGet pe f with
           | some (.vList l) => l
           | _ => []
         | none => [])))
    []
  let merged := addSourceTracking merged arrayFields sourceItemId
  let validStringFields := cfg.stringFields.filter (fun f => (alGet schema f).isSome)
  let validArrayFields2 := (cfg.configArrayFields entityType).filter
    (fun f => (alGet schema f).isSome)
  let merged := group.items.foldl
    (mergeExistingItem cfg entityType validStringFields validArrayFields2) merged
  let updateAttributes := merged.filter (fun p => p.1 ≠ "name")
  mergeExistingEmbedding cfg entityType primaryEntity updateAttributes

/-- Embedding of the array-typed test of `KuzuDBHandler.update_entity`
(lines 313-315): the schema entry's type string ends in `[]` (an absent field
reads as the empty dict, whose type string is empty). -/
def isArrayTypeField (schema : List (String × SchemaField)) (k : String) : Bool :=
  match alGet schema k with
  | some sf => strEndsWith sf.typeDef "[]"
  | none => false

/-- The non-array assignments of one `update_entity` call (lines 317-330):
updates whose schema type is not array-typed, `lastUpdated` excluded. -/
def naOf (schema : List (String × SchemaField)) (U : Attrs) : Attrs :=
  U.filter (fun p => (p.1 != "lastUpdated") && !isArrayTypeField schema p.1)

/-- The array-typed updates of one `update_entity` call (lines 317-330). -/
def arOf (schema : List (String × SchemaField)) (U : Attrs) : Attrs :=
  U.filter (fun p => (p.1 != "lastUpdated") && isArrayTypeField schema p.1)

/-- Embedding of `existing_values = current_entity.get(field_name, []) or []`
followed by the non-list wrap (lines 336-339). -/
def wrapExisting (st : Attrs) (f : String) : List String :=
  match alGet st f with
  | some (.vList l) => l
  | some v => if v.truthy then [v.pyStr] else []
  | none => []

/-- The merged array assignments of one `update_entity` call (lines 331-346):
per array update, append the values not already present to the current stored
values. -/
def maOf (schema : List (String × SchemaField)) (st : Attrs) (U : Attrs) : Attrs :=
  (arOf schema U).map
    (fun p => (p.1, Value.vList
      ((valueAsList p.2).foldl (fun acc x => if x ∉ acc then acc ++ [x] else acc)
        (wrapExisting st p.1))))

/-- Embedding of `KuzuDBHandler.update_entity` (lines 294-376) as a state
transformer on the stored entity's attributes.  Empty updates change
nothing; otherwise updates split into array appends (fetch current values,
wrap non-lists, append the values that are not already present) and plain
`SET` assignments, and `lastUpdated` is always stamped. -/
def updateEntityState (schema : List (String × SchemaField)) (st : Attrs)
    (updates : Attrs) (now : String) : Attrs :=
  if updates.isEmpty then st
  else
    alSet
      ((naOf schema updates ++ maOf schema st updates).foldl
        (fun s p => alSet s p.1 p.2) st)
      "lastUpdated" (Value.vStr now)

/-- The last entry of an association list for a key (Python dict update
semantics: later assignments win). -/
def lastPair (L : Attrs) (f : String) : Option (String × Value) :=
  L.foldl (fun acc p => if p.1 = f then some p else acc) none

lemma lastPair_from (L : Attrs) (f : String) :
    ∀ acc : Option (String × Value),
      L.foldl (fun acc p => if p.1 = f then some p else acc) acc =
        match lastPair L f with
        | some p => some p
        | none => acc := by
  induction L with
  | nil => intro acc; rfl
  | cons p rest ih =>
    intro acc
    rw [List.foldl_cons]
    rw [ih (if p.1 = f then some p else acc)]
    show _ = match lastPair (p :: rest) f with
      | some q => some q
      | none => acc
    have hcons : lastPair (p :: rest) f =
        match lastPair rest f with
        | some q => some q
        | none => if p.1 = f then some p else none := by
      unfold lastPair
      rw [List.foldl_cons]
      exact ih (if p.1 = f then some p else none)
    rw [hcons]
    rcases lastPair rest f with _ | q
    · by_cases hp : p.1 = f <;> simp [hp]
    · rfl

lemma alGet_applyAll (L : Attrs) (st : Attrs) (f : String) :
    alGet (L.foldl (fun s p => alSet s p.1 p.2) st) f =
      match lastPair L f with
      | some p => some p.2
      | none => alGet st f := by
  induction L generalizing st with
  | nil => rfl
  | cons p rest ih =>
    rw [List.foldl_cons, ih (alSet st p.1 p.2)]
    have hcons : lastPair (p :: rest) f =
        match lastPair rest f with
        | some q => some q
        | none => if p.1 = f then some p else none := by
      unfold lastPair
      rw [List.foldl_cons]
      exact lastPair_from rest f (if p.1 = f then some p else none)
    rw [hcons]
    rcases lastPair rest f with _ | q
    · by_cases hp : p.1 = f
      · subst hp
        simp [alGet_alSet_self]
      · simp only [if_neg hp]
        exact alGet_alSet_ne st p.1 f p.2 (fun h => hp h.symm)
    · rfl

lemma lastPair_append (A B : Attrs) (f : String) :
    lastPair (A ++ B) f =
      match lastPair B f with
      | some p => some p
      | none => lastPair A f := by
  unfold lastPair
  rw [List.foldl_append]
  exact lastPair_from B f _

lemma lastPair_none_of_keys (L : Attrs) (f : String) (h : ∀ p ∈ L, p.1 ≠ f) :
    lastPair L f = none := by
  induction L with
  | nil => rfl
  | cons p rest ih =>
    have hcons : lastPair (p :: rest) f =
        match lastPair rest f with
        | some q => some q
        | none => if p.1 = f then some p else none := by
      unfold lastPair
      rw [List.foldl_cons]
      exact lastPair_from rest f _
    rw [hcons, ih (fun q hq => h q (by simp [hq]))]
    simp [h p (by simp)]

lemma lastPair_mem (L : Attrs) (f : String) :
    ∀ p, lastPair L f = some p → p ∈ L ∧ p.1 = f := by
  induction L with
  | nil => intro p h; cases h
  | cons q rest ih =>
    intro p h
    have hcons : lastPair (q :: rest) f =
        match lastPair rest f with
        | some r => some r
        | none => if q.1 = f then some q else none := by
      unfold lastPair
      rw [List.foldl_cons]
      exact lastPair_from rest f _
    rw [hcons] at h
    rcases hrest : lastPair rest f with _ | r
    · rw [hrest] at h
      by_cases hq : q.1 = f
      · rw [if_pos hq] at h
        cases h
        exact ⟨by simp, hq⟩
      · rw [if_neg hq] at h
        cases h
    · have h2 : p = r := by
        rw [hrest] at h
        exact (Option.some.inj h).symm
      subst h2
      obtain ⟨hmem, hkey⟩ := ih p hrest
      exact ⟨by simp [hmem], hkey⟩

lemma lastPair_map (AR : Attrs) (g : String × Value → Value) (f : String) :
    lastPair (AR.map (fun p => (p.1, g p))) f =
      Option.map (fun p => (p.1, g p)) (lastPair AR f) := by
  have hgen : ∀ acc : Option (String × Value),
      (AR.map (fun p => (p.1, g p))).foldl
        (fun acc p => if p.1 = f then some p else acc) (Option.map (fun p => (p.1, g p)) acc) =
      Option.map (fun p => (p.1, g p))
        (AR.foldl (fun acc p => if p.1 = f then some p else acc) acc) := by
    induction AR with
    | nil => intro acc; rfl
    | cons p rest ih =>
      intro acc
      rw [List.map_cons, List.foldl_cons, List.foldl_cons]
      have hstep : (if (p.1, g p).1 = f then some (p.1, g p) else
          Option.map (fun p => (p.1, g p)) acc) =
          Option.map (fun p => (p.1, g p)) (if p.1 = f then some p else acc) := by
        by_cases hp : p.1 = f <;> simp [hp]
      rw [hstep]
      exact ih _
  have := hgen none
  simpa [lastPair] using this

lemma dedupNG_mem_start (vals : List String) :
    ∀ (start : List String) (x : String), x ∈ start →
      x ∈ vals.foldl (fun acc y => if y ∉ acc then acc ++ [y] else acc) start := by
  induction vals with
  | nil => intro start x hx; exact hx
  | cons v rest ih =>
    intro start x hx
    rw [List.foldl_cons]
    refine ih _ x ?_
    split
    · exact List.mem_append_left _ hx
    · exact hx

lemma dedupNG_vals_sub (vals : List String) :
    ∀ (start : List String) (x : String), x ∈ vals →
      x ∈ vals.foldl (fun acc y => if y ∉ acc then acc ++ [y] else acc) start := by
  induction vals with
  | nil => intro start x hx; cases hx
  | cons v rest ih =>
    intro start x hx
    rw [List.foldl_cons]
    rcases List.mem_cons.mp hx with rfl | hx2
    · refine dedupNG_mem_start rest _ x ?_
      split
      · exact List.mem_append_right _ (by simp)
      · next hmem => simpa using hmem
    · exact ih _ x hx2

lemma dedupNG_absorb (vals : List String) :
    ∀ start : List String, (∀ x ∈ vals, x ∈ start) →
      vals.foldl (fun acc y => if y ∉ acc then acc ++ [y] else acc) start = start := by
  induction vals with
  | nil => intro start _; rfl
  | cons v rest ih =>
    intro start h
    rw [List.foldl_cons]
    have hv : v ∈ start := h v (by simp)
    rw [if_neg (by simpa using hv)]
    exact ih start (fun x hx => h x (by simp [hx]))

lemma dedupNG_nodup (vals : List String) :
    ∀ start : List String, start.Nodup →
      (vals.foldl (fun acc y => if y ∉ acc then acc ++ [y] else acc) start).Nodup := by
  induction vals with
  | nil => intro start h; exact h
  | cons v rest ih =>
    intro start h
    rw [List.foldl_cons]
    refine ih _ ?_
    split
    · next hv => exact nodup_append_singleton h hv
    · exact h

lemma maOf_keys (schema : List (String × SchemaField)) (st U : Attrs) :
    ∀ q ∈ maOf schema st U, isArrayTypeField schema q.1 = true := by
  intro q hq
  unfold maOf at hq
  obtain ⟨p, hp, hpq⟩ := List.mem_map.mp hq
  have harr := (List.mem_filter.mp hp).2
  have hkey : q.1 = p.1 := by rw [← hpq]
  rw [hkey]
  exact (Bool.and_eq_true_iff.mp harr).2

lemma naOf_keys (schema : List (String × SchemaField)) (U : Attrs) :
    ∀ q ∈ naOf schema U, isArrayTypeField schema q.1 = false := by
  intro q hq
  have hq2 := (List.mem_filter.mp hq).2
  have := (Bool.and_eq_true_iff.mp hq2).2
  cases h : isArrayTypeField schema q.1
  · rfl
  · rw [h] at this
    cases this

lemma lastPair_ma_none (schema : List (String × SchemaField)) (st U : Attrs) (f : String)
    (hf : isArrayTypeField schema f = false) :
    lastPair (maOf schema st U) f = none := by
  refine lastPair_none_of_keys _ f (fun p hp he => ?_)
  have := maOf_keys schema st U p hp
  rw [he, hf] at this
  cases this

lemma lastPair_na_none (schema : List (String × SchemaField)) (U : Attrs) (f : String)
    (hf : isArrayTypeField schema f = true) :
    lastPair (naOf schema U) f = none := by
  refine lastPair_none_of_keys _ f (fun p hp he => ?_)
  have := naOf_keys schema U p hp
  rw [he, hf] at this
  cases this

lemma lastPair_ma (schema : List (String × SchemaField)) (st U : Attrs) (f : String) :
    lastPair (maOf schema st U) f =
      Option.map
        (fun p => (p.1, Value.vList
          ((valueAsList p.2).foldl (fun acc x => if x ∉ acc then acc ++ [x] else acc)
            (wrapExisting st p.1))))
        (lastPair (arOf schema U) f) := by
  unfold maOf
  exact lastPair_map (arOf schema U) _ f

lemma alGet_updateEntityState (schema : List (String × SchemaField)) (st U : Attrs)
    (now : String) (f : String) (hne : f ≠ "lastUpdated") (hU : U.isEmpty = false) :
    alGet (updateEntityState schema st U now) f =
      match lastPair (naOf schema U ++ maOf schema st U) f with
      | some p => some p.2
      | none => alGet st f := by
  unfold updateEntityState
  rw [if_neg (by rw [hU]; exact Bool.false_ne_true)]
  rw [alGet_alSet_ne _ "lastUpdated" f _ hne]
  exact alGet_applyAll _ st f

lemma updateEntityState_scalar_stable (schema : List (String × SchemaField))
    (st U : Attrs) (now1 now2 : String) (f : String) (hne : f ≠ "lastUpdated")
    (hf : isArrayTypeField schema f = false) :
    alGet (updateEntityState schema (updateEntityState schema st U now1) U now2) f =
      alGet (updateEntityState schema st U now1) f := by
  cases hU : U.isEmpty
  · have h1 := alGet_updateEntityState schema st U now1 f hne hU
    have h2 := alGet_updateEntityState schema (updateEntityState schema st U now1) U now2
      f hne hU
    rw [lastPair_append, lastPair_ma_none schema _ U f hf] at h2
    rw [lastPair_append, lastPair_ma_none schema st U f hf] at h1
    rcases hna : lastPair (naOf schema U) f with _ | p
    · rw [hna] at h2
      exact h2
    · rw [hna] at h1 h2
      rw [h1, h2]
  · unfold updateEntityState
    rw [if_pos hU, if_pos hU]

lemma wrapExisting_nodup (st : Attrs) (f : String) :
    (listAt st f).Nodup → (wrapExisting st f).Nodup := by
  intro h
  unfold wrapExisting
  unfold listAt at h
  rcases hg : alGet st f with _ | v
  · exact List.nodup_nil
  · cases v with
    | vList l =>
      rw [hg] at h
      exact h
    | vStr s =>
      show (if (Value.vStr s).truthy = true then [(Value.vStr s).pyStr] else []).Nodup
      split <;> simp
    | vNum q =>
      show (if (Value.vNum q).truthy = true then [(Value.vNum q).pyStr] else []).Nodup
      split <;> simp
    | vVec u =>
      show (if (Value.vVec u).truthy = true then [(Value.vVec u).pyStr] else []).Nodup
      split <;> simp

lemma updateEntityState_array_value (schema : List (String × SchemaField))
    (st U : Attrs) (now : String) (f : String) (hne : f ≠ "lastUpdated")
    (hf : isArrayTypeField schema f = true) (hU : U.isEmpty = false) :
    alGet (updateEntityState schema st U now) f =
      match lastPair (arOf schema U) f with
      | some p => some (Value.vList
          ((valueAsList p.2).foldl (fun acc x => if x ∉ acc then acc ++ [x] else acc)
            (wrapExisting st f)))
      | none => alGet st f := by
  rw [alGet_updateEntityState schema st U now f hne hU]
  rw [lastPair_append, lastPair_na_none schema U f hf, lastPair_ma]
  rcases har : lastPair (arOf schema U) f with _ | p
  · rfl
  · have hkey := (lastPair_mem _ f p har).2
    rw [← hkey]
    rfl

lemma updateEntityState_array_stable (schema : List (String × SchemaField))
    (st U : Attrs) (now1 now2 : String) (f : String) (hne : f ≠ "lastUpdated")
    (hf : isArrayTypeField schema f = true) :
    alGet (updateEntityState schema (updateEntityState schema st U now1) U now2) f =
      alGet (updateEntityState schema st U now1) f := by
  cases hU : U.isEmpty
  · rcases har : lastPair (arOf schema U) f with _ | p
    · have h2 : alGet (updateEntityState schema (updateEntityState schema st U now1) U now2)
          f = alGet (updateEntityState schema st U now1) f := by
        rw [updateEntityState_array_value schema _ U now2 f hne hf hU, har]
      exact h2
    · have h1 : alGet (updateEntityState schema st U now1) f =
          some (Value.vList ((valueAsList p.2).foldl
            (fun acc x => if x ∉ acc then acc ++ [x] else acc) (wrapExisting st f))) := by
        rw [updateEntityState_array_value schema st U now1 f hne hf hU, har]
      have hw : wrapExisting (updateEntityState schema st U now1) f =
          (valueAsList p.2).foldl (fun acc x => if x ∉ acc then acc ++ [x] else acc)
            (wrapExisting st f) := by
        unfold wrapExisting
        rw [h1]
        rfl
      have h2 : alGet (updateEntityState schema (updateEntityState schema st U now1) U now2)
          f = some (Value.vList ((valueAsList p.2).foldl
            (fun acc x => if x ∉ acc then acc ++ [x] else acc)
            (wrapExisting (updateEntityState schema st U now1) f))) := by
        rw [updateEntityState_array_value schema _ U now2 f hne hf hU, har]
      rw [h2, h1, hw]
      rw [dedupNG_absorb (valueAsList p.2) _
        (fun x hx => dedupNG_vals_sub (valueAsList p.2) (wrapExisting st f) x hx)]
  · unfold updateEntityState
    rw [if_pos hU, if_pos hU]

lemma updateEntityState_array_nodup (schema : List (String × SchemaField))
    (st U : Attrs) (now : String) (f : String) (hne : f ≠ "lastUpdated")
    (hf : isArrayTypeField schema f = true) (h : (listAt st f).Nodup) :
    (listAt (updateEntityState schema st U now) f).Nodup := by
  cases hU : U.isEmpty
  · rcases har : lastPair (arOf schema U) f with _ | p
    · have h1 : alGet (updateEntityState schema st U now) f = alGet st f := by
        rw [updateEntityState_array_value schema st U now f hne hf hU, har]
      unfold listAt
      rw [h1]
      unfold listAt at h
      exact h
    · have h1 : alGet (updateEntityState schema st U now) f =
          some (Value.vList ((valueAsList p.2).foldl
            (fun acc x => if x ∉ acc then acc ++ [x] else acc) (wrapExisting st f))) := by
        rw [updateEntityState_array_value schema st U now f hne hf hU, har]
      unfold listAt
      rw [h1]
      exact dedupNG_nodup (valueAsList p.2) _ (wrapExisting_nodup st f h)
  · unfold updateEntityState
    rw [if_pos hU]
    exact h

/-- C6: merging a group into an existing entity is idempotent.  The update
payload of `_merge_group_into_existing` is a pure function of the group and
the configuration (it reads the group's stored snapshot, not the live
entity), and applying `update_entity` with it twice leaves every array field
exactly as after the first application with no duplicate entries (stored
arrays that start duplicate-free stay duplicate-free), and every scalar field
other than the automatic `lastUpdated` timestamp unchanged by the second
application. -/
theorem c6_merge_group_idempotent (cfg : MergeConfig) (group : EntityGroup)
    (sourceItemId : String) (schema : List (String × SchemaField)) (st : Attrs)
    (now1 now2 : String) :
    (∀ f, isArrayTypeField schema f = true → f ≠ "lastUpdated" →
      alGet (updateEntityState schema
          (updateEntityState schema st (mergeGroupPayload cfg group sourceItemId) now1)
          (mergeGroupPayload cfg group sourceItemId) now2) f =
        alGet (updateEntityState schema st (mergeGroupPayload cfg group sourceItemId) now1)
          f ∧
      ((listAt st f).Nodup →
        (listAt (updateEntityState schema st (mergeGroupPayload cfg group sourceItemId)
          now1) f).Nodup)) ∧
    (∀ f, isArrayTypeField schema f = false → f ≠ "lastUpdated" →
      alGet (updateEntityState schema
          (updateEntityState schema st (mergeGroupPayload cfg group sourceItemId) now1)
          (mergeGroupPayload cfg group sourceItemId) now2) f =
        alGet (updateEntityState schema st (mergeGroupPayload cfg group sourceItemId) now1)
          f) :=
  ⟨fun f hf hne =>
    ⟨updateEntityState_array_stable schema st _ now1 now2 f hne hf,
     fun hnd => updateEntityState_array_nodup schema st _ now1 f hne hf hnd⟩,
   fun f hf hne => updateEntityState_scalar_stable schema st _ now1 now2 f hne hf⟩

/-- Witness for C6 at a concrete group, schema and stored entity. -/
theorem c6_merge_group_idempotent_witness :
    (isArrayTypeField [("aliases", SchemaField.fdict (some "STRING[]")),
        ("email", SchemaField.fdict (some "STRING"))] "aliases" = true ∧
      "aliases" ≠ "lastUpdated" ∧
      (listAt [("aliases", Value.vList ["x"]), ("email", Value.vStr "a@b")]
        "aliases").Nodup) ∧
    (alGet (updateEntityState
        [("aliases", SchemaField.fdict (some "STRING[]")),
         ("email", SchemaField.fdict (some "STRING"))]
        (updateEntityState
          [("aliases", SchemaField.fdict (some "STRING[]")),
           ("email", SchemaField.fdict (some "STRING"))]
          [("aliases", Value.vList ["x"]), ("email", Value.vStr "a@b")]
          (mergeGroupPayload c5cfg c5group "batch1") "t1")
        (mergeGroupPayload c5cfg c5group "batch1") "t2") "aliases" =
      alGet (updateEntityState
        [("aliases", SchemaField.fdict (some "STRING[]")),
         ("email", SchemaField.fdict (some "STRING"))]
        [("aliases", Value.vList ["x"]), ("email", Value.vStr "a@b")]
        (mergeGroupPayload c5cfg c5group "batch1") "t1") "aliases" ∧
      (listAt (updateEntityState
        [("aliases", SchemaField.fdict (some "STRING[]")),
         ("email", SchemaField.fdict (some "STRING"))]
        [("aliases", Value.vList ["x"]), ("email", Value.vStr "a@b")]
        (mergeGroupPayload c5cfg c5group "batch1") "t1") "aliases").Nodup) := by
  refine ⟨⟨by decide, by decide, by decide⟩, ?_⟩
  have h := (c6_merge_group_idempotent c5cfg c5group "batch1"
    [("aliases", SchemaField.fdict (some "STRING[]")),
     ("email", SchemaField.fdict (some "STRING"))]
    [("aliases", Value.vList ["x"]), ("email", Value.vStr "a@b")] "t1" "t2").1
    "aliases" (by decide) (by decide)
  exact ⟨h.1, h.2 (by decide)⟩

/-! ## `merge_groups_to_database` and the fallback canonical mapping -/

/-- Outcome of one store write (`_merge_group_into_existing_single` or
`_create_entity_from_group_single`): a returned id, a `None` return, or a
raised exception. -/
inductive WriteOutcome where
  | ok (entityId : String)
  | failNone
  | raise
deriving DecidableEq, Repr

/-- Store-write oracle for `merge_groups_to_database`. -/
structure WriteOracle where
  mergeOutcome : EntityGroup → WriteOutcome
  createOutcome : EntityGroup → WriteOutcome

/-- Truthiness of `group.primary_entity_id` (line 409). -/
def groupHasPrimary (g : EntityGroup) : Bool :=
  match g.primaryEntityId with
  | some s => s ≠ ""
  | none => false

/-- Embedding of `group.primary_entity_data.get('name')` read as a string. -/
def entityNameOfData (pe : Option Attrs) : Option String :=
  match pe with
  | some pe2 =>
    match alGet pe2 "name" with
    | some (.vStr s) => some s
    | _ => none
  | none => none

/-- The `for item in group.items:` mapping loops (lines 440-447, 466-473,
496-504, 525-531, 541-548). -/
def mapItemsFold (mapping : List (String × EntityInfo)) (items : List EntityItem)
    (info : EntityItem → EntityInfo) : List (String × EntityInfo) :=
  items.foldl (fun mp item => alSet mp item.entityName (info item)) mapping

/-- Embedding of the optional `processed_entities[primary_entity_name] = ...`
assignment guarded by the truthiness of the primary entity name
(lines 433-437, 460-464, 519-523). -/
def mapPrimaryName (mapping : List (String × EntityInfo)) (pen : Option String)
    (info : String → EntityInfo) : List (String × EntityInfo) :=
  match pen with
  | some s => if s ≠ "" then alSet mapping s (info s) else mapping
  | none => mapping

/-- Embedding of the merged-path mapping when the merge returned `None` and
of the exception handler's primary branch (lines 451-473 and 514-531): every
item name maps to the existing primary entity id. -/
def mapMergeFailed (mapping : List (String × EntityInfo)) (entityType : String)
    (g : EntityGroup) : List (String × EntityInfo) :=
  let pid := g.primaryEntityId.getD ""
  let pen := entityNameOfData g.primaryEntityData
  let mp := mapPrimaryName mapping pen (fun s => ⟨pid, entityType, false, false, none, none⟩)
  mapItemsFold mp g.items (fun item => ⟨pid, entityType, true, false, none, pen⟩)

/-- Embedding of the per-group body of `merge_groups_to_database`
(lines 404-533), projected to the canonical `processed_entities` mapping it
builds.  A group with an existing primary entity always contributes mappings
(success, `None` return, or raise); a group without one contributes mappings
on success and — through `_add_fallback_entity_mapping` — on a raise, but
deliberately nothing when the create call returns `None` (comment at
line 509). -/
def processGroupMapping (oracle : WriteOracle) (entityType : String) (g : EntityGroup)
    (mapping : List (String × EntityInfo)) : List (String × EntityInfo) :=
  if groupHasPrimary g then
    match oracle.mergeOutcome g with
    | .ok mergedId =>
      if mergedId ≠ "" then
        let actualDbId := g.primaryEntityId.getD ""
        let pen := entityNameOfData g.primaryEntityData
        let finalName :=
          match pen with
          | some s => if s ≠ "" then s else actualDbId
          | none => actualDbId
        let mp := mapPrimaryName mapping pen
          (fun s => ⟨s, entityType, false, false, none, none⟩)
        mapItemsFold mp g.items
          (fun item => ⟨finalName, entityType, true, decide (item.entityName ≠ finalName),
            some finalName, none⟩)
      else mapMergeFailed mapping entityType g
    | .failNone => mapMergeFailed mapping entityType g
    | .raise => mapMergeFailed mapping entityType g
  else
    match oracle.createOutcome g with
    | .ok newId =>
      if newId ≠ "" then
        let mp := alSet mapping newId ⟨newId, entityType, false, false, none, none⟩
        mapItemsFold mp g.items
          (fun item => ⟨newId, entityType, false, decide (item.entityName ≠ newId),
            some newId, none⟩)
      else mapping
    | .failNone => mapping
    | .raise =>
      mapItemsFold mapping g.items
        (fun item => ⟨item.entityName, entityType, false, false, none, none⟩)

/-- Embedding of `merge_groups_to_database` (lines 383-535), projected to the
returned `processed_entities` mapping (the statistics dictionary is not
modelled). -/
def mergeGroupsToDatabase (oracle : WriteOracle)
    (groupsByType : List (String × List EntityGroup)) : List (String × EntityInfo) :=
  groupsByType.foldl
    (fun mapping tg =>
      tg.2.foldl (fun mp g => processGroupMapping oracle tg.1 g mp) mapping)
    []

lemma foldl_pres {α β : Type} (Q : α → Prop) (L : List β) (f : α → β → α)
    (hf : ∀ a y, y ∈ L → Q a → Q (f a y)) :
    ∀ a, Q a → Q (L.foldl f a) := by
  induction L with
  | nil => intro a ha; exact ha
  | cons y rest ih =>
    intro a ha
    rw [List.foldl_cons]
    exact ih (fun a2 z hz hQ => hf a2 z (by simp [hz]) hQ) (f a y) (hf a y (by simp) ha)

lemma foldl_establish {α β : Type} (Q : α → Prop) (f : α → β → α) (x : β)
    (hest : ∀ a, Q (f a x)) :
    ∀ L : List β, x ∈ L → (∀ a y, y ∈ L → Q a → Q (f a y)) →
      ∀ a, Q (L.foldl f a) := by
  intro L
  induction L with
  | nil => intro hx; cases hx
  | cons y rest ih =>
    intro hx hpres a
    rw [List.foldl_cons]
    rcases List.mem_cons.mp hx with rfl | hx2
    · exact foldl_pres Q rest f
        (fun a2 z hz hQ => hpres a2 z (List.mem_cons_of_mem _ hz) hQ) _ (hest a)
    · exact ih hx2 (fun a2 z hz hQ => hpres a2 z (List.mem_cons_of_mem _ hz) hQ) (f a y)

lemma alGet_alSet_isSome {κ α : Type} [DecidableEq κ] (m : List (κ × α)) (k k2 : κ) (v : α)
    (h : (alGet m k2).isSome = true) : (alGet (alSet m k v) k2).isSome = true := by
  by_cases hk : k2 = k
  · subst hk
    rw [alGet_alSet_self]
    rfl
  · rw [alGet_alSet_ne m k k2 v hk]
    exact h

lemma mapItemsFold_pres (items : List EntityItem) (info : EntityItem → EntityInfo)
    (k : String) :
    ∀ mp, (alGet mp k).isSome = true →
      (alGet (mapItemsFold mp items info) k).isSome = true := by
  intro mp h
  exact foldl_pres (fun m => (alGet m k).isSome = true) items _
    (fun m item _ hQ => alGet_alSet_isSome m item.entityName k (info item) hQ) mp h

lemma mapItemsFold_covers (items : List EntityItem) (info : EntityItem → EntityInfo)
    (item : EntityItem) (hitem : item ∈ items) :
    ∀ mp, (alGet (mapItemsFold mp items info) item.entityName).isSome = true := by
  intro mp
  refine foldl_establish (fun m => (alGet m item.entityName).isSome = true) _ item
    (fun m => ?_) items hitem
    (fun m it _ hQ => alGet_alSet_isSome m it.entityName _ _ hQ) mp
  show (alGet (alSet m item.entityName (info item)) item.entityName).isSome = true
  rw [alGet_alSet_self]
  rfl

lemma mapPrimaryName_pres (mapping : List (String × EntityInfo)) (pen : Option String)
    (info : String → EntityInfo) (k : String) (h : (alGet mapping k).isSome = true) :
    (alGet (mapPrimaryName mapping pen info) k).isSome = true := by
  unfold mapPrimaryName
  rcases pen with _ | s
  · exact h
  · show (alGet (if s ≠ "" then alSet mapping s (info s) else mapping) k).isSome = true
    by_cases hs : s ≠ ""
    · rw [if_pos hs]
      exact alGet_alSet_isSome mapping s k _ h
    · rw [if_neg hs]
      exact h

lemma processGroupMapping_pres (oracle : WriteOracle) (entityType : String)
    (g : EntityGroup) (k : String) :
    ∀ mp, (alGet mp k).isSome = true →
      (alGet (processGroupMapping oracle entityType g mp) k).isSome = true := by
  intro mp h
  unfold processGroupMapping
  split
  · split
    · split
      · exact mapItemsFold_pres _ _ k _ (mapPrimaryName_pres mp _ _ k h)
      · exact mapItemsFold_pres _ _ k _ (mapPrimaryName_pres mp _ _ k h)
    · exact mapItemsFold_pres _ _ k _ (mapPrimaryName_pres mp _ _ k h)
    · exact mapItemsFold_pres _ _ k _ (mapPrimaryName_pres mp _ _ k h)
  · split
    · split
      · exact mapItemsFold_pres _ _ k _ (alGet_alSet_isSome mp _ k _ h)
      · exact h
    · exact h
    · exact mapItemsFold_pres _ _ k _ h

lemma processGroupMapping_covers (oracle : WriteOracle) (entityType : String)
    (g : EntityGroup) (item : EntityItem) (hitem : item ∈ g.items)
    (hcase : groupHasPrimary g = true ∨ oracle.createOutcome g = WriteOutcome.raise ∨
      (∃ newId, oracle.createOutcome g = WriteOutcome.ok newId ∧ newId ≠ "")) :
    ∀ mp, (alGet (processGroupMapping oracle entityType g mp) item.entityName).isSome
      = true := by
  intro mp
  unfold processGroupMapping
  rcases hcase with hp | hr | ⟨newId, hok, hne⟩
  · rw [if_pos hp]
    split
    · split
      · exact mapItemsFold_covers _ _ item hitem _
      · exact mapItemsFold_covers _ _ item hitem _
    · exact mapItemsFold_covers _ _ item hitem _
    · exact mapItemsFold_covers _ _ item hitem _
  · by_cases hp : groupHasPrimary g = true
    · rw [if_pos hp]
      split
      · split
        · exact mapItemsFold_covers _ _ item hitem _
        · exact mapItemsFold_covers _ _ item hitem _
      · exact mapItemsFold_covers _ _ item hitem _
      · exact mapItemsFold_covers _ _ item hitem _
    · rw [if_neg hp]
      simp only [hr]
      exact mapItemsFold_covers _ _ item hitem _
  · by_cases hp : groupHasPrimary g = true
    · rw [if_pos hp]
      split
      · split
        · exact mapItemsFold_covers _ _ item hitem _
        · exact mapItemsFold_covers _ _ item hitem _
      · exact mapItemsFold_covers _ _ item hitem _
      · exact mapItemsFold_covers _ _ item hitem _
    · rw [if_neg hp]
      simp only [hok]
      rw [if_pos hne]
      exact mapItemsFold_covers _ _ item hitem _

/-- The single-item group with no existing match used for C9. -/
def c9group : EntityGroup :=
  ⟨"g", "Person",
   [⟨0, "Person", "A", [("name", Value.vStr "A")], ⟨none, none, none, none, []⟩⟩],
   none, none⟩

/-- Write oracle for C9 whose create call returns `None` without raising. -/
def c9oracleNone : WriteOracle := ⟨fun _ => WriteOutcome.failNone, fun _ => WriteOutcome.failNone⟩

/-- C9 counterexample: the claim states every group whose write fails (the
call returns no entity or raises) still contributes a mapping entry for every
item name.  When a group has no existing match and the create call returns
`None` without raising, the code deliberately adds no mapping (comment at
line 509: "Don't add fallback mapping for failed entities"), so the item name
"A" is absent from the returned mapping. -/
theorem c9_failed_create_no_fallback_counterexample :
    alGet (mergeGroupsToDatabase c9oracleNone [("Person", [c9group])]) "A" = none ∧
    "A" ∈ c9group.items.map EntityItem.entityName ∧
    c9oracleNone.createOutcome c9group = WriteOutcome.failNone := by
  refine ⟨by decide, by decide, rfl⟩

/-- C9 (amended): a failed entity group still contributes identities for all
of its item names to the canonical mapping whenever it reconciled to an
existing entity (merge returning `None` and raises included) or its create
call raised or succeeded; only a group without an existing match whose create
call returns `None` without raising contributes nothing (a deliberate
exception, line 509). -/
theorem c9_failed_group_fallback_mapping (oracle : WriteOracle)
    (groupsByType : List (String × List EntityGroup)) (t : String)
    (gs : List EntityGroup) (g : EntityGroup) (item : EntityItem)
    (hgs : (t, gs) ∈ groupsByType) (hg : g ∈ gs) (hitem : item ∈ g.items)
    (hcase : groupHasPrimary g = true ∨ oracle.createOutcome g = WriteOutcome.raise ∨
      (∃ newId, oracle.createOutcome g = WriteOutcome.ok newId ∧ newId ≠ "")) :
    (alGet (mergeGroupsToDatabase oracle groupsByType) item.entityName).isSome = true := by
  unfold mergeGroupsToDatabase
  refine foldl_establish (fun mp => (alGet mp item.entityName).isSome = true)
    (fun mapping tg => tg.2.foldl (fun mp g2 => processGroupMapping oracle tg.1 g2 mp) mapping)
    (t, gs) (fun mapping => ?_) groupsByType hgs
    (fun mapping tg _ hQ =>
      foldl_pres (fun mp => (alGet mp item.entityName).isSome = true) tg.2
        (fun mp g2 => processGroupMapping oracle tg.1 g2 mp)
        (fun mp g2 _ hQ2 => processGroupMapping_pres oracle tg.1 g2 item.entityName mp hQ2)
        mapping hQ) []
  show (alGet (gs.foldl (fun mp g2 => processGroupMapping oracle t g2 mp) mapping)
    item.entityName).isSome = true
  exact foldl_establish (fun mp => (alGet mp item.entityName).isSome = true)
    (fun mp g2 => processGroupMapping oracle t g2 mp) g
    (fun mp => processGroupMapping_covers oracle t g item hitem hcase mp) gs hg
    (fun mp g2 _ hQ => processGroupMapping_pres oracle t g2 item.entityName mp hQ) mapping

/-- Write oracle for the C9 witness whose create call raises. -/
def c9oracleRaise : WriteOracle := ⟨fun _ => WriteOutcome.raise, fun _ => WriteOutcome.raise⟩

/-- Witness for the amended C9: a create that raises still yields a fallback
mapping entry for the item name. -/
theorem c9_failed_group_fallback_mapping_witness :
    ((("Person", [c9group]) : String × List EntityGroup) ∈ [("Person", [c9group])] ∧
      c9group ∈ [c9group] ∧
      (⟨0, "Person", "A", [("name", Value.vStr "A")], ⟨none, none, none, none, []⟩⟩ :
        EntityItem) ∈ c9group.items ∧
      c9oracleRaise.createOutcome c9group = WriteOutcome.raise) ∧
    (alGet (mergeGroupsToDatabase c9oracleRaise [("Person", [c9group])])
      (⟨0, "Person", "A", [("name", Value.vStr "A")], ⟨none, none, none, none, []⟩⟩ :
        EntityItem).entityName).isSome = true :=
  ⟨⟨by decide, by decide, by decide, rfl⟩,
   c9_failed_group_fallback_mapping c9oracleRaise [("Person", [c9group])] "Person"
     [c9group] c9group _ (by decide) (by decide) (by decide) (Or.inr (Or.inl rfl))⟩

/-! ## Entity grouping: batch ids, N-squared grouping and transitive closure
(`process_entities_systematic`, lines 150-289) -/

/-- Embedding of step 1 of `process_entities_systematic` (lines 158-173):
enumerate the batch, keep records whose resolved entity type and name are
truthy, and assign the enumeration index as batch id. -/
def step1Body (items : List EntityItem) (p : Nat × RawEntity) : List EntityItem :=
  let entityType := pyOrStr p.2.entityTypeKey p.2.typeKey
  let entityName := pyOrStr p.2.entityNameKey p.2.nameKey
  if optTruthy entityType && optTruthy entityName then
    items ++ [⟨p.1, entityType.getD "", entityName.getD "", p.2.attributes, p.2⟩]
  else items

/-- Embedding of step 1 of `process_entities_systematic` (lines 158-173):
the loop body is `step1Body`. -/
def step1 (batch : List RawEntity) : List EntityItem :=
  batch.enum.foldl step1Body []

/-- Recursive restatement of `step1`, used in proofs. -/
def step1Rec : Nat → List RawEntity → List EntityItem
  | _, [] => []
  | i, r :: rest =>
    (if optTruthy (pyOrStr r.entityTypeKey r.typeKey) &&
        optTruthy (pyOrStr r.entityNameKey r.nameKey) then
      [⟨i, (pyOrStr r.entityTypeKey r.typeKey).getD "",
        (pyOrStr r.entityNameKey r.nameKey).getD "", r.attributes, r⟩]
    else []) ++ step1Rec (i + 1) rest

/-- Embedding of the inner comparison loop of step 2 (lines 193-202): scan
all later unprocessed items of the same type and absorb the ones the center
matches. -/
def innerScan (rulesFor : String → List MatchRule) (enumItems : List (Nat × EntityItem))
    (i : Nat) (item1 : EntityItem) (st : List EntityItem × List Nat) :
    List EntityItem × List Nat :=
  enumItems.foldl
    (fun st2 jp =>
      if jp.1 ≤ i ∨ jp.1 ∈ st2.2 ∨ item1.entityType ≠ jp.2.entityType then st2
      else if (entitiesMatch rulesFor item1 jp.2).1 then
        (st2.1 ++ [jp.2], st2.2 ++ [jp.1])
      else st2)
    st

/-- Embedding of `entity_groups_by_type[item1.entity_type].append(group)` on
an insertion-ordered dict. -/
def dictAppend (byType : List (String × List EntityGroup)) (k : String)
    (g : EntityGroup) : List (String × List EntityGroup) :=
  match alGet byType k with
  | some gs => alSet byType k (gs ++ [g])
  | none => byType ++ [(k, [g])]

/-- Embedding of step 2 of `process_entities_systematic` (lines 177-204):
each unprocessed item starts a group and absorbs the later unprocessed items
it matches; groups are collected per entity type. -/
def starBody (rulesFor : String → List MatchRule) (enumItems : List (Nat × EntityItem))
    (st : List (String × List EntityGroup) × List Nat) (ip : Nat × EntityItem) :
    List (String × List EntityGroup) × List Nat :=
  if ip.1 ∈ st.2 then st
  else
    let scanned := innerScan rulesFor enumItems ip.1 ip.2 ([ip.2], st.2 ++ [ip.1])
    (dictAppend st.1 ip.2.entityType
      ⟨"group_" ++ ip.2.entityType ++ "_" ++ toString ip.1, ip.2.entityType,
        scanned.1, none, none⟩,
     scanned.2)

def starPass (rulesFor : String → List MatchRule) (items : List EntityItem) :
    List (String × List EntityGroup) :=
  (items.enum.foldl (starBody rulesFor items.enum) ([], [])).1

/-- Embedding of the `for item1 in merge_group.items: for item2 in
group2.items` edge test (lines 257-267). -/
def groupsMatchAny (rulesFor : String → List MatchRule) (g1 g2 : EntityGroup) : Bool :=
  g1.items.any (fun x => g2.items.any (fun y => (entitiesMatch rulesFor x y).1))

/-- The default group used for positional lookups. -/
def emptyGroup : EntityGroup := ⟨"", "", [], none, none⟩

/-- Embedding of the `should_merge` test of one candidate group against the
current `to_merge` set (lines 255-267). -/
def shouldMerge (rulesFor : String → List MatchRule) (groups : List EntityGroup)
    (tm : List Nat) (g2 : EntityGroup) : Bool :=
  tm.any (fun i => groupsMatchAny rulesFor (groups.getD i emptyGroup) g2)

/-- One full scan of the `while changed` loop of
`_apply_transitive_closure_systematic` (lines 248-272): collect every not yet
processed group that matches the growing `to_merge` set. -/
def scanBody (rulesFor : String → List MatchRule) (groups : List EntityGroup)
    (processed : List Nat) (tm2 : List Nat) (jg : Nat × EntityGroup) : List Nat :=
  if jg.1 ∈ tm2 ∨ jg.1 ∈ processed then tm2
  else if shouldMerge rulesFor groups tm2 jg.2 then tm2 ++ [jg.1]
  else tm2

def scanOnce (rulesFor : String → List MatchRule) (groups : List EntityGroup)
    (processed tm : List Nat) : List Nat :=
  groups.enum.foldl (scanBody rulesFor groups processed) tm

/-- The `while changed` loop (lines 247-272), with explicit fuel: iterate
`scanOnce` until a full scan adds nothing.  `groups.length` fuel always
suffices to reach the fixpoint. -/
def saturate (rulesFor : String → List MatchRule) (groups : List EntityGroup)
    (processed : List Nat) : Nat → List Nat → List Nat
  | 0, tm => tm
  | fuel + 1, tm =>
    let tm2 := scanOnce rulesFor groups processed tm
    if tm2 = tm then tm else saturate rulesFor groups processed fuel tm2

/-- Embedding of `_apply_transitive_closure_systematic` (lines 230-289):
repeatedly absorb every group that overlaps the growing merge set, then emit
either the merged group or the original one. -/
def closureBody (rulesFor : String → List MatchRule) (groups : List EntityGroup)
    (st : List EntityGroup × List Nat) (ig : Nat × EntityGroup) :
    List EntityGroup × List Nat :=
  if ig.1 ∈ st.2 then st
  else
    let tm := saturate rulesFor groups st.2 groups.length [ig.1]
    let merged :=
      if tm.length > 1 then
        (⟨"merged_" ++ (groups.getD 0 emptyGroup).entityType ++ "_" ++ toString ig.1,
          ig.2.entityType,
          (tm.map (fun i => (groups.getD i emptyGroup).items)).flatten, none, none⟩ :
          EntityGroup)
      else ig.2
    (st.1 ++ [merged], st.2 ++ tm)

def closurePass (rulesFor : String → List MatchRule) (groups : List EntityGroup) :
    List EntityGroup :=
  if groups.length ≤ 1 then groups
  else (groups.enum.foldl (closureBody rulesFor groups) ([], [])).1

/-- Embedding of steps 1-3 of `process_entities_systematic` (lines 158-228,
before the database matching of step 4, which only fills the
`primary_entity` fields and does not change the groups' items). -/
def groupEntities (rulesFor : String → List MatchRule) (batch : List RawEntity) :
    List (String × List EntityGroup) :=
  (starPass rulesFor (step1 batch)).map (fun p => (p.1, closurePass rulesFor p.2))

/-- All groups of the result, across the entity types in insertion order. -/
def allGroups (byType : List (String × List EntityGroup)) : List EntityGroup :=
  (byType.map Prod.snd).flatten

/-! ### Generic fold and list helpers for the grouping proofs -/

lemma foldl_cover {α β : Type} (f : α → β → α) (P : β → α → Prop)
    (hstep : ∀ a y, P y (f a y))
    (hmono : ∀ a y z, P y a → P y (f a z)) :
    ∀ (l : List β) (a : α), ∀ y ∈ l, P y (l.foldl f a) := by
  intro l
  induction l with
  | nil => intro a y hy; cases hy
  | cons z rest ih =>
    intro a y hy
    rw [List.foldl_cons]
    rcases List.mem_cons.mp hy with rfl | hy2
    · exact foldl_pres (P y) rest f (fun a2 w _ h => hmono a2 y w h) _ (hstep a y)
    · exact ih (f a z) y hy2

lemma mem_enum_getD {α : Type} (L : List α) (d : α) (j : Nat) (x : α)
    (h : (j, x) ∈ L.enum) : j < L.length ∧ L.getD j d = x := by
  have h2 := List.mem_enum h
  refine ⟨h2.1, ?_⟩
  rw [List.getD_eq_getD_get?, List.get?_eq_getElem?, List.getElem?_eq_getElem h2.1]
  simp only [Option.getD_some]
  exact h2.2.symm

lemma mem_enumFrom_of_get? {α : Type} :
    ∀ (L : List α) (i j : Nat) (x : α), L.get? j = some x →
      (i + j, x) ∈ List.enumFrom i L := by
  intro L
  induction L with
  | nil => intro i j x h; simp at h
  | cons a rest ih =>
    intro i j x h
    rw [List.enumFrom_cons]
    cases j with
    | zero =>
      rw [List.get?_cons_zero] at h
      injection h with h
      subst h
      exact List.mem_cons_self _ _
    | succ j2 =>
      rw [List.get?_cons_succ] at h
      have h3 := ih (i + 1) j2 x h
      have he : i + (j2 + 1) = (i + 1) + j2 := by omega
      rw [he]
      exact List.mem_cons_of_mem _ h3

lemma mem_enum_of_get? {α : Type} (L : List α) (j : Nat) (x : α)
    (h : L.get? j = some x) : (j, x) ∈ L.enum := by
  have h2 := mem_enumFrom_of_get? L 0 j x h
  simpa using h2

lemma getD_mem_of_lt {α : Type} (L : List α) (d : α) (j : Nat) (h : j < L.length) :
    L.getD j d ∈ L := by
  rw [List.getD_eq_getD_get?, List.get?_eq_getElem?, List.getElem?_eq_getElem h]
  exact List.getElem_mem h

lemma getD_range_map {α : Type} (d : α) :
    ∀ L : List α, (List.range L.length).map (fun j => L.getD j d) = L := by
  intro L
  induction L with
  | nil => simp
  | cons a rest ih =>
    rw [List.length_cons, List.range_succ_eq_map, List.map_cons, List.map_map]
    have h1 : ((fun j => (a :: rest).getD j d) ∘ Nat.succ) = (fun j => rest.getD j d) := rfl
    rw [h1, ih]
    rfl

/-! ### Step 1: shape of the item list -/

/-- The record-keeping test of step 1 (line 165): both the resolved entity
type and the resolved entity name are truthy. -/
def keepRec (r : RawEntity) : Bool :=
  optTruthy (pyOrStr r.entityTypeKey r.typeKey) &&
  optTruthy (pyOrStr r.entityNameKey r.nameKey)

/-- The `EntityItem` built from record `r` at batch position `i`. -/
def mkItem (i : Nat) (r : RawEntity) : EntityItem :=
  ⟨i, (pyOrStr r.entityTypeKey r.typeKey).getD "",
    (pyOrStr r.entityNameKey r.nameKey).getD "", r.attributes, r⟩

lemma step1Body_eq (items : List EntityItem) (p : Nat × RawEntity) :
    step1Body items p = if keepRec p.2 then items ++ [mkItem p.1 p.2] else items := rfl

lemma step1Rec_cons (i : Nat) (r : RawEntity) (rest : List RawEntity) :
    step1Rec i (r :: rest) =
      (if keepRec r then [mkItem i r] else []) ++ step1Rec (i + 1) rest := rfl

lemma step1_foldl :
    ∀ (batch : List RawEntity) (i : Nat) (st : List EntityItem),
      (List.enumFrom i batch).foldl step1Body st = st ++ step1Rec i batch := by
  intro batch
  induction batch with
  | nil => intro i st; simp [step1Rec]
  | cons r rest ih =>
    intro i st
    rw [List.enumFrom_cons, List.foldl_cons, step1Rec_cons, step1Body_eq]
    split
    · rw [ih (i + 1), List.append_assoc]
    · rw [ih (i + 1)]
      rw [List.nil_append]

lemma step1_eq_rec (batch : List RawEntity) : step1 batch = step1Rec 0 batch := by
  unfold step1
  rw [show batch.enum = List.enumFrom 0 batch from rfl, step1_foldl, List.nil_append]

lemma step1Rec_batchId_lb :
    ∀ (batch : List RawEntity) (i : Nat) (it : EntityItem),
      it ∈ step1Rec i batch → i ≤ it.batchId := by
  intro batch
  induction batch with
  | nil => intro i it h; cases h
  | cons r rest ih =>
    intro i it h
    rw [step1Rec_cons] at h
    rcases List.mem_append.mp h with h1 | h2
    · split at h1
      · have h3 := List.mem_singleton.mp h1
        subst h3
        exact le_rfl
      · cases h1
    · exact le_trans (Nat.le_succ i) (ih (i + 1) it h2)

lemma step1Rec_ids_nodup :
    ∀ (batch : List RawEntity) (i : Nat),
      ((step1Rec i batch).map EntityItem.batchId).Nodup := by
  intro batch
  induction batch with
  | nil => intro i; simp [step1Rec]
  | cons r rest ih =>
    intro i
    rw [step1Rec_cons, List.map_append, List.nodup_append]
    refine ⟨?_, ih (i + 1), ?_⟩
    · split <;> simp
    · intro a ha hb
      rcases List.mem_map.mp hb with ⟨it, hit, hba⟩
      have hlb := step1Rec_batchId_lb rest (i + 1) it hit
      split at ha
      · rcases List.mem_map.mp ha with ⟨jt, hjt, hja⟩
        have h3 := List.mem_singleton.mp hjt
        subst h3
        have h4 : i = a := hja
        omega
      · cases ha

lemma step1_ids_nodup (batch : List RawEntity) :
    ((step1 batch).map EntityItem.batchId).Nodup := by
  rw [step1_eq_rec]; exact step1Rec_ids_nodup batch 0

lemma step1_nodup (batch : List RawEntity) : (step1 batch).Nodup :=
  List.Nodup.of_map _ (step1_ids_nodup batch)

lemma step1Rec_mem_of_get? :
    ∀ (batch : List RawEntity) (i k : Nat) (r : RawEntity),
      batch.get? k = some r → keepRec r = true →
        mkItem (i + k) r ∈ step1Rec i batch := by
  intro batch
  induction batch with
  | nil => intro i k r h; simp at h
  | cons r0 rest ih =>
    intro i k r h hkeep
    cases k with
    | zero =>
      rw [List.get?_cons_zero] at h
      injection h with h
      subst h
      rw [step1Rec_cons, hkeep]
      exact List.mem_append_left _ (by simp)
    | succ k2 =>
      rw [List.get?_cons_succ] at h
      have h3 := ih (i + 1) k2 r h hkeep
      rw [step1Rec_cons]
      refine List.mem_append_right _ ?_
      have he : i + (k2 + 1) = (i + 1) + k2 := by omega
      rw [he]
      exact h3

lemma step1Rec_no_dropped :
    ∀ (batch : List RawEntity) (i k : Nat) (r : RawEntity),
      batch.get? k = some r → keepRec r = false →
        ∀ it ∈ step1Rec i batch, it.batchId ≠ i + k := by
  intro batch
  induction batch with
  | nil => intro i k r h; simp at h
  | cons r0 rest ih =>
    intro i k r h hkeep it hit
    rw [step1Rec_cons] at hit
    cases k with
    | zero =>
      rw [List.get?_cons_zero] at h
      injection h with h
      subst h
      rw [hkeep] at hit
      simp only [Bool.false_eq_true, if_false, List.nil_append] at hit
      have := step1Rec_batchId_lb rest (i + 1) it hit
      omega
    | succ k2 =>
      rw [List.get?_cons_succ] at h
      rcases List.mem_append.mp hit with h1 | h2
      · split at h1
        · have h3 := List.mem_singleton.mp h1
          subst h3
          show i ≠ i + (k2 + 1)
          omega
        · cases h1
      · have := ih (i + 1) k2 r h hkeep it h2
        omega

lemma step1_mem_of_get? (batch : List RawEntity) (k : Nat) (r : RawEntity)
    (h : batch.get? k = some r) (hk : keepRec r = true) :
    mkItem k r ∈ step1 batch := by
  rw [step1_eq_rec]
  have h2 := step1Rec_mem_of_get? batch 0 k r h hk
  simpa using h2

lemma step1_no_dropped (batch : List RawEntity) (k : Nat) (r : RawEntity)
    (h : batch.get? k = some r) (hk : keepRec r = false) :
    ∀ it ∈ step1 batch, it.batchId ≠ k := by
  rw [step1_eq_rec]
  intro it hit
  have h2 := step1Rec_no_dropped batch 0 k r h hk it hit
  simpa using h2

/-- A types-differ pair never matches (`_entities_match` line 80). -/
lemma entitiesMatch_ne_types (rulesFor : String → List MatchRule)
    (x y : EntityItem) (h : x.entityType ≠ y.entityType) :
    (entitiesMatch rulesFor x y).1 = false := by
  unfold entitiesMatch
  rw [if_pos (by simpa [bne_iff_ne] using h)]

lemma entitiesMatch_true_types (rulesFor : String → List MatchRule)
    (x y : EntityItem) (h : (entitiesMatch rulesFor x y).1 = true) :
    x.entityType = y.entityType := by
  by_contra hne
  rw [entitiesMatch_ne_types rulesFor x y hne] at h
  cases h

/-! ### The star pass: inner scan and dictionary structure -/

/-- All items of a list of groups, in order. -/
def bindItems (gs : List EntityGroup) : List EntityItem :=
  (gs.map EntityGroup.items).flatten

/-- A default item for positional lookups. -/
def emptyItem : EntityItem := ⟨0, "", "", [], ⟨none, none, none, none, []⟩⟩

/-- The star shape every group of step 2 has: a center followed by the
members the center matched. -/
def starShape (rulesFor : String → List MatchRule) (g : EntityGroup) : Prop :=
  ∃ c mems, g.items = c :: mems ∧ ∀ x ∈ mems, (entitiesMatch rulesFor c x).1 = true

/-- All items across the per-type buckets, in order. -/
def allStarItems (byType : List (String × List EntityGroup)) : List EntityItem :=
  bindItems (allGroups byType)

lemma bindItems_append (gs1 gs2 : List EntityGroup) :
    bindItems (gs1 ++ gs2) = bindItems gs1 ++ bindItems gs2 := by
  unfold bindItems
  rw [List.map_append, List.flatten_append]

lemma allGroups_append (b1 b2 : List (String × List EntityGroup)) :
    allGroups (b1 ++ b2) = allGroups b1 ++ allGroups b2 := by
  unfold allGroups
  rw [List.map_append, List.flatten_append]

lemma innerScan_cons (rulesFor : String → List MatchRule) (i : Nat) (item1 : EntityItem)
    (jp : Nat × EntityItem) (rest : List (Nat × EntityItem))
    (st : List EntityItem × List Nat) :
    innerScan rulesFor (jp :: rest) i item1 st =
      innerScan rulesFor rest i item1
        (if jp.1 ≤ i ∨ jp.1 ∈ st.2 ∨ item1.entityType ≠ jp.2.entityType then st
         else if (entitiesMatch rulesFor item1 jp.2).1 then
           (st.1 ++ [jp.2], st.2 ++ [jp.1])
         else st) := rfl

lemma innerScan_spec (rulesFor : String → List MatchRule) (i : Nat) (item1 : EntityItem) :
    ∀ (enumItems : List (Nat × EntityItem)) (g0 : List EntityItem) (p0 : List Nat),
      ∃ new : List (Nat × EntityItem),
        innerScan rulesFor enumItems i item1 (g0, p0) =
          (g0 ++ new.map Prod.snd, p0 ++ new.map Prod.fst) ∧
        (∀ p ∈ new, p ∈ enumItems ∧ i < p.1 ∧ p.1 ∉ p0 ∧
          (entitiesMatch rulesFor item1 p.2).1 = true ∧
          item1.entityType = p.2.entityType) ∧
        (new.map Prod.fst).Nodup := by
  intro enumItems
  induction enumItems with
  | nil =>
    intro g0 p0
    exact ⟨[], by simp [innerScan], by simp, by simp⟩
  | cons jp rest ih =>
    intro g0 p0
    rw [innerScan_cons]
    by_cases h1 : jp.1 ≤ i ∨ jp.1 ∈ p0 ∨ item1.entityType ≠ jp.2.entityType
    · rw [if_pos h1]
      obtain ⟨new, heq, hprops, hnd⟩ := ih g0 p0
      exact ⟨new, heq,
        fun p hp => ⟨List.mem_cons_of_mem _ (hprops p hp).1, (hprops p hp).2.1,
          (hprops p hp).2.2.1, (hprops p hp).2.2.2⟩, hnd⟩
    · rw [if_neg h1]
      push_neg at h1
      obtain ⟨hgt, hnp, hty⟩ := h1
      by_cases h2 : (entitiesMatch rulesFor item1 jp.2).1 = true
      · rw [if_pos h2]
        obtain ⟨new2, heq, hprops, hnd⟩ := ih (g0 ++ [jp.2]) (p0 ++ [jp.1])
        refine ⟨jp :: new2, ?_, ?_, ?_⟩
        · rw [heq, List.map_cons, List.map_cons]
          simp [List.append_assoc]
        · intro p hp
          rcases List.mem_cons.mp hp with rfl | hp2
          · exact ⟨List.mem_cons_self _ _, by omega, hnp, h2, hty⟩
          · have h3 := hprops p hp2
            refine ⟨List.mem_cons_of_mem _ h3.1, h3.2.1, ?_, h3.2.2.2⟩
            intro hmem
            exact h3.2.2.1 (List.mem_append_left _ hmem)
        · rw [List.map_cons, List.nodup_cons]
          refine ⟨?_, hnd⟩
          intro hmem
          rcases List.mem_map.mp hmem with ⟨q, hq, hq1⟩
          exact (hprops q hq).2.2.1 (List.mem_append_right _ (by simp [hq1]))
      · rw [if_neg h2]
        obtain ⟨new, heq, hprops, hnd⟩ := ih g0 p0
        exact ⟨new, heq,
          fun p hp => ⟨List.mem_cons_of_mem _ (hprops p hp).1, (hprops p hp).2.1,
            (hprops p hp).2.2.1, (hprops p hp).2.2.2⟩, hnd⟩

lemma alGet_decomp {κ α : Type} [DecidableEq κ] :
    ∀ (m : List (κ × α)) (k : κ) (v : α), alGet m k = some v →
      ∃ A B, m = A ++ (k, v) :: B ∧ ∀ p ∈ A, p.1 ≠ k := by
  intro m
  induction m with
  | nil => intro k v h; simp [alGet] at h
  | cons p rest ih =>
    intro k v h
    by_cases hpk : p.1 = k
    · have h2 : alGet (p :: rest) k = some p.2 := by
        unfold alGet
        rw [List.find?_cons_of_pos _ (by simpa using hpk)]
        rfl
      rw [h2] at h
      injection h with h
      refine ⟨[], rest, ?_, by simp⟩
      rw [List.nil_append]
      congr 1
      calc p = (p.1, p.2) := (Prod.mk.eta).symm
        _ = (k, v) := by rw [hpk, h]
    · have h2 : alGet (p :: rest) k = alGet rest k := by
        unfold alGet
        rw [List.find?_cons_of_neg _ (by simpa using hpk)]
      rw [h2] at h
      obtain ⟨A, B, hAB, hA⟩ := ih k v h
      refine ⟨p :: A, B, by rw [List.cons_append, hAB], ?_⟩
      intro q hq
      rcases List.mem_cons.mp hq with rfl | hq2
      · exact hpk
      · exact hA q hq2

lemma alGet_none_key {κ α : Type} [DecidableEq κ] (m : List (κ × α)) (k : κ)
    (h : alGet m k = none) : ∀ p ∈ m, p.1 ≠ k := by
  intro p hp
  have h2 : m.find? (fun q => decide (q.1 = k)) = none := by
    cases hf : m.find? (fun q => decide (q.1 = k)) with
    | none => rfl
    | some q => unfold alGet at h; rw [hf] at h; cases h
  have h3 := List.find?_eq_none.mp h2 p hp
  simpa using h3

lemma alSet_decomp {κ α : Type} [DecidableEq κ] (A B : List (κ × α)) (k : κ) (gs v : α)
    (hA : ∀ p ∈ A, p.1 ≠ k) (hB : ∀ p ∈ B, p.1 ≠ k) :
    alSet (A ++ (k, gs) :: B) k v = A ++ (k, v) :: B := by
  unfold alSet
  rw [if_pos (by
    rw [List.any_eq_true]
    exact ⟨(k, gs), List.mem_append_right _ (List.mem_cons_self _ _), by simp⟩)]
  rw [List.map_append, List.map_cons]
  congr 1
  · calc A.map (fun p => if p.1 = k then (k, v) else p)
        = A.map (fun p => p) := List.map_congr_left (fun p hp => if_neg (hA p hp))
      _ = A := List.map_id' A
  · congr 1
    · simp
    · calc B.map (fun p => if p.1 = k then (k, v) else p)
          = B.map (fun p => p) := List.map_congr_left (fun p hp => if_neg (hB p hp))
        _ = B := List.map_id' B

/-- Structure of one `dictAppend` step on a dict with distinct keys. -/
lemma dictAppend_eq (byType : List (String × List EntityGroup)) (k : String)
    (g : EntityGroup) (hkeys : (byType.map Prod.fst).Nodup) :
    (dictAppend byType k g = byType ++ [(k, [g])] ∧ ∀ p ∈ byType, p.1 ≠ k) ∨
    (∃ A gs B, byType = A ++ (k, gs) :: B ∧
      dictAppend byType k g = A ++ (k, gs ++ [g]) :: B ∧
      (∀ p ∈ A, p.1 ≠ k) ∧ (∀ p ∈ B, p.1 ≠ k)) := by
  unfold dictAppend
  cases hget : alGet byType k with
  | none =>
    exact Or.inl ⟨rfl, alGet_none_key byType k hget⟩
  | some gs =>
    obtain ⟨A, B, hAB, hA⟩ := alGet_decomp byType k gs hget
    have hB : ∀ p ∈ B, p.1 ≠ k := by
      intro p hp
      rw [hAB, List.map_append, List.map_cons] at hkeys
      have h2 := (List.nodup_append.mp hkeys).2.1
      rw [List.nodup_cons] at h2
      intro hpk
      exact h2.1 (hpk ▸ List.mem_map.mpr ⟨p, hp, rfl⟩)
    refine Or.inr ⟨A, gs, B, hAB, ?_, hA, hB⟩
    show alSet byType k (gs ++ [g]) = A ++ (k, gs ++ [g]) :: B
    rw [hAB, alSet_decomp A B k gs (gs ++ [g]) hA hB]

lemma dictAppend_keys_nodup (byType : List (String × List EntityGroup)) (k : String)
    (g : EntityGroup) (hkeys : (byType.map Prod.fst).Nodup) :
    ((dictAppend byType k g).map Prod.fst).Nodup := by
  rcases dictAppend_eq byType k g hkeys with ⟨heq, hnk⟩ | ⟨A, gs, B, hAB, heq, hA, hB⟩
  · rw [heq, List.map_append]
    rw [List.nodup_append]
    refine ⟨hkeys, by simp, ?_⟩
    intro a ha hb
    rcases List.mem_map.mp ha with ⟨p, hp, rfl⟩
    simp only [List.map_cons, List.map_nil, List.mem_singleton] at hb
    exact hnk p hp hb
  · rw [heq]
    rw [hAB] at hkeys
    simpa using hkeys

lemma dictAppend_groups_prop (Q : String → EntityGroup → Prop)
    (byType : List (String × List EntityGroup)) (k : String) (g : EntityGroup)
    (hkeys : (byType.map Prod.fst).Nodup)
    (hold : ∀ tp ∈ byType, ∀ g2 ∈ tp.2, Q tp.1 g2) (hg : Q k g) :
    ∀ tp ∈ dictAppend byType k g, ∀ g2 ∈ tp.2, Q tp.1 g2 := by
  rcases dictAppend_eq byType k g hkeys with ⟨heq, hnk⟩ | ⟨A, gs, B, hAB, heq, hA, hB⟩
  · rw [heq]
    intro tp htp g2 hg2
    rcases List.mem_append.mp htp with h | h
    · exact hold tp h g2 hg2
    · have h2 := List.mem_singleton.mp h
      subst h2
      have h3 := List.mem_singleton.mp hg2
      subst h3
      exact hg
  · rw [heq]
    intro tp htp g2 hg2
    rcases List.mem_append.mp htp with h | h
    · exact hold tp (hAB ▸ List.mem_append_left _ h) g2 hg2
    · rcases List.mem_cons.mp h with rfl | h2
      · rcases List.mem_append.mp hg2 with h3 | h3
        · exact hold (k, gs) (hAB ▸ List.mem_append_right _ (List.mem_cons_self _ _)) g2 h3
        · have h4 := List.mem_singleton.mp h3
          subst h4
          exact hg
      · exact hold tp (hAB ▸ List.mem_append_right _ (List.mem_cons_of_mem _ h2)) g2 hg2

lemma allStarItems_decomp (A B : List (String × List EntityGroup)) (k : String)
    (x : List EntityGroup) :
    allStarItems (A ++ (k, x) :: B) = allStarItems A ++ bindItems x ++ allStarItems B := by
  unfold allStarItems
  rw [show (k, x) :: B = [(k, x)] ++ B from rfl, allGroups_append, allGroups_append,
    bindItems_append, bindItems_append]
  have h2 : allGroups [(k, x)] = x := by
    unfold allGroups
    simp
  rw [h2, List.append_assoc]

lemma dictAppend_items_perm (byType : List (String × List EntityGroup)) (k : String)
    (g : EntityGroup) (hkeys : (byType.map Prod.fst).Nodup) :
    List.Perm (allStarItems (dictAppend byType k g)) (allStarItems byType ++ g.items) := by
  rcases dictAppend_eq byType k g hkeys with ⟨heq, hnk⟩ | ⟨A, gs, B, hAB, heq, hA, hB⟩
  · rw [heq]
    unfold allStarItems
    rw [allGroups_append, bindItems_append]
    have h2 : bindItems (allGroups [(k, [g])]) = g.items := by
      unfold allGroups bindItems
      simp
    rw [h2]
  · rw [heq, hAB, allStarItems_decomp, allStarItems_decomp, bindItems_append]
    have h2 : bindItems [g] = g.items := by unfold bindItems; simp
    rw [h2]
    have h3 : allStarItems A ++ (bindItems gs ++ g.items) ++ allStarItems B
        = allStarItems A ++ bindItems gs ++ (g.items ++ allStarItems B) := by
      simp [List.append_assoc]
    have h5 : allStarItems A ++ bindItems gs ++ (allStarItems B ++ g.items)
        = allStarItems A ++ bindItems gs ++ allStarItems B ++ g.items := by
      simp [List.append_assoc]
    rw [h3, ← h5]
    exact List.Perm.append_left _ List.perm_append_comm

/-! ### The star pass invariant -/

/-- Invariant of the step-2 loop state: processed indices are distinct and
valid, the collected groups hold exactly the items at the processed indices,
and every group is a star of same-type items of the input. -/
def StarInv (rulesFor : String → List MatchRule) (L : List EntityItem)
    (st : List (String × List EntityGroup) × List Nat) : Prop :=
  st.2.Nodup ∧
  (∀ j ∈ st.2, j < L.length) ∧
  ((st.1.map Prod.fst).Nodup) ∧
  List.Perm (allStarItems st.1) (st.2.map (fun j => L.getD j emptyItem)) ∧
  (∀ tp ∈ st.1, ∀ g ∈ tp.2,
    g.entityType = tp.1 ∧ (∀ x ∈ g.items, x.entityType = tp.1) ∧
    starShape rulesFor g ∧ (∀ x ∈ g.items, x ∈ L))

lemma starBody_inv (rulesFor : String → List MatchRule) (L : List EntityItem)
    (st : List (String × List EntityGroup) × List Nat) (ip : Nat × EntityItem)
    (hip : ip ∈ L.enum) (hinv : StarInv rulesFor L st) :
    StarInv rulesFor L (starBody rulesFor L.enum st ip) := by
  obtain ⟨hnd, hlt, hknd, hperm, hgp⟩ := hinv
  unfold starBody
  split
  · exact ⟨hnd, hlt, hknd, hperm, hgp⟩
  next h1 =>
    have hip2 : (ip.1, ip.2) ∈ L.enum := by rw [Prod.mk.eta]; exact hip
    obtain ⟨hiplt, hipget⟩ := mem_enum_getD L emptyItem ip.1 ip.2 hip2
    obtain ⟨new, heq, hprops, hndnew⟩ :=
      innerScan_spec rulesFor ip.1 ip.2 L.enum [ip.2] (st.2 ++ [ip.1])
    dsimp only
    rw [heq]
    dsimp only
    simp only [List.singleton_append]
    refine ⟨?_, ?_, ?_, ?_, ?_⟩
    · rw [List.nodup_append]
      refine ⟨?_, hndnew, ?_⟩
      · rw [List.nodup_append]
        refine ⟨hnd, by simp, ?_⟩
        intro a ha hb
        rw [List.mem_singleton] at hb
        subst hb
        exact h1 ha
      · intro a ha hb
        rcases List.mem_map.mp hb with ⟨p, hp, rfl⟩
        exact (hprops p hp).2.2.1 ha
    · intro j hj
      rcases List.mem_append.mp hj with hj1 | hj2
      · rcases List.mem_append.mp hj1 with hj3 | hj4
        · exact hlt j hj3
        · rw [List.mem_singleton] at hj4; subst hj4; exact hiplt
      · rcases List.mem_map.mp hj2 with ⟨p, hp, rfl⟩
        have h5 : (p.1, p.2) ∈ L.enum := by rw [Prod.mk.eta]; exact (hprops p hp).1
        exact (mem_enum_getD L emptyItem p.1 p.2 h5).1
    · exact dictAppend_keys_nodup _ _ _ hknd
    · refine List.Perm.trans (dictAppend_items_perm st.1 ip.2.entityType _ hknd) ?_
      have hmapnew : (new.map Prod.fst).map (fun j => L.getD j emptyItem) =
          new.map Prod.snd := by
        rw [List.map_map]
        apply List.map_congr_left
        intro p hp
        have h5 : (p.1, p.2) ∈ L.enum := by rw [Prod.mk.eta]; exact (hprops p hp).1
        exact (mem_enum_getD L emptyItem p.1 p.2 h5).2
      rw [List.map_append, List.map_append, hmapnew]
      have hone : ([ip.1] : List Nat).map (fun j => L.getD j emptyItem) = [ip.2] := by
        show [L.getD ip.1 emptyItem] = [ip.2]
        rw [hipget]
      rw [hone, ← List.append_cons]
      exact List.Perm.append hperm (List.Perm.refl _)
    · refine dictAppend_groups_prop
        (fun t g2 => g2.entityType = t ∧ (∀ x ∈ g2.items, x.entityType = t) ∧
          starShape rulesFor g2 ∧ (∀ x ∈ g2.items, x ∈ L))
        st.1 ip.2.entityType _ hknd hgp ?_
      refine ⟨rfl, ?_, ?_, ?_⟩
      · intro x hx
        rcases List.mem_cons.mp hx with rfl | hx2
        · rfl
        · rcases List.mem_map.mp hx2 with ⟨p, hp, rfl⟩
          exact ((hprops p hp).2.2.2.2).symm
      · refine ⟨ip.2, new.map Prod.snd, rfl, ?_⟩
        intro x hx
        rcases List.mem_map.mp hx with ⟨p, hp, rfl⟩
        exact (hprops p hp).2.2.2.1
      · intro x hx
        rcases List.mem_cons.mp hx with rfl | hx2
        · rw [← hipget]; exact getD_mem_of_lt L emptyItem ip.1 hiplt
        · rcases List.mem_map.mp hx2 with ⟨p, hp, rfl⟩
          have h5 : (p.1, p.2) ∈ L.enum := by rw [Prod.mk.eta]; exact (hprops p hp).1
          obtain ⟨hl, hg⟩ := mem_enum_getD L emptyItem p.1 p.2 h5
          rw [← hg]; exact getD_mem_of_lt L emptyItem p.1 hl

lemma starBody_processed_mono (rulesFor : String → List MatchRule)
    (enumItems : List (Nat × EntityItem))
    (st : List (String × List EntityGroup) × List Nat) (ip : Nat × EntityItem)
    (j : Nat) (hj : j ∈ st.2) : j ∈ (starBody rulesFor enumItems st ip).2 := by
  unfold starBody
  split
  · exact hj
  · dsimp only
    obtain ⟨new, heq, _, _⟩ :=
      innerScan_spec rulesFor ip.1 ip.2 enumItems [ip.2] (st.2 ++ [ip.1])
    rw [heq]
    exact List.mem_append_left _ (List.mem_append_left _ hj)

lemma starBody_processed_self (rulesFor : String → List MatchRule)
    (enumItems : List (Nat × EntityItem))
    (st : List (String × List EntityGroup) × List Nat) (ip : Nat × EntityItem) :
    ip.1 ∈ (starBody rulesFor enumItems st ip).2 := by
  unfold starBody
  split
  · next h => exact h
  · dsimp only
    obtain ⟨new, heq, _, _⟩ :=
      innerScan_spec rulesFor ip.1 ip.2 enumItems [ip.2] (st.2 ++ [ip.1])
    rw [heq]
    exact List.mem_append_left _ (List.mem_append_right _ (by simp))

lemma starPass_state_inv (rulesFor : String → List MatchRule) (L : List EntityItem) :
    StarInv rulesFor L (L.enum.foldl (starBody rulesFor L.enum) ([], [])) := by
  refine foldl_pres (StarInv rulesFor L) L.enum (starBody rulesFor L.enum)
    (fun st ip hip hst => starBody_inv rulesFor L st ip hip hst) _ ?_
  refine ⟨List.nodup_nil, by simp, by simp, ?_, by simp⟩
  simp [allStarItems, allGroups, bindItems]

lemma starPass_cover (rulesFor : String → List MatchRule) (L : List EntityItem) :
    ∀ j < L.length, j ∈ (L.enum.foldl (starBody rulesFor L.enum) ([], [])).2 := by
  intro j hj
  have hg : L.get? j = some (L.getD j emptyItem) := by
    rw [List.getD_eq_getD_get?, List.get?_eq_getElem?, List.getElem?_eq_getElem hj]
    rfl
  have hmem : (j, L.getD j emptyItem) ∈ L.enum := mem_enum_of_get? L j _ hg
  exact foldl_cover (starBody rulesFor L.enum) (fun y st => y.1 ∈ st.2)
    (fun a y => starBody_processed_self rulesFor L.enum a y)
    (fun a y z h => starBody_processed_mono rulesFor L.enum a z y.1 h)
    L.enum ([], []) (j, L.getD j emptyItem) hmem

lemma starPass_spec (rulesFor : String → List MatchRule) (L : List EntityItem) :
    List.Perm (allStarItems (starPass rulesFor L)) L ∧
    ((starPass rulesFor L).map Prod.fst).Nodup ∧
    (∀ tp ∈ starPass rulesFor L, ∀ g ∈ tp.2,
      g.entityType = tp.1 ∧ (∀ x ∈ g.items, x.entityType = tp.1) ∧
      starShape rulesFor g ∧ (∀ x ∈ g.items, x ∈ L)) := by
  obtain ⟨hnd, hlt, hknd, hperm, hgp⟩ := starPass_state_inv rulesFor L
  have hcov := starPass_cover rulesFor L
  have hpr : List.Perm (L.enum.foldl (starBody rulesFor L.enum) ([], [])).2
      (List.range L.length) := by
    rw [List.perm_ext_iff_of_nodup hnd (List.nodup_range _)]
    intro a
    constructor
    · intro ha; exact List.mem_range.mpr (hlt a ha)
    · intro ha; exact hcov a (List.mem_range.mp ha)
  refine ⟨?_, hknd, hgp⟩
  have h2 := List.Perm.map (fun j => L.getD j emptyItem) hpr
  rw [getD_range_map emptyItem L] at h2
  exact List.Perm.trans hperm h2

/-! ### Transitive closure: scan and saturation -/

/-- The pooled items of a set of group indices. -/
def tmItems (gs : List EntityGroup) (tm : List Nat) : List EntityItem :=
  (tm.map (fun i => (gs.getD i emptyGroup).items)).flatten

/-- The pairwise match relation restricted to the step-1 item list `L`. -/
def mrel (rulesFor : String → List MatchRule) (L : List EntityItem)
    (x y : EntityItem) : Prop :=
  x ∈ L ∧ y ∈ L ∧ (entitiesMatch rulesFor x y).1 = true

/-- Every two items of the pool are connected under the match relation. -/
def Conn (rulesFor : String → List MatchRule) (L : List EntityItem)
    (S : List EntityItem) : Prop :=
  ∀ x ∈ S, ∀ y ∈ S, Relation.EqvGen (mrel rulesFor L) x y

lemma conn_append_bridge (rulesFor : String → List MatchRule) (L : List EntityItem)
    (S T : List EntityItem) (hS : Conn rulesFor L S) (hT : Conn rulesFor L T)
    (x y : EntityItem) (hx : x ∈ S) (hy : y ∈ T)
    (hxy : Relation.EqvGen (mrel rulesFor L) x y) :
    Conn rulesFor L (S ++ T) := by
  intro u hu v hv
  rcases List.mem_append.mp hu with hu2 | hu2 <;>
    rcases List.mem_append.mp hv with hv2 | hv2
  · exact hS u hu2 v hv2
  · exact Relation.EqvGen.trans _ _ _ (hS u hu2 x hx)
      (Relation.EqvGen.trans _ _ _ hxy (hT y hy v hv2))
  · exact Relation.EqvGen.trans _ _ _ (hT u hu2 y hy)
      (Relation.EqvGen.trans _ _ _ (Relation.EqvGen.symm _ _ hxy) (hS x hx v hv2))
  · exact hT u hu2 v hv2

lemma enum_getD_mem {α : Type} (L : List α) (d : α) (j : Nat) (hj : j < L.length) :
    (j, L.getD j d) ∈ L.enum := by
  apply mem_enum_of_get?
  rw [List.getD_eq_getD_get?, List.get?_eq_getElem?, List.getElem?_eq_getElem hj]
  rfl

lemma tmItems_append_single (gs : List EntityGroup) (tm : List Nat) (j : Nat) :
    tmItems gs (tm ++ [j]) = tmItems gs tm ++ (gs.getD j emptyGroup).items := by
  unfold tmItems
  rw [List.map_append, List.flatten_append]
  simp

lemma shouldMerge_mono (rulesFor : String → List MatchRule) (gs : List EntityGroup)
    {T T2 : List Nat} (h : T ⊆ T2) (g2 : EntityGroup)
    (hsm : shouldMerge rulesFor gs T g2 = true) :
    shouldMerge rulesFor gs T2 g2 = true := by
  rw [shouldMerge, List.any_eq_true] at hsm ⊢
  obtain ⟨i, hi, hgm⟩ := hsm
  exact ⟨i, h hi, hgm⟩

lemma scanBody_prefix (rulesFor : String → List MatchRule) (gs : List EntityGroup)
    (processed : List Nat) (tm : List Nat) (jg : Nat × EntityGroup) :
    tm ⊆ scanBody rulesFor gs processed tm jg := by
  unfold scanBody
  split
  · exact fun a ha => ha
  · split
    · exact fun a ha => List.mem_append_left _ ha
    · exact fun a ha => ha

/-- The loop-state invariant of one saturation scan: the merge set stays
distinct, valid, unprocessed, monotone and item-connected. -/
def ScanInv (rulesFor : String → List MatchRule) (L : List EntityItem)
    (gs : List EntityGroup) (processed : List Nat) (tm0 : List Nat)
    (tm : List Nat) : Prop :=
  tm.Nodup ∧ (∀ j ∈ tm, j < gs.length) ∧ (∀ j ∈ tm, j ∉ processed) ∧
  tm0 ⊆ tm ∧ Conn rulesFor L (tmItems gs tm)

lemma scanBody_inv (rulesFor : String → List MatchRule) (L : List EntityItem)
    (gs : List EntityGroup) (processed : List Nat) (tm0 : List Nat)
    (hconn : ∀ g ∈ gs, Conn rulesFor L g.items)
    (hsub : ∀ g ∈ gs, ∀ x ∈ g.items, x ∈ L)
    (tm : List Nat) (jg : Nat × EntityGroup) (hjg : jg ∈ gs.enum)
    (h : ScanInv rulesFor L gs processed tm0 tm) :
    ScanInv rulesFor L gs processed tm0 (scanBody rulesFor gs processed tm jg) := by
  obtain ⟨h1, h2, h3, h4, h5⟩ := h
  unfold scanBody
  split
  · exact ⟨h1, h2, h3, h4, h5⟩
  next hskip =>
    push_neg at hskip
    split
    next hsm =>
      have hjg2 : (jg.1, jg.2) ∈ gs.enum := by rw [Prod.mk.eta]; exact hjg
      have hjglt : jg.1 < gs.length := (List.mem_enum hjg2).1
      have hjgget : gs.getD jg.1 emptyGroup = jg.2 :=
        (mem_enum_getD gs emptyGroup jg.1 jg.2 hjg2).2
      refine ⟨?_, ?_, ?_, ?_, ?_⟩
      · rw [List.nodup_append]
        refine ⟨h1, by simp, ?_⟩
        intro a ha hb
        rw [List.mem_singleton] at hb
        subst hb
        exact hskip.1 ha
      · intro j hj
        rcases List.mem_append.mp hj with hj2 | hj2
        · exact h2 j hj2
        · rw [List.mem_singleton] at hj2; subst hj2; exact hjglt
      · intro j hj
        rcases List.mem_append.mp hj with hj2 | hj2
        · exact h3 j hj2
        · rw [List.mem_singleton] at hj2; subst hj2; exact hskip.2
      · exact fun a ha => List.mem_append_left _ (h4 ha)
      · rw [tmItems_append_single]
        rw [shouldMerge, List.any_eq_true] at hsm
        obtain ⟨i2, hi2mem, hany⟩ := hsm
        rw [groupsMatchAny, List.any_eq_true] at hany
        obtain ⟨x, hx, hany2⟩ := hany
        rw [List.any_eq_true] at hany2
        obtain ⟨y, hy, hm⟩ := hany2
        have hgi2 : gs.getD i2 emptyGroup ∈ gs :=
          getD_mem_of_lt gs emptyGroup i2 (h2 i2 hi2mem)
        have hgj : gs.getD jg.1 emptyGroup ∈ gs :=
          getD_mem_of_lt gs emptyGroup jg.1 hjglt
        have hxT : x ∈ tmItems gs tm :=
          List.mem_flatten.mpr ⟨(gs.getD i2 emptyGroup).items,
            List.mem_map.mpr ⟨i2, hi2mem, rfl⟩, hx⟩
        have hyj : y ∈ (gs.getD jg.1 emptyGroup).items := by
          rw [hjgget]; exact hy
        refine conn_append_bridge rulesFor L _ _ h5 ?_ x y hxT hyj ?_
        · intro u hu v hv
          exact hconn _ hgj u hu v hv
        · exact Relation.EqvGen.rel x y
            ⟨hsub _ hgi2 x hx, hsub _ hgj y hyj, hm⟩
    next =>
      exact ⟨h1, h2, h3, h4, h5⟩

lemma scanOnce_inv (rulesFor : String → List MatchRule) (L : List EntityItem)
    (gs : List EntityGroup) (processed : List Nat) (tm0 : List Nat)
    (hconn : ∀ g ∈ gs, Conn rulesFor L g.items)
    (hsub : ∀ g ∈ gs, ∀ x ∈ g.items, x ∈ L)
    (tm : List Nat) (h : ScanInv rulesFor L gs processed tm0 tm) :
    ScanInv rulesFor L gs processed tm0 (scanOnce rulesFor gs processed tm) :=
  foldl_pres (ScanInv rulesFor L gs processed tm0) gs.enum
    (scanBody rulesFor gs processed)
    (fun a y hy ha => scanBody_inv rulesFor L gs processed tm0 hconn hsub a y hy ha)
    tm h

lemma foldl_append_shape {α β : Type} (f : List α → β → List α)
    (hf : ∀ a y, ∃ e, f a y = a ++ e) :
    ∀ (l : List β) (a : List α), ∃ new, l.foldl f a = a ++ new := by
  intro l
  induction l with
  | nil => intro a; exact ⟨[], by simp⟩
  | cons y rest ih =>
    intro a
    rw [List.foldl_cons]
    obtain ⟨e, he⟩ := hf a y
    obtain ⟨new, hnew⟩ := ih (f a y)
    exact ⟨e ++ new, by rw [hnew, he, List.append_assoc]⟩

lemma scanOnce_shape (rulesFor : String → List MatchRule) (gs : List EntityGroup)
    (processed tm : List Nat) :
    ∃ new, scanOnce rulesFor gs processed tm = tm ++ new := by
  apply foldl_append_shape
  intro a y
  unfold scanBody
  split
  · exact ⟨[], by simp⟩
  · split
    · exact ⟨[y.1], rfl⟩
    · exact ⟨[], by simp⟩

lemma scanOnce_mem (rulesFor : String → List MatchRule) (gs : List EntityGroup)
    (processed : List Nat) (T : List Nat) :
    ∀ (l : List (Nat × EntityGroup)) (tm2 : List Nat), T ⊆ tm2 →
      ∀ jg ∈ l, jg.1 ∉ processed →
        shouldMerge rulesFor gs T jg.2 = true →
        jg.1 ∈ l.foldl (scanBody rulesFor gs processed) tm2 := by
  intro l
  induction l with
  | nil => intro tm2 _ jg h; cases h
  | cons kg rest ih =>
    intro tm2 hT jg hjg hnp hsm
    rw [List.foldl_cons]
    rcases List.mem_cons.mp hjg with rfl | hjg2
    · have hself : jg.1 ∈ scanBody rulesFor gs processed tm2 jg := by
        unfold scanBody
        split
        · next h =>
          rcases h with h | h
          · exact h
          · exact absurd h hnp
        · split
          · exact List.mem_append_right _ (by simp)
          · next hsm2 =>
            exact absurd (shouldMerge_mono rulesFor gs hT jg.2 hsm) hsm2
      exact foldl_pres (fun a => jg.1 ∈ a) rest _
        (fun a y _ h => scanBody_prefix rulesFor gs processed a y h) _ hself
    · exact ih (scanBody rulesFor gs processed tm2 kg)
        (fun a ha => scanBody_prefix rulesFor gs processed tm2 kg (hT ha)) jg hjg2 hnp hsm

lemma fixpoint_noEdge (rulesFor : String → List MatchRule) (gs : List EntityGroup)
    (processed T : List Nat)
    (hfix : scanOnce rulesFor gs processed T = T) :
    ∀ j < gs.length, j ∉ T → j ∉ processed →
      shouldMerge rulesFor gs T (gs.getD j emptyGroup) = false := by
  intro j hj hjT hjp
  by_contra h
  rw [Bool.not_eq_false] at h
  have hmem : j ∈ scanOnce rulesFor gs processed T :=
    scanOnce_mem rulesFor gs processed T gs.enum T (fun a ha => ha)
      (j, gs.getD j emptyGroup) (enum_getD_mem gs emptyGroup j hj) hjp h
  rw [hfix] at hmem
  exact hjT hmem

lemma fixpoint_no_cross (rulesFor : String → List MatchRule) (gs : List EntityGroup)
    (processed T : List Nat)
    (hfix : scanOnce rulesFor gs processed T = T) :
    ∀ j < gs.length, j ∉ T → j ∉ processed →
      ∀ x ∈ tmItems gs T, ∀ y ∈ (gs.getD j emptyGroup).items,
        (entitiesMatch rulesFor x y).1 = false := by
  intro j hj hjT hjp x hx y hy
  have hsm := fixpoint_noEdge rulesFor gs processed T hfix j hj hjT hjp
  by_contra hxy
  rw [Bool.not_eq_false] at hxy
  have hsm2 : shouldMerge rulesFor gs T (gs.getD j emptyGroup) = true := by
    rw [shouldMerge, List.any_eq_true]
    rcases List.mem_flatten.mp hx with ⟨S, hS, hxS⟩
    rcases List.mem_map.mp hS with ⟨i, hiT, rfl⟩
    refine ⟨i, hiT, ?_⟩
    rw [groupsMatchAny, List.any_eq_true]
    refine ⟨x, hxS, ?_⟩
    rw [List.any_eq_true]
    exact ⟨y, hy, hxy⟩
  rw [hsm] at hsm2
  cases hsm2

lemma saturate_inv (rulesFor : String → List MatchRule) (L : List EntityItem)
    (gs : List EntityGroup) (processed : List Nat) (tm0 : List Nat)
    (hconn : ∀ g ∈ gs, Conn rulesFor L g.items)
    (hsub : ∀ g ∈ gs, ∀ x ∈ g.items, x ∈ L) :
    ∀ (fuel : Nat) (tm : List Nat), ScanInv rulesFor L gs processed tm0 tm →
      ScanInv rulesFor L gs processed tm0 (saturate rulesFor gs processed fuel tm) := by
  intro fuel
  induction fuel with
  | zero => intro tm h; exact h
  | succ f ih =>
    intro tm h
    simp only [saturate]
    split
    · exact h
    · exact ih _ (scanOnce_inv rulesFor L gs processed tm0 hconn hsub tm h)

lemma saturate_fix (rulesFor : String → List MatchRule) (L : List EntityItem)
    (gs : List EntityGroup) (processed : List Nat) (tm0 : List Nat)
    (hconn : ∀ g ∈ gs, Conn rulesFor L g.items)
    (hsub : ∀ g ∈ gs, ∀ x ∈ g.items, x ∈ L) :
    ∀ (fuel : Nat) (tm : List Nat), ScanInv rulesFor L gs processed tm0 tm →
      gs.length ≤ fuel + tm.length →
      scanOnce rulesFor gs processed (saturate rulesFor gs processed fuel tm) =
        saturate rulesFor gs processed fuel tm := by
  intro fuel
  induction fuel with
  | zero =>
    intro tm h hlen
    obtain ⟨h1, h2, h3, h4, h5⟩ := h
    have hsubr : tm ⊆ List.range gs.length := fun j hj => List.mem_range.mpr (h2 j hj)
    have hsp := List.subperm_of_subset h1 hsubr
    have hperm := hsp.perm_of_length_le (by rw [List.length_range]; simpa using hlen)
    have hall : ∀ j < gs.length, j ∈ tm := fun j hj =>
      hperm.mem_iff.mpr (List.mem_range.mpr hj)
    show scanOnce rulesFor gs processed tm = tm
    unfold scanOnce
    refine foldl_pres (fun a => a = tm) gs.enum _ ?_ tm rfl
    intro a y hy ha
    subst ha
    unfold scanBody
    have hy2 : (y.1, y.2) ∈ gs.enum := by rw [Prod.mk.eta]; exact hy
    rw [if_pos (Or.inl (hall y.1 (List.mem_enum hy2).1))]
  | succ f ih =>
    intro tm h hlen
    simp only [saturate]
    split
    · next heq => exact heq
    · next hne =>
      refine ih _ (scanOnce_inv rulesFor L gs processed tm0 hconn hsub tm h) ?_
      obtain ⟨new, hnew⟩ := scanOnce_shape rulesFor gs processed tm
      have hne2 : new ≠ [] := by
        intro h0
        exact hne (by rw [hnew, h0, List.append_nil])
      have hpos : 0 < new.length := List.length_pos.mpr hne2
      rw [hnew, List.length_append]
      omega

/-! ### The closure pass invariant -/

/-- No item of `S` matches any item of `T`. -/
def noEdgeB (rulesFor : String → List MatchRule) (S T : List EntityItem) : Prop :=
  ∀ x ∈ S, ∀ y ∈ T, (entitiesMatch rulesFor x y).1 = false

/-- State invariant of the closure loop: processed indices are distinct and
valid, the emitted groups pool exactly the processed groups' items, each
emitted group is connected under the match relation, emitted groups have no
edge to unprocessed original groups, and no edge to each other. -/
def CInv (rulesFor : String → List MatchRule) (L : List EntityItem)
    (gs : List EntityGroup) (st : List EntityGroup × List Nat) : Prop :=
  st.2.Nodup ∧ (∀ j ∈ st.2, j < gs.length) ∧
  List.Perm (bindItems st.1) (tmItems gs st.2) ∧
  (∀ go ∈ st.1, Conn rulesFor L go.items ∧ (∀ x ∈ go.items, x ∈ L)) ∧
  (∀ go ∈ st.1, ∀ j, j < gs.length → j ∉ st.2 →
    noEdgeB rulesFor go.items (gs.getD j emptyGroup).items) ∧
  List.Pairwise (fun g g2 => noEdgeB rulesFor g.items g2.items) st.1

lemma tmItems_single (gs : List EntityGroup) (j : Nat) :
    tmItems gs [j] = (gs.getD j emptyGroup).items := by
  unfold tmItems
  simp

lemma tmItems_sub_L (rulesFor : String → List MatchRule) (L : List EntityItem)
    (gs : List EntityGroup) (T : List Nat)
    (hsub : ∀ g ∈ gs, ∀ x ∈ g.items, x ∈ L)
    (hlt : ∀ j ∈ T, j < gs.length) :
    ∀ x ∈ tmItems gs T, x ∈ L := by
  intro x hx
  rcases List.mem_flatten.mp hx with ⟨S, hS, hxS⟩
  rcases List.mem_map.mp hS with ⟨i, hiT, rfl⟩
  exact hsub _ (getD_mem_of_lt gs emptyGroup i (hlt i hiT)) x hxS

lemma closureBody_inv (rulesFor : String → List MatchRule) (L : List EntityItem)
    (gs : List EntityGroup)
    (hconn : ∀ g ∈ gs, Conn rulesFor L g.items)
    (hsub : ∀ g ∈ gs, ∀ x ∈ g.items, x ∈ L)
    (st : List EntityGroup × List Nat) (ig : Nat × EntityGroup) (hig : ig ∈ gs.enum)
    (h : CInv rulesFor L gs st) : CInv rulesFor L gs (closureBody rulesFor gs st ig) := by
  obtain ⟨h1, h2, h3, h4, h5, h6⟩ := h
  unfold closureBody
  split
  · exact ⟨h1, h2, h3, h4, h5, h6⟩
  next hskip =>
    have hig2 : (ig.1, ig.2) ∈ gs.enum := by rw [Prod.mk.eta]; exact hig
    have higlt : ig.1 < gs.length := (List.mem_enum hig2).1
    have higget : gs.getD ig.1 emptyGroup = ig.2 :=
      (mem_enum_getD gs emptyGroup ig.1 ig.2 hig2).2
    have hinit : ScanInv rulesFor L gs st.2 [ig.1] [ig.1] := by
      refine ⟨by simp, ?_, ?_, fun a ha => ha, ?_⟩
      · intro j hj; rw [List.mem_singleton] at hj; subst hj; exact higlt
      · intro j hj; rw [List.mem_singleton] at hj; subst hj; exact hskip
      · rw [tmItems_single]
        exact hconn _ (getD_mem_of_lt gs emptyGroup ig.1 higlt)
    dsimp only
    set T := saturate rulesFor gs st.2 gs.length [ig.1] with hT
    have hTinv : ScanInv rulesFor L gs st.2 [ig.1] T :=
      saturate_inv rulesFor L gs st.2 [ig.1] hconn hsub gs.length [ig.1] hinit
    have hTfix : scanOnce rulesFor gs st.2 T = T :=
      saturate_fix rulesFor L gs st.2 [ig.1] hconn hsub gs.length [ig.1] hinit (by simp)
    obtain ⟨hTnd, hTlt, hTnp, hTsup, hTconn⟩ := hTinv
    generalize hM :
      (if T.length > 1 then
        (⟨"merged_" ++ (gs.getD 0 emptyGroup).entityType ++ "_" ++ toString ig.1,
          ig.2.entityType,
          (T.map (fun i => (gs.getD i emptyGroup).items)).flatten, none, none⟩ :
          EntityGroup)
      else ig.2) = M
    have hMitems : M.items = tmItems gs T := by
      rw [← hM]
      split
      · rfl
      next hle =>
        have hlen1 : T.length = 1 := by
          have hm1 : ig.1 ∈ T := hTsup (by simp)
          have hp := List.length_pos.mpr (List.ne_nil_of_mem hm1)
          omega
        obtain ⟨a, ha⟩ := List.length_eq_one.mp hlen1
        have hmema : ig.1 ∈ T := hTsup (by simp)
        rw [ha, List.mem_singleton] at hmema
        subst hmema
        rw [ha, tmItems_single, higget]
    refine ⟨?_, ?_, ?_, ?_, ?_, ?_⟩
    · rw [List.nodup_append]
      refine ⟨h1, hTnd, ?_⟩
      intro a ha hb
      exact hTnp a hb ha
    · intro j hj
      rcases List.mem_append.mp hj with hj2 | hj2
      · exact h2 j hj2
      · exact hTlt j hj2
    · have hsplit : tmItems gs (st.2 ++ T) = tmItems gs st.2 ++ tmItems gs T := by
        unfold tmItems
        rw [List.map_append, List.flatten_append]
      rw [hsplit, bindItems_append]
      refine List.Perm.append h3 ?_
      have hone : bindItems [M] = M.items := by unfold bindItems; simp
      rw [hone, hMitems]
    · intro go hgo
      rcases List.mem_append.mp hgo with hgo2 | hgo2
      · exact h4 go hgo2
      · rw [List.mem_singleton] at hgo2
        subst hgo2
        rw [hMitems]
        exact ⟨hTconn, tmItems_sub_L rulesFor L gs T hsub hTlt⟩
    · intro go hgo j hjlt hjnp
      have hjn2 : j ∉ st.2 := fun hc => hjnp (List.mem_append_left _ hc)
      have hjnT : j ∉ T := fun hc => hjnp (List.mem_append_right _ hc)
      rcases List.mem_append.mp hgo with hgo2 | hgo2
      · exact h5 go hgo2 j hjlt hjn2
      · rw [List.mem_singleton] at hgo2
        subst hgo2
        rw [hMitems]
        intro x hx y hy
        exact fixpoint_no_cross rulesFor gs st.2 T hTfix j hjlt hjnT hjn2 x hx y hy
    · rw [List.pairwise_append]
      refine ⟨h6, by simp, ?_⟩
      intro g hg b hb
      rw [List.mem_singleton] at hb
      subst hb
      rw [hMitems]
      intro x hx y hy
      rcases List.mem_flatten.mp hy with ⟨S, hS, hyS⟩
      rcases List.mem_map.mp hS with ⟨i, hiT, rfl⟩
      exact h5 g hg i (hTlt i hiT) (hTnp i hiT) x hx y hyS

lemma saturate_sup (rulesFor : String → List MatchRule) (gs : List EntityGroup)
    (processed : List Nat) :
    ∀ (fuel : Nat) (tm : List Nat), tm ⊆ saturate rulesFor gs processed fuel tm := by
  intro fuel
  induction fuel with
  | zero => intro tm a ha; exact ha
  | succ f ih =>
    intro tm
    simp only [saturate]
    split
    · exact fun a ha => ha
    · intro a ha
      obtain ⟨new, hnew⟩ := scanOnce_shape rulesFor gs processed tm
      exact ih _ (by rw [hnew]; exact List.mem_append_left _ ha)

lemma closureBody_processed_self (rulesFor : String → List MatchRule)
    (gs : List EntityGroup) (st : List EntityGroup × List Nat) (ig : Nat × EntityGroup) :
    ig.1 ∈ (closureBody rulesFor gs st ig).2 := by
  unfold closureBody
  split
  · next h => exact h
  · dsimp only
    exact List.mem_append_right _
      (saturate_sup rulesFor gs st.2 gs.length [ig.1] (by simp))

lemma closureBody_processed_mono (rulesFor : String → List MatchRule)
    (gs : List EntityGroup) (st : List EntityGroup × List Nat) (ig : Nat × EntityGroup)
    (j : Nat) (hj : j ∈ st.2) : j ∈ (closureBody rulesFor gs st ig).2 := by
  unfold closureBody
  split
  · exact hj
  · dsimp only
    exact List.mem_append_left _ hj

lemma closure_state (rulesFor : String → List MatchRule) (L : List EntityItem)
    (gs : List EntityGroup)
    (hconn : ∀ g ∈ gs, Conn rulesFor L g.items)
    (hsub : ∀ g ∈ gs, ∀ x ∈ g.items, x ∈ L) :
    CInv rulesFor L gs (gs.enum.foldl (closureBody rulesFor gs) ([], [])) := by
  refine foldl_pres (CInv rulesFor L gs) gs.enum (closureBody rulesFor gs)
    (fun a y hy ha => closureBody_inv rulesFor L gs hconn hsub a y hy ha) _ ?_
  exact ⟨List.nodup_nil, by simp, by simp [bindItems, tmItems], by simp, by simp,
    List.Pairwise.nil⟩

lemma closure_cover (rulesFor : String → List MatchRule) (gs : List EntityGroup) :
    ∀ j < gs.length, j ∈ (gs.enum.foldl (closureBody rulesFor gs) ([], [])).2 := by
  intro j hj
  exact foldl_cover (closureBody rulesFor gs) (fun y st => y.1 ∈ st.2)
    (fun a y => closureBody_processed_self rulesFor gs a y)
    (fun a y z h => closureBody_processed_mono rulesFor gs a z y.1 h)
    gs.enum ([], []) (j, gs.getD j emptyGroup) (enum_getD_mem gs emptyGroup j hj)

lemma tmItems_range (gs : List EntityGroup) :
    tmItems gs (List.range gs.length) = bindItems gs := by
  unfold tmItems bindItems
  congr 1
  have h1 : (List.range gs.length).map (fun i => (gs.getD i emptyGroup).items)
      = ((List.range gs.length).map (fun i => gs.getD i emptyGroup)).map
          EntityGroup.items := by
    rw [List.map_map]
    rfl
  rw [h1, getD_range_map]

lemma closurePass_spec (rulesFor : String → List MatchRule) (L : List EntityItem)
    (gs : List EntityGroup)
    (hconn : ∀ g ∈ gs, Conn rulesFor L g.items)
    (hsub : ∀ g ∈ gs, ∀ x ∈ g.items, x ∈ L) :
    List.Perm (bindItems (closurePass rulesFor gs)) (bindItems gs) ∧
    (∀ go ∈ closurePass rulesFor gs,
      Conn rulesFor L go.items ∧ (∀ x ∈ go.items, x ∈ L)) ∧
    List.Pairwise (fun g g2 => noEdgeB rulesFor g.items g2.items)
      (closurePass rulesFor gs) := by
  unfold closurePass
  split
  · next hle =>
    refine ⟨List.Perm.refl _, fun go hgo => ⟨hconn go hgo, hsub go hgo⟩, ?_⟩
    rcases gs with _ | ⟨a, _ | ⟨b, rest⟩⟩
    · exact List.Pairwise.nil
    · simp
    · exfalso
      simp only [List.length_cons] at hle
      omega
  next hgt =>
    obtain ⟨c1, c2, c3, c4, c5, c6⟩ := closure_state rulesFor L gs hconn hsub
    have hcov := closure_cover rulesFor gs
    have hpr : List.Perm (gs.enum.foldl (closureBody rulesFor gs) ([], [])).2
        (List.range gs.length) := by
      rw [List.perm_ext_iff_of_nodup c1 (List.nodup_range _)]
      intro a
      constructor
      · intro ha; exact List.mem_range.mpr (c2 a ha)
      · intro ha; exact hcov a (List.mem_range.mp ha)
    refine ⟨?_, c4, c6⟩
    refine List.Perm.trans c3 ?_
    have h2 := List.Perm.flatten
      (List.Perm.map (fun i => (gs.getD i emptyGroup).items) hpr)
    rw [show ((List.range gs.length).map
        (fun i => (gs.getD i emptyGroup).items)).flatten = tmItems gs
          (List.range gs.length) from rfl, tmItems_range] at h2
    exact h2

/-! ### Global assembly: the grouping as connected components -/

lemma starShape_conn (rulesFor : String → List MatchRule) (L : List EntityItem)
    (g : EntityGroup) (hss : starShape rulesFor g)
    (hsub : ∀ x ∈ g.items, x ∈ L) : Conn rulesFor L g.items := by
  obtain ⟨c, mems, hitems, hmatch⟩ := hss
  have hc : ∀ z ∈ g.items, Relation.EqvGen (mrel rulesFor L) c z := by
    intro z hz
    rw [hitems] at hz
    rcases List.mem_cons.mp hz with rfl | hz2
    · exact Relation.EqvGen.refl _
    · refine Relation.EqvGen.rel _ _ ⟨?_, hsub z (by rw [hitems]; exact hz), hmatch z hz2⟩
      exact hsub c (by rw [hitems]; exact List.mem_cons_self _ _)
  intro x hx y hy
  exact Relation.EqvGen.trans _ _ _ (Relation.EqvGen.symm _ _ (hc x hx)) (hc y hy)

lemma bindItems_flatten (ll : List (List EntityGroup)) :
    bindItems ll.flatten = (ll.map bindItems).flatten := by
  induction ll with
  | nil => rfl
  | cons a rest ih =>
    rw [List.flatten_cons, bindItems_append, ih, List.map_cons, List.flatten_cons]

lemma perm_flatten_congr {α β : Type} (l : List β) (f g : β → List α)
    (h : ∀ x ∈ l, List.Perm (f x) (g x)) :
    List.Perm (l.map f).flatten (l.map g).flatten := by
  induction l with
  | nil => exact List.Perm.refl _
  | cons a rest ih =>
    rw [List.map_cons, List.map_cons, List.flatten_cons, List.flatten_cons]
    exact List.Perm.append (h a (List.mem_cons_self _ _))
      (ih (fun x hx => h x (List.mem_cons_of_mem _ hx)))

lemma groupEntities_global (rulesFor : String → List MatchRule) (batch : List RawEntity) :
    List.Perm (bindItems (allGroups (groupEntities rulesFor batch))) (step1 batch) ∧
    (∀ g ∈ allGroups (groupEntities rulesFor batch),
      Conn rulesFor (step1 batch) g.items ∧ (∀ x ∈ g.items, x ∈ step1 batch)) ∧
    List.Pairwise (fun g g2 => noEdgeB rulesFor g.items g2.items)
      (allGroups (groupEntities rulesFor batch)) ∧
    (∀ tp ∈ groupEntities rulesFor batch, ∀ g ∈ tp.2, ∀ x ∈ g.items,
      x.entityType = tp.1) := by
  obtain ⟨hstar1, hstar2, hstar3⟩ := starPass_spec rulesFor (step1 batch)
  set L := step1 batch with hL
  set byType := starPass rulesFor L with hBT
  have hge : groupEntities rulesFor batch =
      byType.map (fun p => (p.1, closurePass rulesFor p.2)) := rfl
  have hbconn : ∀ p ∈ byType, ∀ g ∈ p.2, Conn rulesFor L g.items := by
    intro p hp g hg
    have h3 := hstar3 p hp g hg
    exact starShape_conn rulesFor L g h3.2.2.1 h3.2.2.2
  have hbsub : ∀ p ∈ byType, ∀ g ∈ p.2, ∀ x ∈ g.items, x ∈ L :=
    fun p hp g hg => (hstar3 p hp g hg).2.2.2
  have hbtype : ∀ p ∈ byType, ∀ x ∈ bindItems p.2, x.entityType = p.1 := by
    intro p hp x hx
    rcases List.mem_flatten.mp hx with ⟨S, hS, hxS⟩
    rcases List.mem_map.mp hS with ⟨g, hg, rfl⟩
    exact (hstar3 p hp g hg).2.1 x hxS
  have hcl := fun p (hp : p ∈ byType) =>
    closurePass_spec rulesFor L p.2 (hbconn p hp) (hbsub p hp)
  have hall : allGroups (groupEntities rulesFor batch) =
      (byType.map (fun p => closurePass rulesFor p.2)).flatten := by
    rw [hge]
    unfold allGroups
    rw [List.map_map]
    rfl
  have hperm : List.Perm (bindItems (allGroups (groupEntities rulesFor batch))) L := by
    rw [hall, bindItems_flatten, List.map_map]
    have hstep := perm_flatten_congr byType
      (bindItems ∘ fun p => closurePass rulesFor p.2) (fun p => bindItems p.2)
      (fun p hp => (hcl p hp).1)
    refine List.Perm.trans hstep ?_
    have heq : (byType.map (fun p => bindItems p.2)).flatten = allStarItems byType := by
      show _ = bindItems ((byType.map Prod.snd).flatten)
      rw [bindItems_flatten, List.map_map]
      rfl
    rw [heq]
    exact hstar1
  have hgrp : ∀ g ∈ allGroups (groupEntities rulesFor batch),
      Conn rulesFor L g.items ∧ (∀ x ∈ g.items, x ∈ L) := by
    intro g hg
    rw [hall] at hg
    rcases List.mem_flatten.mp hg with ⟨gl, hgl, hggl⟩
    rcases List.mem_map.mp hgl with ⟨p, hp, rfl⟩
    exact (hcl p hp).2.1 g hggl
  have hpw : List.Pairwise (fun g g2 => noEdgeB rulesFor g.items g2.items)
      (allGroups (groupEntities rulesFor batch)) := by
    rw [hall, List.pairwise_flatten]
    constructor
    · intro lg hlg
      rcases List.mem_map.mp hlg with ⟨p, hp, rfl⟩
      exact (hcl p hp).2.2
    · rw [List.pairwise_map]
      have hkeysne : List.Pairwise (fun (p q : String × List EntityGroup) =>
          p.1 ≠ q.1) byType := by
        have h2 := hstar2
        rw [List.Nodup, List.pairwise_map] at h2
        exact h2
      refine List.Pairwise.imp_of_mem ?_ hkeysne
      intro p q hp hq hne a ha b hb
      intro x hx y hy
      have hxp : x ∈ bindItems p.2 := ((hcl p hp).1.mem_iff).mp
        (List.mem_flatten.mpr ⟨a.items, List.mem_map.mpr ⟨a, ha, rfl⟩, hx⟩)
      have hyq : y ∈ bindItems q.2 := ((hcl q hq).1.mem_iff).mp
        (List.mem_flatten.mpr ⟨b.items, List.mem_map.mpr ⟨b, hb, rfl⟩, hy⟩)
      apply entitiesMatch_ne_types
      rw [hbtype p hp x hxp, hbtype q hq y hyq]
      exact hne
  have hty : ∀ tp ∈ groupEntities rulesFor batch, ∀ g ∈ tp.2, ∀ x ∈ g.items,
      x.entityType = tp.1 := by
    intro tp htp g hg x hx
    rw [hge] at htp
    rcases List.mem_map.mp htp with ⟨p, hp, rfl⟩
    have hxp : x ∈ bindItems p.2 := ((hcl p hp).1.mem_iff).mp
      (List.mem_flatten.mpr ⟨g.items, List.mem_map.mpr ⟨g, hg, rfl⟩, hx⟩)
    exact hbtype p hp x hxp
  exact ⟨hperm, hgrp, hpw, hty⟩

lemma allG_cover (rulesFor : String → List MatchRule) (batch : List RawEntity)
    (x : EntityItem) (hx : x ∈ step1 batch) :
    ∃ g ∈ allGroups (groupEntities rulesFor batch), x ∈ g.items := by
  have hperm := (groupEntities_global rulesFor batch).1
  have hmem : x ∈ bindItems (allGroups (groupEntities rulesFor batch)) :=
    hperm.mem_iff.mpr hx
  rcases List.mem_flatten.mp hmem with ⟨S, hS, hxS⟩
  rcases List.mem_map.mp hS with ⟨g, hg, rfl⟩
  exact ⟨g, hg, hxS⟩

lemma allG_unique (rulesFor : String → List MatchRule) (batch : List RawEntity)
    (g g2 : EntityGroup) (y : EntityItem)
    (hg : g ∈ allGroups (groupEntities rulesFor batch))
    (hg2 : g2 ∈ allGroups (groupEntities rulesFor batch))
    (hy : y ∈ g.items) (hy2 : y ∈ g2.items) : g = g2 := by
  by_contra hne
  have hnd : (bindItems (allGroups (groupEntities rulesFor batch))).Nodup :=
    ((groupEntities_global rulesFor batch).1.symm).nodup (step1_nodup batch)
  have hdisj := (List.nodup_flatten.mp hnd).2
  rw [List.pairwise_map] at hdisj
  have hsym : Symmetric (fun a b : EntityGroup => a.items.Disjoint b.items) :=
    fun a b h => h.symm
  exact (hdisj.forall hsym hg hg2 hne) hy hy2

lemma allG_closed (rulesFor : String → List MatchRule) (batch : List RawEntity)
    (g : EntityGroup) (x y : EntityItem)
    (hg : g ∈ allGroups (groupEntities rulesFor batch)) (hx : x ∈ g.items)
    (hxy : mrel rulesFor (step1 batch) x y) : y ∈ g.items := by
  obtain ⟨g2, hg2, hyg2⟩ := allG_cover rulesFor batch y hxy.2.1
  by_cases heq : g = g2
  · subst heq; exact hyg2
  · exfalso
    have hpw := (groupEntities_global rulesFor batch).2.2.1
    have hsym : Symmetric (fun a b : EntityGroup => noEdgeB rulesFor a.items b.items) := by
      intro a b h u hu v hv
      have h2 := h v hv u hu
      rw [entitiesMatch_comm] at h2
      exact h2
    have hne := hpw.forall hsym hg hg2 heq
    have hfalse := hne x hx y hyg2
    rw [hxy.2.2] at hfalse
    cases hfalse

lemma eqvGen_same_group (rulesFor : String → List MatchRule) (batch : List RawEntity)
    (x y : EntityItem) (h : Relation.EqvGen (mrel rulesFor (step1 batch)) x y) :
    x = y ∨ ∃ g ∈ allGroups (groupEntities rulesFor batch),
      x ∈ g.items ∧ y ∈ g.items := by
  induction h with
  | rel a b hab =>
    right
    obtain ⟨g, hg, hag⟩ := allG_cover rulesFor batch a hab.1
    exact ⟨g, hg, hag, allG_closed rulesFor batch g a b hg hag hab⟩
  | refl a => exact Or.inl rfl
  | symm a b hab ih =>
    rcases ih with rfl | ⟨g, hg, h1, h2⟩
    · exact Or.inl rfl
    · exact Or.inr ⟨g, hg, h2, h1⟩
  | trans a b c hab hbc ih1 ih2 =>
    rcases ih1 with rfl | ⟨g, hg, h1, h2⟩
    · exact ih2
    · rcases ih2 with rfl | ⟨g2, hg2, h3, h4⟩
      · exact Or.inr ⟨g, hg, h1, h2⟩
      · right
        have hgg := allG_unique rulesFor batch g g2 b hg hg2 h2 h3
        subst hgg
        exact ⟨g, hg, h1, h4⟩

/-! ### C1 and C10 -/

/-- C1: the grouping of `process_entities_systematic` followed by
`_apply_transitive_closure_systematic` computes exactly the connected
components of the pairwise match relation on the step-1 items: two items
share a group iff they are related by the equivalence closure of the match
relation — a characterization independent of the input order, since the
right-hand side does not mention the order; in particular, whenever
match(a,b) and match(b,c) hold, exactly one group contains a, b and c
together. -/
theorem c1_grouping_connected_components (rulesFor : String → List MatchRule)
    (batch : List RawEntity) (a b c : EntityItem)
    (ha : a ∈ step1 batch) (hb : b ∈ step1 batch) (hc : c ∈ step1 batch)
    (hab : (entitiesMatch rulesFor a b).1 = true)
    (hbc : (entitiesMatch rulesFor b c).1 = true) :
    (∃! g, g ∈ allGroups (groupEntities rulesFor batch) ∧
      a ∈ g.items ∧ b ∈ g.items ∧ c ∈ g.items) ∧
    (∀ x ∈ step1 batch, ∀ y ∈ step1 batch,
      ((∃ g ∈ allGroups (groupEntities rulesFor batch), x ∈ g.items ∧ y ∈ g.items) ↔
        Relation.EqvGen (mrel rulesFor (step1 batch)) x y)) := by
  constructor
  · obtain ⟨g, hg, hag⟩ := allG_cover rulesFor batch a ha
    have hbg : b ∈ g.items := allG_closed rulesFor batch g a b hg hag ⟨ha, hb, hab⟩
    have hcg : c ∈ g.items := allG_closed rulesFor batch g b c hg hbg ⟨hb, hc, hbc⟩
    refine ⟨g, ⟨hg, hag, hbg, hcg⟩, ?_⟩
    rintro g2 ⟨hg2, hag2, hbg2, hcg2⟩
    exact allG_unique rulesFor batch g2 g a hg2 hg hag2 hag
  · intro x hx y hy
    constructor
    · rintro ⟨g, hg, hxg, hyg⟩
      exact ((groupEntities_global rulesFor batch).2.1 g hg).1 x hxg y hyg
    · intro h
      rcases eqvGen_same_group rulesFor batch x y h with rfl | hsg
      · obtain ⟨g, hg, hxg⟩ := allG_cover rulesFor batch x hx
        exact ⟨g, hg, hxg, hxg⟩
      · exact hsg

def c1rules : String → List MatchRule := fun _ => []

def c1rec : RawEntity :=
  ⟨some "Person", none, some "X", none, [("name", Value.vStr "X")]⟩

def c1batch : List RawEntity := [c1rec, c1rec, c1rec]

def c1a : EntityItem := mkItem 0 c1rec

def c1b : EntityItem := mkItem 1 c1rec

def c1c : EntityItem := mkItem 2 c1rec

/-- Witness for C1 at a concrete three-record batch of matching Person
records. -/
theorem c1_grouping_connected_components_witness :
    (∃! g, g ∈ allGroups (groupEntities c1rules c1batch) ∧
      c1a ∈ g.items ∧ c1b ∈ g.items ∧ c1c ∈ g.items) ∧
    (∀ x ∈ step1 c1batch, ∀ y ∈ step1 c1batch,
      ((∃ g ∈ allGroups (groupEntities c1rules c1batch), x ∈ g.items ∧ y ∈ g.items) ↔
        Relation.EqvGen (mrel c1rules (step1 c1batch)) x y)) :=
  c1_grouping_connected_components c1rules c1batch c1a c1b c1c
    (by decide) (by decide) (by decide) (by decide) (by decide)

/-- C10: grouping partitions the valid input: a record with truthy entity
type and name appears, as its step-1 item, exactly once across the items of
all produced groups, and only inside the bucket of its own entity type; a
record missing either field contributes to no group. -/
theorem c10_grouping_partitions (rulesFor : String → List MatchRule)
    (batch : List RawEntity) (k : Nat) (r : RawEntity)
    (hk : batch.get? k = some r) :
    (keepRec r = true →
      (bindItems (allGroups (groupEntities rulesFor batch))).count (mkItem k r) = 1 ∧
      ∀ tp ∈ groupEntities rulesFor batch, ∀ g ∈ tp.2, mkItem k r ∈ g.items →
        tp.1 = (mkItem k r).entityType) ∧
    (keepRec r = false →
      ∀ g ∈ allGroups (groupEntities rulesFor batch), ∀ it ∈ g.items,
        it.batchId ≠ k) := by
  constructor
  · intro hkeep
    constructor
    · have hmem := step1_mem_of_get? batch k r hk hkeep
      have hperm := (groupEntities_global rulesFor batch).1
      rw [List.Perm.count_eq hperm (mkItem k r)]
      exact List.count_eq_one_of_mem (step1_nodup batch) hmem
    · intro tp htp g hg hx
      exact (((groupEntities_global rulesFor batch).2.2.2) tp htp g hg _ hx).symm
  · intro hkeep g hg it hit
    have hsub := ((groupEntities_global rulesFor batch).2.1 g hg).2 it hit
    exact step1_no_dropped batch k r hk hkeep it hsub

def c10rules : String → List MatchRule := fun _ => []

def c10rec : RawEntity := ⟨some "Person", none, some "X", none, []⟩

def c10batch : List RawEntity := [c10rec, ⟨none, none, none, none, []⟩]

/-- Witness for C10 at a concrete two-record batch with one valid and one
invalid record. -/
theorem c10_grouping_partitions_witness :
    (keepRec c10rec = true →
      (bindItems (allGroups (groupEntities c10rules c10batch))).count
        (mkItem 0 c10rec) = 1 ∧
      ∀ tp ∈ groupEntities c10rules c10batch, ∀ g ∈ tp.2,
        mkItem 0 c10rec ∈ g.items → tp.1 = (mkItem 0 c10rec).entityType) ∧
    (keepRec c10rec = false →
      ∀ g ∈ allGroups (groupEntities c10rules c10batch), ∀ it ∈ g.items,
        it.batchId ≠ 0) :=
  c10_grouping_partitions c10rules c10batch 0 c10rec (by decide)

end WorkspaceKG
